import Mathlib

/-!
Shallow embedding of the memory-hierarchy simulator
(adam-mcdaniel/memory-hierarchy-simulator) in Lean 4, together with
theorems settling the claims about its specification.

Machine integers (`u64` in the source) are modelled as `Nat`; the source's
`overflowing_shr` (shift amount taken mod 64), `u64::MAX`, and the bitwise
complement `!x` on 64 bits are modelled explicitly.  Operations that index a
vector (and hence can panic in the source) return `Option`, with `none`
standing for the panic.
-/

namespace MemSim

/-- Value of `u64::MAX`. -/
def u64MAX : Nat := 2 ^ 64 - 1

/-- Bitwise complement `!x` on a 64-bit value (`x` assumed `< 2^64`). -/
def u64_not (x : Nat) : Nat := u64MAX ^^^ x

/-- Semantics of `u64::overflowing_shr(sh).0`: the shift amount is taken
mod 64. -/
def overflowing_shr (v sh : Nat) : Nat := v >>> (sh % 64)

/-- Semantics of `u64::trailing_zeros`: index of the lowest set bit, 64 for 0
(values assumed `< 2^64`). -/
def u64_trailing_zeros (n : Nat) : Nat :=
  (((List.range 64).find? (fun i => n.testBit i)).getD 64)

/-! ## trace.rs -/

/-- Source: `Operation` in trace.rs, a read or a write access at an address. -/
inductive Operation where
  | Read (addr : Nat)
  | Write (addr : Nat)
deriving Repr, DecidableEq

/-- Source: `Operation::is_read`. -/
def Operation.is_read : Operation → Bool
  | .Read _ => true
  | .Write _ => false

/-- Source: `Operation::is_write`. -/
def Operation.is_write : Operation → Bool
  | .Read _ => false
  | .Write _ => true

/-- Source: `Operation::address`. -/
def Operation.address : Operation → Nat
  | .Read a => a
  | .Write a => a

/-- Source: `BlockAddress` in trace.rs, the decoded view of an address. -/
structure BlockAddress where
  tag : Nat
  index : Nat
  offset : Nat
  tag_bits : Nat
  index_bits : Nat
  offset_bits : Nat
deriving Repr, DecidableEq

/-- Source: `BlockAddress::new`.  In the source `tag_bits` is computed with
`u64` subtraction, so the claims only apply when
`index_bits + offset_bits <= 32`. -/
def BlockAddress.new (address index_bits offset_bits : Nat) : BlockAddress :=
  { tag := address >>> (index_bits + offset_bits)
    index := (address >>> offset_bits) &&& (2 ^ index_bits - 1)
    offset := address &&& (2 ^ offset_bits - 1)
    tag_bits := 32 - index_bits - offset_bits
    index_bits := index_bits
    offset_bits := offset_bits }

/-- Source: `BlockAddress::get_address`. -/
def BlockAddress.get_address (a : BlockAddress) : Nat :=
  (a.tag <<< (a.offset_bits + a.index_bits)) ||| (a.index <<< a.offset_bits) ||| a.offset

/-! ## cache.rs: blocks, sets, caches -/

/-- Source: `EvictionPolicy` in cache.rs. -/
inductive EvictionPolicy where
  | LRU
  | FIFO
  | Random
deriving Repr, DecidableEq

/-- Source: `Block` in cache.rs (a cache line). -/
structure Block where
  tag : Nat
  index : Nat
  dirty : Bool
  size : Nat
  last_access : Nat
  first_access : Nat
deriving Repr, DecidableEq

instance : Inhabited Block := ⟨⟨0, 0, false, 0, 0, 0⟩⟩

/-- Source: `Block::new`. -/
def Block.new (tag index size current_access_time : Nat) : Block :=
  { tag := tag, index := index, dirty := false, size := size
    last_access := current_access_time, first_access := current_access_time }

/-- Source: `Block::write` (sets dirty, refreshes last access). -/
def Block.write (b : Block) (current_access_time : Nat) : Block :=
  { b with dirty := true, last_access := current_access_time }

/-- Source: `Block::read` (refreshes last access only). -/
def Block.read (b : Block) (current_access_time : Nat) : Block :=
  { b with last_access := current_access_time }

/-- Source: `Set` in cache.rs.  (Named `CSet` because `Set` is taken by the
Lean library; the fields and operations keep the source's names.) -/
structure CSet where
  blocks : List (Option Block)
  block_size : Nat
  evict_policy : EvictionPolicy
deriving Repr, DecidableEq

/-- Source: `Set::new`. -/
def CSet.new (block_size associativity : Nat) (evict_policy : EvictionPolicy) : CSet :=
  { blocks := List.replicate associativity none
    block_size := block_size
    evict_policy := evict_policy }

/-- Source: `Set::is_full`. -/
def CSet.is_full (s : CSet) : Bool := s.blocks.all (·.isSome)

/-- Source: `Set::get_tags`: tags of the present blocks in slot order. -/
def CSet.get_tags (s : CSet) : List Nat :=
  s.blocks.filterMap (fun b => b.map (·.tag))

/-- Source: `Set::get_block_with_tag`: first present block with the tag. -/
def CSet.get_block_with_tag (s : CSet) (tag : Nat) : Option Block :=
  (s.blocks.filterMap id).find? (fun b => b.tag == tag)

/-- Helper for `Set::evict_tag`: clear the first slot holding a block with the
tag, returning it. -/
def evictTagAux (tag : Nat) : List (Option Block) → Option Block × List (Option Block)
  | [] => (none, [])
  | none :: rest =>
      let r := evictTagAux tag rest
      (r.1, none :: r.2)
  | some b :: rest =>
      if b.tag = tag then (some b, none :: rest)
      else
        let r := evictTagAux tag rest
        (r.1, some b :: r.2)

/-- Source: `Set::evict_tag`. -/
def CSet.evict_tag (s : CSet) (tag : Nat) : Option Block × CSet :=
  let r := evictTagAux tag s.blocks
  (r.1, { s with blocks := r.2 })

/-- Source: the FIFO/LRU scan in `EvictionPolicy::evict`: fold over the
remaining tags keeping the block whose key is strictly smaller than the
best seen so far (so ties keep the earlier block). -/
def scanOldest (s : CSet) (key : Block → Nat) (tags : List Nat) (best : Block) : Block :=
  match tags with
  | [] => best
  | tg :: rest =>
      let b := (s.get_block_with_tag tg).getD default
      if key b < key best then scanOldest s key rest b
      else scanOldest s key rest best

/-- Source: `EvictionPolicy::evict`.  The extra `rnd` argument is the draw of
`rand::random::<usize>()` made by the `Random` arm; `LRU` and `FIFO` ignore
it.  On a full set with no slots at all the source asserts (panics); here
that unreachable case returns `(none, s)`. -/
def EvictionPolicy.evict (p : EvictionPolicy) (s : CSet) (rnd : Nat) : Option Block × CSet :=
  if ¬s.is_full then (none, s)
  else
    match s.get_tags with
    | [] => (none, s)
    | first_tag :: rest =>
      match p with
      | .FIFO =>
          let oldest := scanOldest s (fun b => b.first_access) rest
            ((s.get_block_with_tag first_tag).getD default)
          (some oldest, (s.evict_tag oldest.tag).2)
      | .LRU =>
          let oldest := scanOldest s (fun b => b.last_access) rest
            ((s.get_block_with_tag first_tag).getD default)
          (some oldest, (s.evict_tag oldest.tag).2)
      | .Random =>
          let random_tag := (first_tag :: rest).getD (rnd % (first_tag :: rest).length) 0
          let result := (s.get_block_with_tag random_tag).getD default
          (some result, (s.evict_tag random_tag).2)

/-- Source: `Set::evict` (delegates to the policy). -/
def CSet.evict (s : CSet) (rnd : Nat) : Option Block × CSet :=
  s.evict_policy.evict s rnd

/-- Helper for `Set::allocate_block`: place the block in the first empty
slot (no slot: unchanged, as in the source). -/
def insertFirstEmpty (b : Block) : List (Option Block) → List (Option Block)
  | [] => []
  | none :: rest => some b :: rest
  | some x :: rest => some x :: insertFirstEmpty b rest

/-- Source: `Set::allocate_block`: evict if full, then fill the first empty
slot with a fresh block. -/
def CSet.allocate_block (s : CSet) (a : BlockAddress) (current_access_time rnd : Nat) :
    Option Block × CSet :=
  let r := if s.is_full then s.evict rnd else (none, s)
  let s1 := r.2
  (r.1, { s1 with blocks := insertFirstEmpty (Block.new a.tag a.index s1.block_size current_access_time) s1.blocks })

/-- Helper for `Set::try_write` and `Set::try_read`: update the first
present block with the tag, reporting whether one was found. -/
def updateFirstWithTag (tag : Nat) (f : Block → Block) :
    List (Option Block) → Bool × List (Option Block)
  | [] => (false, [])
  | none :: rest =>
      let r := updateFirstWithTag tag f rest
      (r.1, none :: r.2)
  | some b :: rest =>
      if b.tag = tag then (true, some (f b) :: rest)
      else
        let r := updateFirstWithTag tag f rest
        (r.1, some b :: r.2)

/-- Source: `Set::try_write`. -/
def CSet.try_write (s : CSet) (a : BlockAddress) (current_access_time : Nat) : Bool × CSet :=
  let r := updateFirstWithTag a.tag (fun b => b.write current_access_time) s.blocks
  (r.1, { s with blocks := r.2 })

/-- Source: `Set::try_read`. -/
def CSet.try_read (s : CSet) (a : BlockAddress) (current_access_time : Nat) : Bool × CSet :=
  let r := updateFirstWithTag a.tag (fun b => b.read current_access_time) s.blocks
  (r.1, { s with blocks := r.2 })

/-- Source: `Set::get_block_with_addr` (lookup by the address's tag). -/
def CSet.get_block_with_addr (s : CSet) (a : BlockAddress) : Option Block :=
  (s.blocks.filterMap id).find? (fun b => b.tag == a.tag)

/-- Source: `Set::is_hit`. -/
def CSet.is_hit (s : CSet) (a : BlockAddress) : Bool :=
  (s.get_block_with_addr a).isSome

/-- Source: `Set::write_and_allocate`. -/
def CSet.write_and_allocate (s : CSet) (a : BlockAddress) (t rnd : Nat) : Option Block × CSet :=
  let r := s.try_write a t
  if r.1 then (none, r.2)
  else
    let r2 := r.2.allocate_block a t rnd
    (r2.1, (r2.2.try_write a t).2)

/-- Source: `Set::read_and_allocate`. -/
def CSet.read_and_allocate (s : CSet) (a : BlockAddress) (t rnd : Nat) : Option Block × CSet :=
  let r := s.try_read a t
  if r.1 then (none, r.2)
  else
    let r2 := r.2.allocate_block a t rnd
    (r2.1, (r2.2.try_read a t).2)

/-- Source: `Set::is_write_and_allocate_hit`: hit status observed before the
allocate. -/
def CSet.is_write_and_allocate_hit (s : CSet) (a : BlockAddress) (t rnd : Nat) : Bool × CSet :=
  let h := s.is_hit a
  (h, (s.write_and_allocate a t rnd).2)

/-- Source: `Set::is_read_and_allocate_hit`: hit status observed before the
allocate. -/
def CSet.is_read_and_allocate_hit (s : CSet) (a : BlockAddress) (t rnd : Nat) : Bool × CSet :=
  let h := s.is_hit a
  (h, (s.read_and_allocate a t rnd).2)

/-- Source: `Cache` in cache.rs. -/
structure Cache where
  sets : List CSet
  associativity : Nat
  evict_policy : EvictionPolicy
deriving Repr, DecidableEq

/-- Source: `Cache::new`. -/
def Cache.new (sets : Nat) (block_size associativity : Nat) (evict_policy : EvictionPolicy) :
    Cache :=
  { sets := List.replicate sets (CSet.new block_size associativity evict_policy)
    associativity := associativity
    evict_policy := evict_policy }

/-- Generic helper: run a set-level operation on the set at `i`, `none` when
the index is out of range (the source indexes the vector directly, which
panics there). -/
def Cache.onSet (c : Cache) (i : Nat) (f : CSet → α × CSet) : Option (α × Cache) :=
  match c.sets.get? i with
  | none => none
  | some s =>
      let r := f s
      some (r.1, { c with sets := c.sets.set i r.2 })

/-- Source: `Cache::get` (first present block with the address's tag in the
addressed set). -/
def Cache.get (c : Cache) (a : BlockAddress) : Option Block :=
  match c.sets.get? a.index with
  | none => none
  | some s => s.get_block_with_addr a

/-- Source: `Cache::is_hit`. -/
def Cache.is_hit (c : Cache) (a : BlockAddress) : Bool :=
  (c.get a).isSome

/-- Source: `Cache::try_write`. -/
def Cache.try_write (c : Cache) (a : BlockAddress) (t : Nat) : Option (Bool × Cache) :=
  c.onSet a.index (fun s => s.try_write a t)

/-- Source: `Cache::try_read`. -/
def Cache.try_read (c : Cache) (a : BlockAddress) (t : Nat) : Option (Bool × Cache) :=
  c.onSet a.index (fun s => s.try_read a t)

/-- Source: `Cache::is_write_and_allocate_hit`. -/
def Cache.is_write_and_allocate_hit (c : Cache) (a : BlockAddress) (t rnd : Nat) :
    Option (Bool × Cache) :=
  c.onSet a.index (fun s => s.is_write_and_allocate_hit a t rnd)

/-- Source: `Cache::is_read_and_allocate_hit`. -/
def Cache.is_read_and_allocate_hit (c : Cache) (a : BlockAddress) (t rnd : Nat) :
    Option (Bool × Cache) :=
  c.onSet a.index (fun s => s.is_read_and_allocate_hit a t rnd)

/-- Modelled from the spec: `Cache::invalidate(addr)` is declared in the
spec's GenericCache interface and called by `DataCache::invalidate_page` and
`TLBCache::invalidate_page`, but its body is not among the given sources.
Per the spec it removes the block at the given address from its set and
returns it; this is exactly `Set::evict_tag` on the addressed set. -/
def Cache.invalidate (c : Cache) (a : BlockAddress) : Option (Option Block × Cache) :=
  c.onSet a.index (fun s => s.evict_tag a.tag)

/-! ## config.rs -/

/-- Source: `TLBConfig` in config.rs. -/
structure TLBConfig where
  number_of_sets : Nat
  set_size : Nat
deriving Repr, DecidableEq

/-- Source: `TLBConfig::get_eviction_policy` (always LRU). -/
def TLBConfig.get_eviction_policy (_ : TLBConfig) : EvictionPolicy := .LRU

/-- Source: `TLBConfig::get_index_bits`. -/
def TLBConfig.get_index_bits (c : TLBConfig) : Nat := u64_trailing_zeros c.number_of_sets

/-- Source: `TLBConfig::get_number_of_sets`. -/
def TLBConfig.get_number_of_sets (c : TLBConfig) : Nat := c.number_of_sets

/-- Source: `TLBConfig::get_entries_in_set`. -/
def TLBConfig.get_entries_in_set (c : TLBConfig) : Nat := c.set_size

/-- Source: `PageTableConfig` in config.rs. -/
structure PageTableConfig where
  number_of_virtual_pages : Nat
  number_of_physical_pages : Nat
  page_size : Nat
deriving Repr, DecidableEq

/-- Source: `PageTableConfig::get_page_size`. -/
def PageTableConfig.get_page_size (c : PageTableConfig) : Nat := c.page_size

/-- Source: `PageTableConfig::get_index_bits`. -/
def PageTableConfig.get_index_bits (c : PageTableConfig) : Nat :=
  u64_trailing_zeros c.number_of_virtual_pages

/-- Source: `PageTableConfig::get_offset_bits`. -/
def PageTableConfig.get_offset_bits (c : PageTableConfig) : Nat :=
  u64_trailing_zeros c.page_size

/-- Source: `DataCacheConfig` in config.rs. -/
structure DataCacheConfig where
  number_of_sets : Nat
  set_size : Nat
  line_size : Nat
  write_through : Bool
deriving Repr, DecidableEq

/-- Source: `DataCacheConfig::get_index_bits`. -/
def DataCacheConfig.get_index_bits (c : DataCacheConfig) : Nat :=
  u64_trailing_zeros c.number_of_sets

/-- Source: `DataCacheConfig::get_offset_bits`. -/
def DataCacheConfig.get_offset_bits (c : DataCacheConfig) : Nat :=
  u64_trailing_zeros c.line_size

/-- Source: `DataCacheConfig::is_write_through`. -/
def DataCacheConfig.is_write_through (c : DataCacheConfig) : Bool := c.write_through

/-- Source: `DataCacheConfig::is_write_back`. -/
def DataCacheConfig.is_write_back (c : DataCacheConfig) : Bool := ¬c.write_through

/-- Source: `DataCacheConfig::is_write_allocate` (write-back implies
write-allocate). -/
def DataCacheConfig.is_write_allocate (c : DataCacheConfig) : Bool := ¬c.write_through

/-- Source: `DataCacheConfig::get_associativity`. -/
def DataCacheConfig.get_associativity (c : DataCacheConfig) : Nat := c.set_size

/-- Source: `DataCacheConfig::get_block_size`. -/
def DataCacheConfig.get_block_size (c : DataCacheConfig) : Nat := c.line_size

/-- Source: `DataCacheConfig::get_eviction_policy` (always LRU). -/
def DataCacheConfig.get_eviction_policy (_ : DataCacheConfig) : EvictionPolicy := .LRU

/-- Source: `DataCacheConfig::get_number_of_sets`. -/
def DataCacheConfig.get_number_of_sets (c : DataCacheConfig) : Nat := c.number_of_sets

/-- Source: `L2CacheConfig` in config.rs (same shape as the data-cache
configuration). -/
structure L2CacheConfig where
  number_of_sets : Nat
  set_size : Nat
  line_size : Nat
  write_through : Bool
deriving Repr, DecidableEq

/-- Source: `L2CacheConfig::get_index_bits`. -/
def L2CacheConfig.get_index_bits (c : L2CacheConfig) : Nat :=
  u64_trailing_zeros c.number_of_sets

/-- Source: `L2CacheConfig::get_offset_bits`. -/
def L2CacheConfig.get_offset_bits (c : L2CacheConfig) : Nat :=
  u64_trailing_zeros c.line_size

/-- Source: `L2CacheConfig::is_write_through`. -/
def L2CacheConfig.is_write_through (c : L2CacheConfig) : Bool := c.write_through

/-- Source: `L2CacheConfig::is_write_back`. -/
def L2CacheConfig.is_write_back (c : L2CacheConfig) : Bool := ¬c.write_through

/-- Source: `L2CacheConfig::is_write_allocate`. -/
def L2CacheConfig.is_write_allocate (c : L2CacheConfig) : Bool := ¬c.write_through

/-- Source: `L2CacheConfig::get_associativity`. -/
def L2CacheConfig.get_associativity (c : L2CacheConfig) : Nat := c.set_size

/-- Source: `L2CacheConfig::get_block_size`. -/
def L2CacheConfig.get_block_size (c : L2CacheConfig) : Nat := c.line_size

/-- Source: `L2CacheConfig::get_eviction_policy` (always LRU). -/
def L2CacheConfig.get_eviction_policy (_ : L2CacheConfig) : EvictionPolicy := .LRU

/-- Source: `L2CacheConfig::get_number_of_sets`. -/
def L2CacheConfig.get_number_of_sets (c : L2CacheConfig) : Nat := c.number_of_sets

/-- Source: `SimulatorConfig` in config.rs. -/
structure SimulatorConfig where
  virtual_addresses_enabled : Bool
  tlb_enabled : Bool
  l2_cache_enabled : Bool
  tlb : TLBConfig
  page_table : PageTableConfig
  data_cache : DataCacheConfig
  l2_cache : L2CacheConfig
deriving Repr, DecidableEq

/-- Source: `SimulatorConfig::get_page_size`. -/
def SimulatorConfig.get_page_size (c : SimulatorConfig) : Nat := c.page_table.get_page_size

/-- Source: `SimulatorConfig::get_tlb_index_bits`. -/
def SimulatorConfig.get_tlb_index_bits (c : SimulatorConfig) : Nat := c.tlb.get_index_bits

/-- Source: `SimulatorConfig::get_page_table_index_bits`. -/
def SimulatorConfig.get_page_table_index_bits (c : SimulatorConfig) : Nat :=
  c.page_table.get_index_bits

/-- Source: `SimulatorConfig::get_page_table_offset_bits`. -/
def SimulatorConfig.get_page_table_offset_bits (c : SimulatorConfig) : Nat :=
  c.page_table.get_offset_bits

/-- Source: `SimulatorConfig::get_data_cache_index_bits`. -/
def SimulatorConfig.get_data_cache_index_bits (c : SimulatorConfig) : Nat :=
  c.data_cache.get_index_bits

/-- Source: `SimulatorConfig::get_data_cache_offset_bits`. -/
def SimulatorConfig.get_data_cache_offset_bits (c : SimulatorConfig) : Nat :=
  c.data_cache.get_offset_bits

/-- Source: `SimulatorConfig::get_l2_cache_index_bits`. -/
def SimulatorConfig.get_l2_cache_index_bits (c : SimulatorConfig) : Nat :=
  c.l2_cache.get_index_bits

/-- Source: `SimulatorConfig::get_l2_cache_offset_bits`. -/
def SimulatorConfig.get_l2_cache_offset_bits (c : SimulatorConfig) : Nat :=
  c.l2_cache.get_offset_bits

/-- Source: `SimulatorConfig::is_tlb_enabled`. -/
def SimulatorConfig.is_tlb_enabled (c : SimulatorConfig) : Bool := c.tlb_enabled

/-- Source: `SimulatorConfig::is_l2_cache_enabled`. -/
def SimulatorConfig.is_l2_cache_enabled (c : SimulatorConfig) : Bool := c.l2_cache_enabled

/-- Source: `SimulatorConfig::is_virtual_addresses_enabled`. -/
def SimulatorConfig.is_virtual_addresses_enabled (c : SimulatorConfig) : Bool :=
  c.virtual_addresses_enabled

/-! ## Cache-geometry address constructors (trace.rs) -/

/-- Source: `BlockAddress::new_data_cache_address`. -/
def BlockAddress.new_data_cache_address (address : Nat) (config : SimulatorConfig) :
    BlockAddress :=
  BlockAddress.new address config.get_data_cache_index_bits config.get_data_cache_offset_bits

/-- Source: `BlockAddress::new_l2_cache_address`. -/
def BlockAddress.new_l2_cache_address (address : Nat) (config : SimulatorConfig) :
    BlockAddress :=
  BlockAddress.new address config.get_l2_cache_index_bits config.get_l2_cache_offset_bits

/-- Source: `BlockAddress::new_tlb_address`: the submitted key is the virtual
page number (page-masked address shifted right by the page-offset bits),
decoded with zero offset bits. -/
def BlockAddress.new_tlb_address (address : Nat) (config : SimulatorConfig) : BlockAddress :=
  let index_bits := config.get_tlb_index_bits
  let page_number :=
    (address &&& u64_not (config.get_page_size - 1)) >>> config.get_page_table_offset_bits
  BlockAddress.new page_number index_bits 0

/-! ## pagetable.rs -/

/-- Source: `PageTableEntry` in pagetable.rs. -/
structure PageTableEntry where
  physical_address : Nat
  virtual_address : Nat
  last_access_time : Nat
  page_size : Nat
deriving Repr, DecidableEq

/-- Source: `PageTableEntry::new`. -/
def PageTableEntry.new (physical_address virtual_address page_size current_access_time : Nat) :
    PageTableEntry :=
  { physical_address := physical_address, virtual_address := virtual_address
    page_size := page_size, last_access_time := current_access_time }

/-- Source: `PageTableEntry::get_physical_address` (page-masks the stored
address). -/
def PageTableEntry.get_physical_address (e : PageTableEntry) : Nat :=
  e.physical_address &&& u64_not (e.page_size - 1)

/-- Source: `PageTableEntry::get_virtual_address`. -/
def PageTableEntry.get_virtual_address (e : PageTableEntry) : Nat := e.virtual_address

/-- Source: `PageTableEntry::get_virtual_page_number`. -/
def PageTableEntry.get_virtual_page_number (e : PageTableEntry) : Nat :=
  (e.virtual_address &&& u64_not (e.page_size - 1)) >>> u64_trailing_zeros e.page_size

/-- Source: `PageTableEntry::get_physical_page_number`. -/
def PageTableEntry.get_physical_page_number (e : PageTableEntry) : Nat :=
  (e.physical_address &&& u64_not (e.page_size - 1)) >>> u64_trailing_zeros e.page_size

/-- Source: `PageTable` in pagetable.rs. -/
structure PageTable where
  virtual_pages : Nat
  physical_pages : Nat
  page_size : Nat
  entries : List (Option PageTableEntry)
  allocated_physical_pages : Nat
  physical_page_bookkeeping : List Nat
deriving Repr, DecidableEq

/-- Source: `PageTable::new`. -/
def PageTable.new (virtual_pages physical_pages page_size : Nat) : PageTable :=
  { virtual_pages := virtual_pages, physical_pages := physical_pages, page_size := page_size
    entries := List.replicate virtual_pages none
    allocated_physical_pages := 0
    physical_page_bookkeeping := List.replicate physical_pages 0 }

/-- Source: `PageTable::new_from_config`. -/
def PageTable.new_from_config (config : SimulatorConfig) : PageTable :=
  PageTable.new config.page_table.number_of_virtual_pages
    config.page_table.number_of_physical_pages config.page_table.page_size

/-- Source: `PageTable::get_offset_bits`. -/
def PageTable.get_offset_bits (pt : PageTable) : Nat := u64_trailing_zeros pt.page_size

/-- Source: `PageTable::get_index_bits`. -/
def PageTable.get_index_bits (pt : PageTable) : Nat := u64_trailing_zeros pt.virtual_pages

/-- Source: `PageTable::get_index_from_virtual_address` (uses
`overflowing_shr`). -/
def PageTable.get_index_from_virtual_address (pt : PageTable) (virtual_address : Nat) : Nat :=
  overflowing_shr virtual_address pt.get_offset_bits

/-- Source: `PageTable::get_offset`. -/
def PageTable.get_offset (pt : PageTable) (address : Nat) : Nat :=
  address &&& (pt.page_size - 1)

/-- Source: `PageTable::get_physical_page_number`. -/
def PageTable.get_physical_page_number (pt : PageTable) (physical_address : Nat) : Nat :=
  overflowing_shr physical_address pt.get_offset_bits

/-- Source: `PageTable::get_virtual_page_number`. -/
def PageTable.get_virtual_page_number (pt : PageTable) (virtual_address : Nat) : Nat :=
  overflowing_shr virtual_address pt.get_offset_bits

/-- Source: `PageTable::get_entry` (out-of-range index yields `None`). -/
def PageTable.get_entry (pt : PageTable) (virtual_address : Nat) : Option PageTableEntry :=
  match pt.entries.get? (pt.get_index_from_virtual_address virtual_address) with
  | some e => e
  | none => none

/-- Source: `PageTable::get_last_access_time_page_number`.  (The source
indexes the bookkeeping vector directly; all call sites are in range.) -/
def PageTable.get_last_access_time_page_number (pt : PageTable) (ppn : Nat) : Nat :=
  pt.physical_page_bookkeeping.getD ppn 0

/-- Source: `PageTable::set_last_access_time_page_number` (out-of-range is a
logged no-op in the source). -/
def PageTable.set_last_access_time_page_number (pt : PageTable) (ppn t : Nat) : PageTable :=
  if ppn < pt.physical_page_bookkeeping.length then
    { pt with physical_page_bookkeeping := pt.physical_page_bookkeeping.set ppn t }
  else pt

/-- Source: `PageTable::is_page_number_free` (bookkeeping value 0 means
free). -/
def PageTable.is_page_number_free (pt : PageTable) (ppn : Nat) : Bool :=
  pt.get_last_access_time_page_number ppn == 0

/-- Source: `PageTable::invalidate_page_number`: clear every entry mapped to
the physical page number. -/
def PageTable.invalidate_page_number (pt : PageTable) (ppn : Nat) : PageTable :=
  { pt with entries := pt.entries.map (fun slot =>
      match slot with
      | some e => if e.get_physical_page_number = ppn then none else some e
      | none => none) }

/-- Source: `PageTable::mark_page_number_free` (zero the bookkeeping and
invalidate the entries of the frame). -/
def PageTable.mark_page_number_free (pt : PageTable) (ppn : Nat) : PageTable :=
  (pt.set_last_access_time_page_number ppn 0).invalidate_page_number ppn

/-- Source: the scan loop of `PageTable::evict`: walk the frames in order,
stopping at the first free one, otherwise tracking the frame with the
strictly smallest bookkeeping value. -/
def PageTable.evict_scan (pt : PageTable) :
    List Nat → Nat → Nat → Nat
  | [], _, best => best
  | p :: rest, min_access_time, best =>
      if pt.is_page_number_free p then p
      else
        let last_access := pt.get_last_access_time_page_number p
        if last_access < min_access_time then pt.evict_scan rest last_access p
        else pt.evict_scan rest min_access_time best

/-- Source: `PageTable::evict`.  Note the source decrements
`allocated_physical_pages` unconditionally, also when the chosen frame was
already free. -/
def PageTable.evict (pt : PageTable) : PageTable :=
  let chosen :=
    pt.evict_scan (List.range pt.physical_page_bookkeeping.length) u64MAX 0
  let pt1 := pt.mark_page_number_free chosen
  { pt1 with allocated_physical_pages := pt1.allocated_physical_pages - 1 }

/-- Source: `PageTable::mark_physical_access`: the bookkeeping entry is set
to `max t 1`.  (The source indexes the vector directly, which panics out of
range; the claims all keep the frame in range.) -/
def PageTable.mark_physical_access (pt : PageTable) (physical_address t : Nat) : PageTable :=
  let ppn := pt.get_physical_page_number physical_address
  { pt with physical_page_bookkeeping := pt.physical_page_bookkeeping.set ppn (max t 1) }

/-- Source: `PageTable::mark_virtual_access` (no entry: logged no-op). -/
def PageTable.mark_virtual_access (pt : PageTable) (virtual_address t : Nat) : PageTable :=
  match pt.get_entry virtual_address with
  | none => pt
  | some e =>
      let e1 := { e with last_access_time := t }
      let es := pt.entries.set (pt.get_index_from_virtual_address virtual_address) (some e1)
      let pt1 := { pt with entries := es }
      pt1.mark_physical_access e1.get_physical_address t

/-- Source: `PageTable::allocate_physical_page`.  The counter is incremented
before the fullness test, and the chosen frame is the first free one after
the (possible) eviction, defaulting to the old counter value when no frame
is free. -/
def PageTable.allocate_physical_page (pt : PageTable) (virtual_address t : Nat) :
    Option (Nat × PageTable) :=
  let index := pt.get_index_from_virtual_address virtual_address
  if index ≥ pt.entries.length then none
  else
    let ppn0 := pt.allocated_physical_pages
    let pt1 := { pt with allocated_physical_pages := pt.allocated_physical_pages + 1 }
    let pt2 := if pt1.allocated_physical_pages ≥ pt1.physical_pages then pt1.evict else pt1
    let ppn :=
      (((List.range pt2.physical_page_bookkeeping.length).find?
          (fun i => pt2.is_page_number_free i)).getD ppn0)
    let entry := PageTableEntry.new (ppn <<< pt2.get_offset_bits) virtual_address
      pt2.page_size t
    let pt3 := { pt2 with entries := pt2.entries.set index (some entry) }
    some (ppn, pt3.mark_virtual_access virtual_address t)

/-- Source: `PageTable::translate`.  Returns the translated address, the
hit flag observed before any allocation, and the updated table; `none` is
the source's `None` (out-of-range virtual page number). -/
def PageTable.translate (pt : PageTable) (virtual_address t : Nat) :
    Option ((Nat × Bool) × PageTable) :=
  let is_hit := (pt.get_entry virtual_address).isSome
  let pt1 :=
    if is_hit then pt
    else
      match pt.allocate_physical_page virtual_address t with
      | some r => r.2
      | none => pt
  let offset := pt1.get_offset virtual_address
  match pt1.get_entry virtual_address with
  | none => none
  | some e =>
      let e1 := { e with last_access_time := t }
      let es := pt1.entries.set (pt1.get_index_from_virtual_address virtual_address) (some e1)
      let pt2 := { pt1 with entries := es }
      let physical_address := e1.get_physical_address ||| offset
      some ((physical_address, is_hit), pt2.mark_physical_access physical_address t)

/-- Modelled from the spec: `PageTable::get_entries` is called by
`TLBCache::invalidate_page` but its body is not among the given sources; the
spec's design notes call for a read-only accessor over the entries that lets
the TLB invalidator enumerate the entries mapping a physical frame.  It
yields the present entries in index order. -/
def PageTable.get_entries (pt : PageTable) : List PageTableEntry :=
  pt.entries.filterMap id

/-! ## dc.rs -/

/-- Source: `DataCache` in dc.rs. -/
structure DataCache where
  cache : Cache
  is_write_allocate : Bool
  total_read_misses : Nat
  total_write_misses : Nat
  total_reads : Nat
  total_writes : Nat
deriving Repr, DecidableEq

/-- Source: `DataCache::new`. -/
def DataCache.new (sets block_size associativity : Nat) (evict_policy : EvictionPolicy)
    (is_write_allocate : Bool) : DataCache :=
  { cache := Cache.new sets block_size associativity evict_policy
    is_write_allocate := is_write_allocate
    total_read_misses := 0, total_write_misses := 0, total_reads := 0, total_writes := 0 }

/-- Source: `DataCache::new_from_config`. -/
def DataCache.new_from_config (config : SimulatorConfig) : DataCache :=
  DataCache.new config.data_cache.get_number_of_sets config.data_cache.get_block_size
    config.data_cache.get_associativity config.data_cache.get_eviction_policy
    config.data_cache.is_write_allocate

/-- Source: `DataCache::write`: write-allocate caches use
`is_write_and_allocate_hit`, the others `try_write` only; a miss bumps the
write-miss counter. -/
def DataCache.write (d : DataCache) (a : BlockAddress) (t rnd : Nat) :
    Option (Bool × DataCache) :=
  let d0 := { d with total_writes := d.total_writes + 1 }
  match (if d0.is_write_allocate then d0.cache.is_write_and_allocate_hit a t rnd
         else d0.cache.try_write a t) with
  | none => none
  | some (result, c1) =>
      let d1 := { d0 with cache := c1 }
      some (result,
        if result then d1 else { d1 with total_write_misses := d1.total_write_misses + 1 })

/-- Source: `DataCache::read` (always allocates on a miss). -/
def DataCache.read (d : DataCache) (a : BlockAddress) (t rnd : Nat) :
    Option (Bool × DataCache) :=
  let d0 := { d with total_reads := d.total_reads + 1 }
  match d0.cache.is_read_and_allocate_hit a t rnd with
  | none => none
  | some (result, c1) =>
      let d1 := { d0 with cache := c1 }
      some (result,
        if result then d1 else { d1 with total_read_misses := d1.total_read_misses + 1 })

/-- Source: `DataCache::access`. -/
def DataCache.access (d : DataCache) (is_read : Bool) (a : BlockAddress) (t rnd : Nat) :
    Option (Bool × DataCache) :=
  if is_read then d.read a t rnd else d.write a t rnd

/-- Source: the loop of `DataCache::invalidate_page` (also reused by the
spec-modelled `L2Cache::invalidate_page`): invalidate the decoded block
addresses covering `page_size` bytes from the given physical address,
counting the blocks actually removed. -/
def invalidatePageLoop (decode : Nat → BlockAddress) (physical_address block_size : Nat) :
    List Nat → Cache → Nat → Option (Nat × Cache)
  | [], c, count => some (count, c)
  | k :: rest, c, count =>
      match c.invalidate (decode (physical_address + k * block_size)) with
      | none => none
      | some (b, c1) =>
          invalidatePageLoop decode physical_address block_size rest c1
            (count + if b.isSome then 1 else 0)

/-- Source: `DataCache::invalidate_page` (dc.rs; this draft returns the
number of invalidated blocks).  The source asserts that the page size is an
exact multiple of the block size; `none` stands for that panic. -/
def DataCache.invalidate_page (d : DataCache) (physical_address : Nat)
    (config : SimulatorConfig) : Option (Nat × DataCache) :=
  let block_size := config.data_cache.get_block_size
  let page_size := config.get_page_size
  let number_of_blocks := page_size / block_size
  if number_of_blocks * block_size ≠ page_size then none
  else
    match invalidatePageLoop (fun addr => BlockAddress.new_data_cache_address addr config)
        physical_address block_size (List.range number_of_blocks) d.cache 0 with
    | none => none
    | some (count, c1) => some (count, { d with cache := c1 })

/-! ## tlb.rs -/

/-- Source: `TLBCache` in tlb.rs. -/
structure TLBCache where
  cache : Cache
deriving Repr, DecidableEq

/-- Source: `TLBCache::new`. -/
def TLBCache.new (sets block_size associativity : Nat) (evict_policy : EvictionPolicy) :
    TLBCache :=
  { cache := Cache.new sets block_size associativity evict_policy }

/-- Source: `TLBCache::new_from_config` (block size is the page size, the
associativity is the configured TLB set size, policy LRU). -/
def TLBCache.new_from_config (config : SimulatorConfig) : TLBCache :=
  TLBCache.new config.tlb.get_number_of_sets config.get_page_size
    config.tlb.get_entries_in_set config.tlb.get_eviction_policy

/-- Source: `TLBCache::translate` (delegates to
`is_read_and_allocate_hit`, so a missing entry is inserted as part of the
lookup itself). -/
def TLBCache.translate (tlb : TLBCache) (a : BlockAddress) (t rnd : Nat) :
    Option (Bool × TLBCache) :=
  match tlb.cache.is_read_and_allocate_hit a t rnd with
  | none => none
  | some (h, c1) => some (h, { cache := c1 })

/-- Source: the loop of `TLBCache::invalidate_page`: for each page-table
entry whose (page-masked) physical address equals the argument, invalidate
the TLB line of its virtual address. -/
def tlbInvalidatePageLoop (physical_address : Nat) (config : SimulatorConfig) :
    List PageTableEntry → Cache → List Block → Option (List Block × Cache)
  | [], c, acc => some (acc, c)
  | e :: rest, c, acc =>
      if e.get_physical_address = physical_address then
        match c.invalidate (BlockAddress.new_tlb_address e.get_virtual_address config) with
        | none => none
        | some (b, c1) => tlbInvalidatePageLoop physical_address config rest c1 (acc ++ b.toList)
      else tlbInvalidatePageLoop physical_address config rest c acc

/-- Source: `TLBCache::invalidate_page` (the page table is only read; the
line that would also invalidate it is commented out in the source). -/
def TLBCache.invalidate_page (tlb : TLBCache) (physical_address : Nat) (pt : PageTable)
    (config : SimulatorConfig) : Option (List Block × TLBCache) :=
  match tlbInvalidatePageLoop physical_address config pt.get_entries tlb.cache [] with
  | none => none
  | some (blocks, c1) => some (blocks, { cache := c1 })

/-! ## L2 cache (module `l2` is declared in lib.rs but its file is not among
the given sources) -/

/-- Modelled from the spec: `L2Cache` (module `l2`) is declared and used but
its source file is missing.  Per the spec both the L1 data cache and the L2
cache are thin, identically shaped wrappers over the generic cache carrying
a write-allocate flag and hit/miss counters. -/
structure L2Cache where
  cache : Cache
  is_write_allocate : Bool
  total_read_misses : Nat
  total_write_misses : Nat
  total_reads : Nat
  total_writes : Nat
deriving Repr, DecidableEq

/-- Modelled from the spec: `L2Cache::new_from_config`, built like the data
cache but from the L2 geometry section of the configuration. -/
def L2Cache.new_from_config (config : SimulatorConfig) : L2Cache :=
  { cache := Cache.new config.l2_cache.get_number_of_sets config.l2_cache.get_block_size
      config.l2_cache.get_associativity config.l2_cache.get_eviction_policy
    is_write_allocate := config.l2_cache.is_write_allocate
    total_read_misses := 0, total_write_misses := 0, total_reads := 0, total_writes := 0 }

/-- Modelled from the spec: `L2Cache::write`, same policy split as
`DataCache::write`. -/
def L2Cache.write (d : L2Cache) (a : BlockAddress) (t rnd : Nat) : Option (Bool × L2Cache) :=
  let d0 := { d with total_writes := d.total_writes + 1 }
  match (if d0.is_write_allocate then d0.cache.is_write_and_allocate_hit a t rnd
         else d0.cache.try_write a t) with
  | none => none
  | some (result, c1) =>
      let d1 := { d0 with cache := c1 }
      some (result,
        if result then d1 else { d1 with total_write_misses := d1.total_write_misses + 1 })

/-- Modelled from the spec: `L2Cache::read`, same as `DataCache::read`. -/
def L2Cache.read (d : L2Cache) (a : BlockAddress) (t rnd : Nat) : Option (Bool × L2Cache) :=
  let d0 := { d with total_reads := d.total_reads + 1 }
  match d0.cache.is_read_and_allocate_hit a t rnd with
  | none => none
  | some (result, c1) =>
      let d1 := { d0 with cache := c1 }
      some (result,
        if result then d1 else { d1 with total_read_misses := d1.total_read_misses + 1 })

/-- Modelled from the spec: `L2Cache::access`. -/
def L2Cache.access (d : L2Cache) (is_read : Bool) (a : BlockAddress) (t rnd : Nat) :
    Option (Bool × L2Cache) :=
  if is_read then d.read a t rnd else d.write a t rnd

/-- Modelled from the spec: `L2Cache::invalidate_page`, enumerating the L2
block addresses spanning the page. -/
def L2Cache.invalidate_page (d : L2Cache) (physical_address : Nat)
    (config : SimulatorConfig) : Option (Nat × L2Cache) :=
  let block_size := config.l2_cache.get_block_size
  let page_size := config.get_page_size
  let number_of_blocks := page_size / block_size
  if number_of_blocks * block_size ≠ page_size then none
  else
    match invalidatePageLoop (fun addr => BlockAddress.new_l2_cache_address addr config)
        physical_address block_size (List.range number_of_blocks) d.cache 0 with
    | none => none
    | some (count, c1) => some (count, { d with cache := c1 })

/-! ## output.rs -/

/-- Source: `AccessOutput` in output.rs. -/
structure AccessOutput where
  access : Operation
  virtual_address : Option Nat
  physical_address : Nat
  virtual_page_number : Option Nat
  page_offset : Nat
  tlb_address : Option BlockAddress
  tlb_hit : Option Bool
  page_table_hit : Option Bool
  physical_page_number : Nat
  dc_address : BlockAddress
  dc_hit : Bool
  l2_address : Option BlockAddress
  l2_hit : Option Bool
deriving Repr, DecidableEq

/-- Source: `AccessOutput::get_main_memory_accesses`: the per-access count of
main-memory references, derived from the access kind, the recorded hits and
the two write policies. -/
def AccessOutput.get_main_memory_accesses (a : AccessOutput) (config : SimulatorConfig) : Nat :=
  if a.access.is_read then
    if a.dc_hit then 0
    else if a.l2_hit == some true then 0
    else 1
  else
    if a.dc_hit then
      if config.data_cache.is_write_through && config.l2_cache.is_write_through then 1
      else if config.data_cache.is_write_through && config.l2_cache.is_write_back then 0
      else if config.data_cache.is_write_back && config.l2_cache.is_write_through then 1
      else if config.data_cache.is_write_back && config.l2_cache.is_write_back then 0
      else 1
    else if a.l2_hit == some true then
      if config.l2_cache.is_write_through then 1 else 0
    else 1

/-- Source: `SimulatorOutput` in output.rs.  The `f64` hit-ratio fields are
never written by the simulation core (they are recomputed while rendering)
and are omitted here. -/
structure SimulatorOutput where
  config : SimulatorConfig
  accesses : List AccessOutput
  tlb_hits : Nat
  tlb_misses : Nat
  pt_hits : Nat
  pt_faults : Nat
  dc_hits : Nat
  dc_misses : Nat
  l2_hits : Nat
  l2_misses : Nat
  total_reads : Nat
  total_writes : Nat
  main_memory_refs : Nat
  page_table_refs : Nat
  disk_refs : Nat
deriving Repr, DecidableEq

/-- Source: `SimulatorOutput::empty`. -/
def SimulatorOutput.empty (config : SimulatorConfig) : SimulatorOutput :=
  { config := config, accesses := []
    tlb_hits := 0, tlb_misses := 0, pt_hits := 0, pt_faults := 0
    dc_hits := 0, dc_misses := 0, l2_hits := 0, l2_misses := 0
    total_reads := 0, total_writes := 0
    main_memory_refs := 0, page_table_refs := 0, disk_refs := 0 }

/-- Source: `SimulatorOutput::add_access`. -/
def SimulatorOutput.add_access (o : SimulatorOutput) (a : AccessOutput) : SimulatorOutput :=
  let o1 := if a.access.is_read then { o with total_reads := o.total_reads + 1 }
            else { o with total_writes := o.total_writes + 1 }
  { o1 with accesses := o1.accesses ++ [a] }

/-- Source: `SimulatorOutput::add_tlb_access` (no-op when the TLB is
disabled in the configuration). -/
def SimulatorOutput.add_tlb_access (o : SimulatorOutput) (hit : Bool) : SimulatorOutput :=
  if ¬o.config.is_tlb_enabled then o
  else if hit then { o with tlb_hits := o.tlb_hits + 1 }
  else { o with tlb_misses := o.tlb_misses + 1 }

/-- Source: `SimulatorOutput::add_page_table_access` (no-op when virtual
addresses are disabled). -/
def SimulatorOutput.add_page_table_access (o : SimulatorOutput) (hit : Bool) :
    SimulatorOutput :=
  if ¬o.config.is_virtual_addresses_enabled then o
  else if hit then { o with pt_hits := o.pt_hits + 1 }
  else { o with pt_faults := o.pt_faults + 1 }

/-- Source: `SimulatorOutput::add_dc_access` (unconditional). -/
def SimulatorOutput.add_dc_access (o : SimulatorOutput) (hit : Bool) : SimulatorOutput :=
  if hit then { o with dc_hits := o.dc_hits + 1 }
  else { o with dc_misses := o.dc_misses + 1 }

/-- Source: `SimulatorOutput::add_l2_access` (no-op when the L2 cache is
disabled). -/
def SimulatorOutput.add_l2_access (o : SimulatorOutput) (hit : Bool) : SimulatorOutput :=
  if ¬o.config.is_l2_cache_enabled then o
  else if hit then { o with l2_hits := o.l2_hits + 1 }
  else { o with l2_misses := o.l2_misses + 1 }

/-! ## simulator.rs -/

/-- Source: `Simulator` in simulator.rs. -/
structure Simulator where
  l2 : Option L2Cache
  dc : DataCache
  tlb : Option TLBCache
  page_table : Option PageTable
  config : SimulatorConfig
  time : Nat
  output : SimulatorOutput
deriving Repr, DecidableEq

/-- Source: `From<SimulatorConfig> for Simulator`. -/
def Simulator.from_config (config : SimulatorConfig) : Simulator :=
  { output := SimulatorOutput.empty config
    l2 := if config.is_l2_cache_enabled then some (L2Cache.new_from_config config) else none
    dc := DataCache.new_from_config config
    tlb := if config.is_tlb_enabled then some (TLBCache.new_from_config config) else none
    page_table :=
      if config.is_virtual_addresses_enabled then some (PageTable.new_from_config config)
      else none
    config := config
    time := 1 }

/-- Source: `Simulator::health_check`: the three feature flags must agree
with the presence of the corresponding components. -/
def Simulator.health_check (sim : Simulator) : Bool :=
  (sim.config.is_virtual_addresses_enabled == sim.page_table.isSome) &&
  (sim.config.tlb_enabled == sim.tlb.isSome) &&
  (sim.config.is_l2_cache_enabled == sim.l2.isSome)

/-- Source: the translation block of `Simulator::simulate_access` (the
match on the TLB and page-table options).  Returns the physical address,
the effective TLB hit (`raw && page-table hit`), the TLB address, and the
page-table hit; `none` is the source's panic on `unwrap` of a failed
page-table translation.  The random draw passed to the cache layer is 0:
every cache in this program is configured with the LRU policy, which
ignores it. -/
def Simulator.translate_stage (sim : Simulator) (virtual_address time : Nat) :
    Option ((Nat × Bool × Option BlockAddress × Bool) × Simulator) :=
  match sim.tlb, sim.page_table with
  | some tlb, some page_table =>
      let addr := BlockAddress.new_tlb_address virtual_address sim.config
      match tlb.translate addr time 0 with
      | none => none
      | some (raw, tlb1) =>
          match page_table.translate virtual_address time with
          | none => none
          | some ((physical_address, is_page_table_hit), pt1) =>
              some ((physical_address, raw && is_page_table_hit, some addr, is_page_table_hit),
                { sim with tlb := some tlb1, page_table := some pt1 })
  | none, some page_table =>
      match page_table.translate virtual_address time with
      | none => none
      | some ((physical_address, is_page_table_hit), pt1) =>
          some ((physical_address, false, none, is_page_table_hit),
            { sim with page_table := some pt1 })
  | _, _ => some ((virtual_address, false, none, false), sim)

/-- Source: the page-fault block of `Simulator::simulate_access`: TLB
invalidation first (when TLB and page table are both present), then the
data cache, then the L2 cache — the L2 step is skipped when the data cache
is write-back and the L2 cache is disabled (and trivially when there is no
L2).  All three are driven by the translated physical address exactly as
it comes out of the walk, page offset included. -/
def Simulator.fault_stage (sim : Simulator) (physical_address : Nat) : Option Simulator :=
  let step1 : Option Simulator :=
    match sim.tlb, sim.page_table with
    | some tlb, some pt =>
        match tlb.invalidate_page physical_address pt sim.config with
        | none => none
        | some (_, tlb1) => some { sim with tlb := some tlb1 }
    | _, _ => some sim
  match step1 with
  | none => none
  | some sim1 =>
      match sim1.dc.invalidate_page physical_address sim1.config with
      | none => none
      | some (_, dc1) =>
          let sim2 := { sim1 with dc := dc1 }
          if sim2.config.data_cache.is_write_back && ¬sim2.config.is_l2_cache_enabled then
            some sim2
          else
            match sim2.l2 with
            | some l2 =>
                match l2.invalidate_page physical_address sim2.config with
                | none => none
                | some (_, l21) => some { sim2 with l2 := some l21 }
            | none => some sim2

/-- Source: the L2 block of `Simulator::simulate_access`: the four
policy-pair branches deciding whether the L2 cache is consulted, whether
its result is recorded in the statistics, and whether it is surfaced in
the per-access output.  The write-back/write-back branch re-runs the data
cache access and asserts it hits (`none` is that panic). -/
def Simulator.l2_stage (sim : Simulator) (access : Operation) (dc_address : BlockAddress)
    (dc_hit : Bool) (physical_address time : Nat) :
    Option ((Option BlockAddress × Option Bool) × Simulator) :=
  match sim.l2 with
  | none => some ((none, none), sim)
  | some l2 =>
      let addr := BlockAddress.new_l2_cache_address physical_address sim.config
      if sim.config.data_cache.is_write_through && sim.config.l2_cache.is_write_through then
        if ¬dc_hit || access.is_write then
          match l2.access access.is_read addr time 0 with
          | none => none
          | some (result, l21) =>
              some ((some addr, some result),
                { sim with l2 := some l21, output := sim.output.add_l2_access result })
        else some ((some addr, none), sim)
      else if sim.config.data_cache.is_write_through && sim.config.l2_cache.is_write_back then
        if ¬dc_hit || (dc_hit && access.is_write) then
          match l2.access access.is_read addr time 0 with
          | none => none
          | some (result, l21) =>
              some ((some addr, some result),
                { sim with l2 := some l21, output := sim.output.add_l2_access result })
        else some ((some addr, none), sim)
      else if sim.config.data_cache.is_write_back && sim.config.l2_cache.is_write_through then
        if access.is_write then
          match l2.access access.is_read addr time 0 with
          | none => none
          | some (result, l21) =>
              some ((some addr, if ¬dc_hit then some result else none),
                { sim with l2 := some l21, output := sim.output.add_l2_access result })
        else
          if ¬dc_hit then
            match l2.access access.is_read addr time 0 with
            | none => none
            | some (result, l21) =>
                some ((some addr, some result),
                  { sim with l2 := some l21, output := sim.output.add_l2_access result })
          else some ((some addr, none), sim)
      else if sim.config.data_cache.is_write_back && sim.config.l2_cache.is_write_back then
        if ¬dc_hit || access.is_write then
          match l2.access access.is_read addr time 0 with
          | none => none
          | some (result, l21) =>
              match sim.dc.access access.is_read dc_address time 0 with
              | none => none
              | some (hit2, dc1) =>
                  if ¬hit2 then none
                  else
                    some ((some addr, if dc_hit then none else some result),
                      { sim with
                        l2 := some l21
                        dc := dc1
                        output := sim.output.add_l2_access result })
        else some ((some addr, none), sim)
      else none

/-- Source: `Simulator::simulate_access`: health check, translation,
statistics for TLB and page table, page-fault propagation, the L1 access,
the L2 block, the clock tick and the per-access record.  `none` stands for
any of the source's panics. -/
def Simulator.simulate_access (sim : Simulator) (access : Operation) :
    Option (AccessOutput × Simulator) :=
  if ¬sim.health_check then none
  else
    let virtual_address := access.address
    let time := sim.time
    match sim.translate_stage virtual_address time with
    | none => none
    | some ((physical_address, is_tlb_hit, tlb_address, is_page_table_hit), sim1) =>
        let sim2 :=
          if sim1.config.is_tlb_enabled then
            { sim1 with output := sim1.output.add_tlb_access is_tlb_hit }
          else sim1
        let sim3 :=
          if ¬is_tlb_hit && sim2.config.is_virtual_addresses_enabled then
            { sim2 with output := sim2.output.add_page_table_access is_page_table_hit }
          else sim2
        let is_page_fault :=
          sim3.config.is_virtual_addresses_enabled && ¬is_tlb_hit && ¬is_page_table_hit
        match (if is_page_fault then sim3.fault_stage physical_address else some sim3) with
        | none => none
        | some sim4 =>
            let dc_address := BlockAddress.new_data_cache_address physical_address sim4.config
            match sim4.dc.access access.is_read dc_address time 0 with
            | none => none
            | some (dc_hit, dc1) =>
                let sim5 :=
                  { sim4 with
                    dc := dc1
                    output := sim4.output.add_dc_access dc_hit }
                match sim5.l2_stage access dc_address dc_hit physical_address time with
                | none => none
                | some ((l2_address, l2_hit), sim6) =>
                    let to_page_number := fun addr =>
                      (addr &&& u64_not (sim6.config.get_page_size - 1)) >>>
                        u64_trailing_zeros sim6.config.get_page_size
                    let va_opt :=
                      if sim6.config.is_virtual_addresses_enabled then some virtual_address
                      else none
                    let result : AccessOutput :=
                      { access := access
                        virtual_address := va_opt
                        physical_address := physical_address
                        virtual_page_number := va_opt.map to_page_number
                        physical_page_number := to_page_number physical_address
                        page_offset := physical_address &&& (sim6.config.get_page_size - 1)
                        tlb_address := tlb_address
                        tlb_hit :=
                          if sim6.config.is_tlb_enabled then some is_tlb_hit else none
                        page_table_hit :=
                          if sim6.config.is_virtual_addresses_enabled then
                            some is_page_table_hit
                          else none
                        dc_address := dc_address
                        dc_hit := dc_hit
                        l2_address := l2_address
                        l2_hit := l2_hit }
                    let sim7 := { sim6 with time := sim6.time + 1 }
                    some (result, { sim7 with output := sim7.output.add_access result })

/-- Source: `Simulator::simulate` restricted to its per-access loop (the
output reset and the fold over the trace); `none` when any access
panics. -/
def Simulator.simulate_list (sim : Simulator) (ops : List Operation) : Option Simulator :=
  match ops with
  | [] => some sim
  | op :: rest =>
      match sim.simulate_access op with
      | none => none
      | some (_, sim1) => sim1.simulate_list rest

/-! ## Specification-side definitions

These definitions are written from the words of the claims (not from the
source) and are compared against the source translations above. -/

/-- Claim C5's matrix, from the spec's words: a read served from L1 or L2
costs 0 and otherwise 1; a write costs 1 unless both affected cache levels
are write-back, in which case it costs 0. -/
def claimMainMemoryMatrix (a : AccessOutput) (config : SimulatorConfig) : Nat :=
  if a.access.is_read then
    if a.dc_hit || a.l2_hit == some true then 0 else 1
  else
    if config.data_cache.is_write_back && config.l2_cache.is_write_back then 0 else 1

/-- Claim C7's deterministic extremum: the first element of the list
attaining the minimum of `f` (ties broken by enumeration order). -/
def firstMinBy (f : Block → Nat) (l : List Block) : Option Block :=
  l.find? (fun b => l.all (fun c => f b ≤ f c))

/-- Specification-side view of residency: some present block in the slot
list carries the tag. -/
def hasTag (l : List (Option Block)) (tag : Nat) : Bool :=
  (l.filterMap id).any (fun b => b.tag == tag)

/-- Claim C2's eviction choice, from the spec's words as amended: the first
free frame when one exists, otherwise the first frame attaining the minimal
bookkeeping value. -/
def claimEvictChoice (bookkeeping : List Nat) : Nat :=
  match bookkeeping.findIdx? (fun v => v == 0) with
  | some i => i
  | none => bookkeeping.findIdx (fun v => bookkeeping.all (fun w => v ≤ w))

/-- Claim C2's frame selection for the install step: the first frame whose
bookkeeping value is 0. -/
def firstFreeFrame (bookkeeping : List Nat) : Option Nat :=
  bookkeeping.findIdx? (fun v => v == 0)

/-! ## List-level helper lemmas for the cache layer -/

theorem hasTag_nil (tag : Nat) : hasTag [] tag = false := rfl

theorem hasTag_cons_none (tag : Nat) (xs : List (Option Block)) :
    hasTag (none :: xs) tag = hasTag xs tag := rfl

theorem hasTag_cons_some (tag : Nat) (b : Block) (xs : List (Option Block)) :
    hasTag (some b :: xs) tag = (b.tag == tag || hasTag xs tag) := rfl

theorem find?_isSome_eq_any (p : α → Bool) (l : List α) :
    (l.find? p).isSome = l.any p := by
  induction l with
  | nil => rfl
  | cons x xs ih =>
      show (match p x with | true => some x | false => xs.find? p).isSome = (p x || xs.any p)
      cases h : p x
      · simpa using ih
      · rfl

theorem filterMap_map_opt (l : List (Option Block)) (f : Block → α) :
    l.filterMap (fun b => b.map f) = (l.filterMap id).map f := by
  induction l with
  | nil => rfl
  | cons x xs ih => cases x <;> simp [List.filterMap_cons, ih]

theorem getTags_eq_map (s : CSet) :
    s.get_tags = (s.blocks.filterMap id).map (·.tag) := by
  unfold CSet.get_tags
  exact filterMap_map_opt s.blocks (·.tag)

theorem is_hit_eq_hasTag (s : CSet) (a : BlockAddress) :
    s.is_hit a = hasTag s.blocks a.tag := by
  unfold CSet.is_hit CSet.get_block_with_addr hasTag
  exact find?_isSome_eq_any _ _

theorem get_block_with_tag_mem {s : CSet} {t : Nat} {b : Block}
    (h : s.get_block_with_tag t = some b) :
    b ∈ s.blocks.filterMap id ∧ b.tag = t := by
  unfold CSet.get_block_with_tag at h
  refine ⟨List.mem_of_find?_eq_some h, ?_⟩
  have := List.find?_some h
  simpa using this

theorem get_block_with_tag_isSome {s : CSet} {t : Nat}
    (h : hasTag s.blocks t = true) : ∃ b, s.get_block_with_tag t = some b := by
  unfold CSet.get_block_with_tag
  have : ((s.blocks.filterMap id).find? (fun b => b.tag == t)).isSome = true := by
    rw [find?_isSome_eq_any]
    exact h
  exact Option.isSome_iff_exists.mp this

theorem get_block_with_tag_nodup {s : CSet} {b : Block}
    (hnodup : ((s.blocks.filterMap id).map (·.tag)).Nodup)
    (hb : b ∈ s.blocks.filterMap id) :
    s.get_block_with_tag b.tag = some b := by
  unfold CSet.get_block_with_tag
  revert hnodup hb
  generalize s.blocks.filterMap id = l
  intro hnodup hb
  induction l with
  | nil => cases hb
  | cons c cs ih =>
      rw [List.map_cons, List.nodup_cons] at hnodup
      rcases List.mem_cons.mp hb with rfl | hb2
      · simp [List.find?]
      · by_cases hct : c.tag = b.tag
        · exfalso
          exact hnodup.1 (hct ▸ List.mem_map_of_mem (·.tag) hb2)
        · rw [List.find?]
          have : (c.tag == b.tag) = false := by simpa using hct
          rw [this]
          exact ih hnodup.2 hb2

/-! ### Lemmas about `updateFirstWithTag` -/

theorem updateFirstWithTag_fst (tag : Nat) (f : Block → Block) (l : List (Option Block)) :
    (updateFirstWithTag tag f l).1 = hasTag l tag := by
  induction l with
  | nil => rfl
  | cons x xs ih =>
      cases x with
      | none =>
          rw [hasTag_cons_none]
          simpa [updateFirstWithTag] using ih
      | some b =>
          rw [hasTag_cons_some]
          by_cases h : b.tag = tag
          · simp [updateFirstWithTag, h]
          · have hbe : (b.tag == tag) = false := by simpa using h
            simp only [updateFirstWithTag, h, if_false, hbe, Bool.false_or]
            exact ih

theorem updateFirstWithTag_not_found {tag : Nat} {l : List (Option Block)}
    (f : Block → Block) (h : hasTag l tag = false) :
    updateFirstWithTag tag f l = (false, l) := by
  induction l with
  | nil => rfl
  | cons x xs ih =>
      cases x with
      | none =>
          rw [hasTag_cons_none] at h
          simp [updateFirstWithTag, ih h]
      | some b =>
          rw [hasTag_cons_some] at h
          have hb1 : (b.tag == tag) = false := by
            cases hx : (b.tag == tag) <;> simp [hx] at h ⊢
          have hb2 : hasTag xs tag = false := by
            cases hx : hasTag xs tag
            · rfl
            · rw [hb1, hx] at h; simpa using h
          have hne : ¬(b.tag = tag) := by simpa using hb1
          simp [updateFirstWithTag, hne, ih hb2]

theorem hasTag_updateFirstWithTag (tag t' : Nat) {f : Block → Block}
    (hf : ∀ b, (f b).tag = b.tag) (l : List (Option Block)) :
    hasTag (updateFirstWithTag tag f l).2 t' = hasTag l t' := by
  induction l with
  | nil => rfl
  | cons x xs ih =>
      cases x with
      | none =>
          rw [hasTag_cons_none]
          simpa [updateFirstWithTag, hasTag_cons_none] using ih
      | some b =>
          rw [hasTag_cons_some]
          by_cases h : b.tag = tag
          · simp [updateFirstWithTag, h, hasTag_cons_some, hf b]
          · simp only [updateFirstWithTag, h, if_false, hasTag_cons_some]
            rw [ih]

/-! ### Lemmas about `evictTagAux` and `insertFirstEmpty` -/

theorem evictTagAux_not_found {tag : Nat} {l : List (Option Block)}
    (h : hasTag l tag = false) : evictTagAux tag l = (none, l) := by
  induction l with
  | nil => rfl
  | cons x xs ih =>
      cases x with
      | none =>
          rw [hasTag_cons_none] at h
          simp [evictTagAux, ih h]
      | some b =>
          rw [hasTag_cons_some] at h
          have hb1 : (b.tag == tag) = false := by
            cases hx : (b.tag == tag) <;> simp [hx] at h ⊢
          have hb2 : hasTag xs tag = false := by
            cases hx : hasTag xs tag
            · rfl
            · rw [hb1, hx] at h; simp at h
          have hne : ¬(b.tag = tag) := by simpa using hb1
          simp [evictTagAux, hne, ih hb2]

/-- The eviction of a present block: under distinct present tags, clearing
a tag that block `b` carries clears exactly `b`'s slot. -/
theorem evictTagAux_nodup_found {l : List (Option Block)} {b : Block}
    (hnodup : ((l.filterMap id).map (·.tag)).Nodup)
    (hb : b ∈ l.filterMap id) :
    ∃ k, l.get? k = some (some b) ∧ k < l.length ∧
      evictTagAux b.tag l = (some b, l.set k none) := by
  induction l with
  | nil => cases hb
  | cons x xs ih =>
      cases x with
      | none =>
          have hb2 : b ∈ xs.filterMap id := hb
          have hn2 : ((xs.filterMap id).map (·.tag)).Nodup := hnodup
          obtain ⟨k, hk1, hk2, hk3⟩ := ih hn2 hb2
          refine ⟨k + 1, by simpa using hk1, by simpa using hk2, ?_⟩
          simp [evictTagAux, hk3]
      | some c =>
          have hmem : b = c ∨ b ∈ xs.filterMap id := by
            rcases List.mem_cons.mp hb with h1 | h2
            · exact Or.inl h1
            · exact Or.inr h2
          rw [show ((some c :: xs).filterMap id) = c :: xs.filterMap id from rfl] at hnodup
          rw [List.map_cons, List.nodup_cons] at hnodup
          by_cases hct : c.tag = b.tag
          · have hbc : b = c := by
              rcases hmem with rfl | h2
              · rfl
              · exact absurd (hct ▸ List.mem_map_of_mem (·.tag) h2) hnodup.1
            subst hbc
            refine ⟨0, rfl, by simp, ?_⟩
            simp [evictTagAux]
          · have hb2 : b ∈ xs.filterMap id := by
              rcases hmem with rfl | h2
              · exact absurd rfl hct
              · exact h2
            obtain ⟨k, hk1, hk2, hk3⟩ := ih hnodup.2 hb2
            refine ⟨k + 1, by simpa using hk1, by simpa using hk2, ?_⟩
            have hne : ¬(c.tag = b.tag) := hct
            simp [evictTagAux, hne, hk3]

/-- Eviction never adds a tag. -/
theorem hasTag_evictTagAux_le {tag t' : Nat} {l : List (Option Block)}
    (h : hasTag (evictTagAux tag l).2 t' = true) : hasTag l t' = true := by
  induction l with
  | nil => exact h
  | cons x xs ih =>
      cases x with
      | none =>
          rw [hasTag_cons_none]
          simp only [evictTagAux] at h
          rw [hasTag_cons_none] at h
          exact ih h
      | some b =>
          rw [hasTag_cons_some]
          by_cases hbt : b.tag = tag
          · have he : evictTagAux tag (some b :: xs) = (some b, none :: xs) := by
              simp [evictTagAux, hbt]
            rw [he, hasTag_cons_none] at h
            rw [h]
            simp
          · simp only [evictTagAux, hbt, if_false] at h
            rw [hasTag_cons_some] at h
            rcases Bool.or_eq_true_iff.mp h with h1 | h2
            · rw [h1]; simp
            · rw [ih h2]; simp

theorem insertFirstEmpty_of_not_full {l : List (Option Block)} (b : Block)
    (h : l.all (·.isSome) = false) :
    hasTag (insertFirstEmpty b l) b.tag = true := by
  induction l with
  | nil => simp at h
  | cons x xs ih =>
      cases x with
      | none => simp [insertFirstEmpty, hasTag_cons_some]
      | some c =>
          have h2 : xs.all (·.isSome) = false := by simpa using h
          simp only [insertFirstEmpty, hasTag_cons_some, ih h2]
          simp

theorem insertFirstEmpty_of_full {l : List (Option Block)} (b : Block)
    (h : l.all (·.isSome) = true) : insertFirstEmpty b l = l := by
  induction l with
  | nil => rfl
  | cons x xs ih =>
      cases x with
      | none => simp at h
      | some c =>
          have h2 : xs.all (·.isSome) = true := by simpa using h
          simp [insertFirstEmpty, ih h2]

theorem hasTag_insertFirstEmpty_ne {t' : Nat} (b : Block) {l : List (Option Block)}
    (hne : ¬(b.tag = t')) :
    hasTag (insertFirstEmpty b l) t' = hasTag l t' := by
  induction l with
  | nil => rfl
  | cons x xs ih =>
      cases x with
      | none =>
          have : (b.tag == t') = false := by simpa using hne
          simp [insertFirstEmpty, hasTag_cons_some, hasTag_cons_none, this]
      | some c => simp [insertFirstEmpty, hasTag_cons_some, ih]

theorem hasTag_set_none_le {l : List (Option Block)} {k : Nat} {t' : Nat}
    (h : hasTag (l.set k none) t' = true) : hasTag l t' = true := by
  induction l generalizing k with
  | nil => exact h
  | cons x xs ih =>
      cases k with
      | zero =>
          rw [List.set_cons_zero] at h
          rw [hasTag_cons_none] at h
          cases x with
          | none => exact h
          | some b => rw [hasTag_cons_some, h]; simp
      | succ k =>
          rw [List.set_cons_succ] at h
          cases x with
          | none =>
              rw [hasTag_cons_none] at h ⊢
              exact ih h
          | some b =>
              rw [hasTag_cons_some] at h ⊢
              rcases Bool.or_eq_true_iff.mp h with h1 | h2
              · rw [h1]; simp
              · rw [ih h2]; simp

/-- Clearing the slot of the unique carrier of a tag removes the tag. -/
theorem hasTag_set_none_of_nodup {l : List (Option Block)} {k : Nat} {b : Block}
    (hnodup : ((l.filterMap id).map (·.tag)).Nodup)
    (hk : l.get? k = some (some b)) :
    hasTag (l.set k none) b.tag = false := by
  induction l generalizing k with
  | nil => cases hk
  | cons x xs ih =>
      cases k with
      | zero =>
          cases hk
          rw [List.set_cons_zero, hasTag_cons_none]
          rw [show ((some b :: xs).filterMap id) = b :: xs.filterMap id from rfl] at hnodup
          rw [List.map_cons, List.nodup_cons] at hnodup
          cases hx : hasTag xs b.tag
          · rfl
          · exfalso
            apply hnodup.1
            unfold hasTag at hx
            rw [List.any_eq_true] at hx
            obtain ⟨c, hc1, hc2⟩ := hx
            rw [beq_iff_eq] at hc2
            exact hc2 ▸ List.mem_map_of_mem (·.tag) hc1
      | succ k =>
          rw [List.set_cons_succ]
          cases x with
          | none =>
              rw [hasTag_cons_none]
              exact ih hnodup (by simpa using hk)
          | some c =>
              rw [hasTag_cons_some]
              rw [show ((some c :: xs).filterMap id) = c :: xs.filterMap id from rfl] at hnodup
              rw [List.map_cons, List.nodup_cons] at hnodup
              have hmem : b ∈ xs.filterMap id := by
                have hmem2 : some b ∈ xs := List.get?_mem (by simpa using hk)
                exact List.mem_filterMap.mpr ⟨some b, hmem2, rfl⟩
              have hne : (c.tag == b.tag) = false := by
                rw [beq_eq_false_iff_ne]
                intro hc
                exact hnodup.1 (hc ▸ List.mem_map_of_mem (·.tag) hmem)
              rw [hne, ih hnodup.2 (by simpa using hk)]
              rfl

/-! ### Denotation of the LRU/FIFO scan -/

/-- Pure denotation of the keep-the-strictly-smaller-key fold performed by
the LRU/FIFO arms of `EvictionPolicy::evict` and by the scan loop of
`PageTable::evict`. -/
def foldMin {α : Type} (key : α → Nat) : List α → α → α
  | [], best => best
  | b :: rest, best =>
      if key b < key best then foldMin key rest b else foldMin key rest best

theorem foldMin_mem {α : Type} (key : α → Nat) (l : List α) (best : α) :
    foldMin key l best ∈ best :: l := by
  induction l generalizing best with
  | nil => simp [foldMin]
  | cons c rest ih =>
      simp only [foldMin]
      by_cases h : key c < key best
      · rw [if_pos h]
        have h2 := ih c
        rcases List.mem_cons.mp h2 with h3 | h3
        · rw [h3]; simp
        · exact List.mem_cons_of_mem _ (List.mem_cons_of_mem _ h3)
      · rw [if_neg h]
        have h2 := ih best
        rcases List.mem_cons.mp h2 with h3 | h3
        · rw [h3]; simp
        · exact List.mem_cons_of_mem _ (List.mem_cons_of_mem _ h3)

theorem foldMin_le {α : Type} (key : α → Nat) (l : List α) (best : α) :
    ∀ x ∈ best :: l, key (foldMin key l best) ≤ key x := by
  induction l generalizing best with
  | nil =>
      intro x hx
      rcases List.mem_cons.mp hx with rfl | h
      · simp [foldMin]
      · cases h
  | cons c rest ih =>
      intro x hx
      simp only [foldMin]
      by_cases h : key c < key best
      · rw [if_pos h]
        rcases List.mem_cons.mp hx with hr | hx2
        · rw [hr]
          exact le_of_lt (lt_of_le_of_lt (ih c c (by simp)) h)
        · exact ih c x hx2
      · rw [if_neg h]
        rcases List.mem_cons.mp hx with hr | hx2
        · rw [hr]
          exact ih best best (by simp)
        · rcases List.mem_cons.mp hx2 with hr | hx3
          · rw [hr]
            exact le_trans (ih best best (by simp)) (Nat.le_of_not_lt h)
          · exact ih best x (List.mem_cons_of_mem _ hx3)

theorem foldMin_first {α : Type} (key : α → Nat) (l : List α) (best : α) :
    ∃ l1 l2, best :: l = l1 ++ foldMin key l best :: l2 ∧
      ∀ x ∈ l1, key (foldMin key l best) < key x := by
  induction l generalizing best with
  | nil => exact ⟨[], [], rfl, by simp⟩
  | cons c rest ih =>
      simp only [foldMin]
      by_cases h : key c < key best
      · rw [if_pos h]
        obtain ⟨l1, l2, he, hfirst⟩ := ih c
        refine ⟨best :: l1, l2, by rw [List.cons_append, ← he], ?_⟩
        intro x hx
        rcases List.mem_cons.mp hx with rfl | hx2
        · exact lt_of_le_of_lt (foldMin_le key rest c c (by simp)) h
        · exact hfirst x hx2
      · rw [if_neg h]
        obtain ⟨l1, l2, he, hfirst⟩ := ih best
        cases l1 with
        | nil =>
            have hb : best = foldMin key rest best := by
              simpa using congrArg (fun l => l.head?) he
            refine ⟨[], c :: rest, ?_, by simp⟩
            rw [List.nil_append, ← hb]
        | cons d l1t =>
            have hd : d = best ∧ rest = l1t ++ foldMin key rest best :: l2 := by
              rw [List.cons_append] at he
              exact ⟨(List.cons.injEq _ _ _ _ ▸ he).1.symm, (List.cons.injEq _ _ _ _ ▸ he).2⟩
            refine ⟨best :: c :: l1t, l2, ?_, ?_⟩
            · rw [List.cons_append, List.cons_append, ← hd.2]
            · intro x hx
              have hrb : key (foldMin key rest best) < key best := by
                have := hfirst d (by simp)
                rw [hd.1] at this
                exact this
              rcases List.mem_cons.mp hx with rfl | hx2
              · exact hrb
              · rcases List.mem_cons.mp hx2 with rfl | hx3
                · exact lt_of_lt_of_le hrb (Nat.le_of_not_lt h)
                · exact hfirst x (List.mem_cons_of_mem _ hx3)

theorem scanOldest_eq_foldMin (s : CSet) (key : Block → Nat) (l : List Block)
    (best : Block) (hlk : ∀ b ∈ l, s.get_block_with_tag b.tag = some b) :
    scanOldest s key (l.map (·.tag)) best = foldMin key l best := by
  induction l generalizing best with
  | nil => rfl
  | cons c rest ih =>
      rw [List.map_cons]
      simp only [scanOldest, foldMin]
      rw [hlk c (by simp)]
      simp only [Option.getD_some]
      by_cases h : key c < key best
      · rw [if_pos h, if_pos h]
        exact ih c (fun b hb => hlk b (List.mem_cons_of_mem _ hb))
      · rw [if_neg h, if_neg h]
        exact ih best (fun b hb => hlk b (List.mem_cons_of_mem _ hb))

theorem hasTag_of_mem {s : CSet} {b : Block} (hb : b ∈ s.blocks.filterMap id) :
    hasTag s.blocks b.tag = true := by
  unfold hasTag
  rw [List.any_eq_true]
  exact ⟨b, hb, by simp⟩

theorem scanOldest_mem (s : CSet) (key : Block → Nat) (tags : List Nat)
    (best : Block) (hbest : best ∈ s.blocks.filterMap id)
    (htags : ∀ t ∈ tags, hasTag s.blocks t = true) :
    scanOldest s key tags best ∈ s.blocks.filterMap id := by
  induction tags generalizing best with
  | nil => exact hbest
  | cons t rest ih =>
      simp only [scanOldest]
      obtain ⟨b, hb⟩ := get_block_with_tag_isSome (htags t (by simp))
      rw [hb]
      simp only [Option.getD_some]
      have hbm := (get_block_with_tag_mem hb).1
      by_cases h : key b < key best
      · rw [if_pos h]
        exact ih b hbm (fun u hu => htags u (List.mem_cons_of_mem _ hu))
      · rw [if_neg h]
        exact ih best hbest (fun u hu => htags u (List.mem_cons_of_mem _ hu))

/-- Removing a present tag leaves an empty slot. -/
theorem evictTagAux_makes_empty {tag : Nat} {l : List (Option Block)}
    (h : hasTag l tag = true) :
    ((evictTagAux tag l).2.all (·.isSome)) = false := by
  induction l with
  | nil => simp [hasTag] at h
  | cons x xs ih =>
      cases x with
      | none => simp [evictTagAux]
      | some b =>
          by_cases hbt : b.tag = tag
          · simp [evictTagAux, hbt]
          · rw [hasTag_cons_some] at h
            have h2 : hasTag xs tag = true := by
              rcases Bool.or_eq_true_iff.mp h with h1 | h1
              · exact absurd (by simpa using h1) hbt
              · exact h1
            simp [evictTagAux, hbt, ih h2]

theorem present_nonempty {s : CSet} (hfull : s.is_full = true)
    (hne : s.blocks ≠ []) : s.blocks.filterMap id ≠ [] := by
  cases hb : s.blocks with
  | nil => exact absurd hb hne
  | cons x xs =>
      unfold CSet.is_full at hfull
      rw [hb] at hfull
      cases x with
      | none => simp at hfull
      | some b => simp

/-- After evicting from a full nonempty set (any policy), some slot is
empty. -/
theorem evict_makes_empty (s : CSet) (rnd : Nat) (hfull : s.is_full = true)
    (hne : s.blocks ≠ []) :
    ((s.evict rnd).2.blocks.all (·.isSome)) = false := by
  have hpres := present_nonempty hfull hne
  have htags : s.get_tags ≠ [] := by
    rw [getTags_eq_map]
    simpa using hpres
  unfold CSet.evict EvictionPolicy.evict
  rw [if_neg (by rw [hfull]; simp)]
  cases hts : s.get_tags with
  | nil => exact absurd hts htags
  | cons t0 ts =>
      have ht0 : hasTag s.blocks t0 = true := by
        have : t0 ∈ s.get_tags := by rw [hts]; simp
        rw [getTags_eq_map] at this
        obtain ⟨b, hb1, hb2⟩ := List.mem_map.mp this
        rw [← hb2]
        exact hasTag_of_mem hb1
      have hallt : ∀ t ∈ s.get_tags, hasTag s.blocks t = true := by
        intro t ht
        rw [getTags_eq_map] at ht
        obtain ⟨b, hb1, hb2⟩ := List.mem_map.mp ht
        rw [← hb2]
        exact hasTag_of_mem hb1
      obtain ⟨b0, hb0⟩ := get_block_with_tag_isSome ht0
      have hb0m := (get_block_with_tag_mem hb0).1
      cases hp : s.evict_policy
      · -- LRU
        simp only
        rw [hb0]
        simp only [Option.getD_some]
        have hmem := scanOldest_mem s (fun b => b.last_access) ts b0 hb0m
          (fun t ht => hallt t (by rw [hts]; exact List.mem_cons_of_mem _ ht))
        unfold CSet.evict_tag
        exact evictTagAux_makes_empty (hasTag_of_mem hmem)
      · -- FIFO
        simp only
        rw [hb0]
        simp only [Option.getD_some]
        have hmem := scanOldest_mem s (fun b => b.first_access) ts b0 hb0m
          (fun t ht => hallt t (by rw [hts]; exact List.mem_cons_of_mem _ ht))
        unfold CSet.evict_tag
        exact evictTagAux_makes_empty (hasTag_of_mem hmem)
      · -- Random
        simp only
        have hlen : rnd % (t0 :: ts).length < (t0 :: ts).length :=
          Nat.mod_lt _ (by simp)
        have hmem : (t0 :: ts).getD (rnd % (t0 :: ts).length) 0 ∈ t0 :: ts := by
          rw [List.getD_eq_get _ _ hlen]
          exact List.get_mem _ _ _
        have htg : hasTag s.blocks ((t0 :: ts).getD (rnd % (t0 :: ts).length) 0) = true := by
          apply hallt
          rw [hts]
          exact hmem
        unfold CSet.evict_tag
        exact evictTagAux_makes_empty htg

/-- Core characterisation of `Set::evict` on a full set for the two
deterministic policies: the returned block is the first block attaining the
minimal key, and exactly its slot is cleared. -/
theorem evict_full_core (s : CSet) (rnd : Nat) (key : Block → Nat)
    (hfull : s.is_full = true) (hne : s.blocks ≠ [])
    (hnodup : ((s.blocks.filterMap id).map (·.tag)).Nodup)
    (hpol : (s.evict_policy = .LRU ∧ key = fun b => b.last_access) ∨
            (s.evict_policy = .FIFO ∧ key = fun b => b.first_access)) :
    ∃ b k l1 l2,
      s.blocks.filterMap id = l1 ++ b :: l2 ∧
      (∀ x ∈ l1, key b < key x) ∧
      (∀ x ∈ s.blocks.filterMap id, key b ≤ key x) ∧
      s.blocks.get? k = some (some b) ∧
      s.evict rnd = (some b, { s with blocks := s.blocks.set k none }) := by
  have hpres := present_nonempty hfull hne
  cases hp : s.blocks.filterMap id with
  | nil => exact absurd hp hpres
  | cons b0 ptail =>
      have hts : s.get_tags = b0.tag :: ptail.map (·.tag) := by
        rw [getTags_eq_map, hp, List.map_cons]
      have hb0 : b0 ∈ s.blocks.filterMap id := by rw [hp]; simp
      have hlk0 : s.get_block_with_tag b0.tag = some b0 :=
        get_block_with_tag_nodup hnodup hb0
      have hlk : ∀ b ∈ ptail, s.get_block_with_tag b.tag = some b := by
        intro b hb
        exact get_block_with_tag_nodup hnodup
          (by rw [hp]; exact List.mem_cons_of_mem _ hb)
      have hscan : ∀ k2 : Block → Nat,
          scanOldest s k2 (ptail.map (·.tag)) ((s.get_block_with_tag b0.tag).getD default)
            = foldMin k2 ptail b0 := by
        intro k2
        rw [hlk0]
        simp only [Option.getD_some]
        exact scanOldest_eq_foldMin s k2 ptail b0 hlk
      have hmem : foldMin key ptail b0 ∈ s.blocks.filterMap id := by
        rw [hp]
        exact foldMin_mem key ptail b0
      obtain ⟨k, hk1, _, hk3⟩ := evictTagAux_nodup_found hnodup hmem
      obtain ⟨l1, l2, hdec, hfirst⟩ := foldMin_first key ptail b0
      have hev : s.evict rnd =
          (some (foldMin key ptail b0), (s.evict_tag (foldMin key ptail b0).tag).2) := by
        rcases hpol with ⟨hpolicy, hkey⟩ | ⟨hpolicy, hkey⟩ <;>
        · unfold CSet.evict EvictionPolicy.evict
          rw [if_neg (by rw [hfull]; simp)]
          simp only [hpolicy, hts]
          rw [← hkey, hscan key]
      refine ⟨foldMin key ptail b0, k, l1, l2, hdec, hfirst, ?_, hk1, ?_⟩
      · intro x hx
        exact foldMin_le key ptail b0 x hx
      · rw [hev]
        unfold CSet.evict_tag
        rw [hk3]

theorem get?_set_self {l : List α} {i : Nat} (x : α) (h : i < l.length) :
    (l.set i x).get? i = some x := by
  induction l generalizing i with
  | nil => simp at h
  | cons y ys ih =>
      cases i with
      | zero => rfl
      | succ i => exact ih (by simpa using h)

theorem set_get?_self {l : List α} {i : Nat} {x : α} (h : l.get? i = some x) :
    l.set i x = l := by
  induction l generalizing i with
  | nil => rfl
  | cons y ys ih =>
      cases i with
      | zero => cases h; rfl
      | succ i =>
          rw [List.set_cons_succ, ih (by simpa using h)]

theorem get?_set_ne {l : List α} {i j : Nat} (x : α) (h : i ≠ j) :
    (l.set i x).get? j = l.get? j := by
  induction l generalizing i j with
  | nil => rfl
  | cons y ys ih =>
      cases i with
      | zero =>
          cases j with
          | zero => exact absurd rfl h
          | succ j => rfl
      | succ i =>
          cases j with
          | zero => rfl
          | succ j =>
              rw [List.set_cons_succ]
              exact ih (fun hc => h (by rw [hc]))

theorem onSet_eq {c : Cache} {i : Nat} {s : CSet} {α : Type}
    (h : c.sets.get? i = some s) (f : CSet → α × CSet) :
    c.onSet i f = some ((f s).1, { c with sets := c.sets.set i (f s).2 }) := by
  unfold Cache.onSet
  rw [h]

theorem cache_is_hit_eq {c : Cache} {a : BlockAddress} {s : CSet}
    (h : c.sets.get? a.index = some s) : c.is_hit a = hasTag s.blocks a.tag := by
  unfold Cache.is_hit Cache.get
  rw [h, ← is_hit_eq_hasTag]
  rfl

theorem block_read_tag (b : Block) (t : Nat) : (b.read t).tag = b.tag := rfl

theorem block_write_tag (b : Block) (t : Nat) : (b.write t).tag = b.tag := rfl

theorem block_new_tag (tag index size t : Nat) : (Block.new tag index size t).tag = tag := rfl

/-- Residency after `Set::read_and_allocate`: the requested tag is present
afterwards (the set must have at least one slot; with none the source
panics on its assert). -/
theorem read_and_allocate_resident (s : CSet) (a : BlockAddress) (t rnd : Nat)
    (hne : s.blocks ≠ []) :
    hasTag (s.read_and_allocate a t rnd).2.blocks a.tag = true := by
  unfold CSet.read_and_allocate
  have htr : s.try_read a t = (hasTag s.blocks a.tag,
      { s with blocks := (updateFirstWithTag a.tag (fun b => b.read t) s.blocks).2 }) := by
    unfold CSet.try_read
    simp only [updateFirstWithTag_fst]
  cases hht : hasTag s.blocks a.tag
  · -- miss: allocation path
    have htr2 : s.try_read a t = (false, s) := by
      unfold CSet.try_read
      simp only [updateFirstWithTag_not_found _ hht]
    rw [htr2]
    simp only [Bool.false_eq_true, if_false]
    have halloc : hasTag (s.allocate_block a t rnd).2.blocks a.tag = true := by
      unfold CSet.allocate_block
      cases hful : s.is_full
      · simp only [Bool.false_eq_true, if_false]
        have : s.blocks.all (·.isSome) = false := hful
        exact insertFirstEmpty_of_not_full _ this
      · simp only [if_true]
        have hempty := evict_makes_empty s rnd hful hne
        exact insertFirstEmpty_of_not_full _ hempty
    unfold CSet.try_read
    rw [hasTag_updateFirstWithTag _ _ (fun b => block_read_tag b t)]
    exact halloc
  · -- hit: the lookup refreshes the block in place
    rw [htr, hht]
    simp only [if_true]
    rw [hasTag_updateFirstWithTag _ _ (fun b => block_read_tag b t)]
    exact hht

/-! ## Claim C7: eviction policy on a set -/

/-- C7: `Set::evict` returns `none` and leaves the set unchanged when the
set is not full; on a full set with at least one slot and pairwise distinct
present tags, the LRU policy removes and returns the present block with
minimal `last_access` and the FIFO policy the one with minimal
`first_access`, on ties the one appearing first in enumeration order, and
exactly that block's slot is cleared. -/
theorem c7_evict_policy (s : CSet) (rnd : Nat) :
    (s.is_full = false → s.evict rnd = (none, s)) ∧
    (s.is_full = true → s.blocks ≠ [] →
      ((s.blocks.filterMap id).map (·.tag)).Nodup →
      ∀ key : Block → Nat,
        ((s.evict_policy = .LRU ∧ key = fun b => b.last_access) ∨
         (s.evict_policy = .FIFO ∧ key = fun b => b.first_access)) →
        ∃ b k l1 l2,
          s.blocks.filterMap id = l1 ++ b :: l2 ∧
          (∀ x ∈ l1, key b < key x) ∧
          (∀ x ∈ s.blocks.filterMap id, key b ≤ key x) ∧
          s.blocks.get? k = some (some b) ∧
          s.evict rnd = (some b, { s with blocks := s.blocks.set k none })) := by
  constructor
  · intro hnf
    unfold CSet.evict EvictionPolicy.evict
    rw [if_pos (by rw [hnf]; simp)]
  · intro hfull hne hnodup key hpol
    exact evict_full_core s rnd key hfull hne hnodup hpol

/-- Fixture: a full two-way LRU set with distinct tags. -/
def exSet7 : CSet :=
  { blocks := [some ⟨5, 0, false, 16, 10, 1⟩, some ⟨7, 0, false, 16, 3, 2⟩]
    block_size := 16
    evict_policy := .LRU }

/-- C7 witness: on the concrete full LRU set the theorem applies and
produces the LRU victim. -/
theorem c7_evict_policy_witness :
    exSet7.is_full = true ∧
    (∃ b k l1 l2,
      exSet7.blocks.filterMap id = l1 ++ b :: l2 ∧
      (∀ x ∈ l1, b.last_access < x.last_access) ∧
      (∀ x ∈ exSet7.blocks.filterMap id, b.last_access ≤ x.last_access) ∧
      exSet7.blocks.get? k = some (some b) ∧
      exSet7.evict 0 = (some b, { exSet7 with blocks := exSet7.blocks.set k none })) :=
  ⟨rfl, (c7_evict_policy exSet7 0).2 rfl (by decide) (by decide)
    (fun b => b.last_access) (Or.inl ⟨rfl, rfl⟩)⟩

/-! ## Step equations for the cache wrappers -/

theorem dataCache_read_eq (d : DataCache) (a : BlockAddress) (t rnd : Nat) {s : CSet}
    (hsget : d.cache.sets.get? a.index = some s) :
    d.read a t rnd =
      some ((s.is_read_and_allocate_hit a t rnd).1,
        if (s.is_read_and_allocate_hit a t rnd).1 = true then
          { d with
            cache := { d.cache with
              sets := d.cache.sets.set a.index (s.is_read_and_allocate_hit a t rnd).2 }
            total_reads := d.total_reads + 1 }
        else
          { d with
            cache := { d.cache with
              sets := d.cache.sets.set a.index (s.is_read_and_allocate_hit a t rnd).2 }
            total_reads := d.total_reads + 1
            total_read_misses := d.total_read_misses + 1 }) := by
  simp only [DataCache.read, Cache.is_read_and_allocate_hit, Cache.onSet, hsget]

theorem dataCache_write_eq_nwa (d : DataCache) (a : BlockAddress) (t rnd : Nat) {s : CSet}
    (hwa : d.is_write_allocate = false)
    (hsget : d.cache.sets.get? a.index = some s) :
    d.write a t rnd =
      some ((s.try_write a t).1,
        if (s.try_write a t).1 = true then
          { d with
            cache := { d.cache with
              sets := d.cache.sets.set a.index (s.try_write a t).2 }
            total_writes := d.total_writes + 1 }
        else
          { d with
            cache := { d.cache with
              sets := d.cache.sets.set a.index (s.try_write a t).2 }
            total_writes := d.total_writes + 1
            total_write_misses := d.total_write_misses + 1 }) := by
  simp only [DataCache.write, hwa, Bool.false_eq_true, if_false, Cache.try_write,
    Cache.onSet, hsget]

theorem dataCache_write_eq_wa (d : DataCache) (a : BlockAddress) (t rnd : Nat) {s : CSet}
    (hwa : d.is_write_allocate = true)
    (hsget : d.cache.sets.get? a.index = some s) :
    d.write a t rnd =
      some ((s.is_write_and_allocate_hit a t rnd).1,
        if (s.is_write_and_allocate_hit a t rnd).1 = true then
          { d with
            cache := { d.cache with
              sets := d.cache.sets.set a.index (s.is_write_and_allocate_hit a t rnd).2 }
            total_writes := d.total_writes + 1 }
        else
          { d with
            cache := { d.cache with
              sets := d.cache.sets.set a.index (s.is_write_and_allocate_hit a t rnd).2 }
            total_writes := d.total_writes + 1
            total_write_misses := d.total_write_misses + 1 }) := by
  simp only [DataCache.write, hwa, if_true, Cache.is_write_and_allocate_hit,
    Cache.onSet, hsget]

theorem tlbCache_translate_eq (tlb : TLBCache) (a : BlockAddress) (t rnd : Nat) {s : CSet}
    (hsget : tlb.cache.sets.get? a.index = some s) :
    tlb.translate a t rnd =
      some ((s.is_read_and_allocate_hit a t rnd).1,
        ⟨{ tlb.cache with
           sets := tlb.cache.sets.set a.index (s.is_read_and_allocate_hit a t rnd).2 }⟩) := by
  simp only [TLBCache.translate, Cache.is_read_and_allocate_hit, Cache.onSet, hsget]

theorem l2Cache_read_eq (d : L2Cache) (a : BlockAddress) (t rnd : Nat) {s : CSet}
    (hsget : d.cache.sets.get? a.index = some s) :
    d.read a t rnd =
      some ((s.is_read_and_allocate_hit a t rnd).1,
        if (s.is_read_and_allocate_hit a t rnd).1 = true then
          { d with
            cache := { d.cache with
              sets := d.cache.sets.set a.index (s.is_read_and_allocate_hit a t rnd).2 }
            total_reads := d.total_reads + 1 }
        else
          { d with
            cache := { d.cache with
              sets := d.cache.sets.set a.index (s.is_read_and_allocate_hit a t rnd).2 }
            total_reads := d.total_reads + 1
            total_read_misses := d.total_read_misses + 1 }) := by
  simp only [L2Cache.read, Cache.is_read_and_allocate_hit, Cache.onSet, hsget]

/-! ## Claim C9: write-through caches do not allocate on a write miss -/

/-- C9: on a data cache configured without write-allocate (the
write-through configuration), a write to a non-resident address leaves
every cache set unchanged and only bumps the write and write-miss
counters, while a read of the same non-resident address misses but
allocates the line. -/
theorem c9_write_through_no_allocate (d : DataCache) (a : BlockAddress) (t rnd : Nat)
    (hwa : d.is_write_allocate = false)
    (hs : ∃ s, d.cache.sets.get? a.index = some s ∧ s.blocks ≠ [])
    (hmiss : d.cache.is_hit a = false) :
    d.write a t rnd =
      some (false, { d with total_writes := d.total_writes + 1,
                            total_write_misses := d.total_write_misses + 1 }) ∧
    (∃ d2, d.read a t rnd = some (false, d2) ∧ d2.cache.is_hit a = true) := by
  obtain ⟨s, hsget, hsne⟩ := hs
  have hnt : hasTag s.blocks a.tag = false := by
    rw [cache_is_hit_eq hsget] at hmiss
    exact hmiss
  have htw : s.try_write a t = (false, s) := by
    unfold CSet.try_write
    simp only [updateFirstWithTag_not_found _ hnt]
  have hlen : a.index < d.cache.sets.length := by
    by_contra hc
    rw [List.get?_eq_none.mpr (Nat.le_of_not_lt hc)] at hsget
    cases hsget
  have hhit : (s.is_read_and_allocate_hit a t rnd).1 = false := by
    unfold CSet.is_read_and_allocate_hit
    rw [is_hit_eq_hasTag, hnt]
  have hres : hasTag (s.is_read_and_allocate_hit a t rnd).2.blocks a.tag = true := by
    unfold CSet.is_read_and_allocate_hit
    exact read_and_allocate_resident s a t rnd hsne
  constructor
  · rw [dataCache_write_eq_nwa d a t rnd hwa hsget, htw]
    simp only [Bool.false_eq_true, if_false]
    rw [set_get?_self hsget]
  · rw [dataCache_read_eq d a t rnd hsget, hhit]
    simp only [Bool.false_eq_true, if_false]
    refine ⟨_, rfl, ?_⟩
    rw [cache_is_hit_eq (show (d.cache.sets.set a.index
        (s.is_read_and_allocate_hit a t rnd).2).get? a.index = some _ from
      get?_set_self _ (by simpa using hlen))]
    exact hres

/-! ## Page-table eviction: the scan loop against the declarative choice -/

/-- Value-level rendering of the scan loop of `PageTable::evict`: walk the
bookkeeping values with their absolute positions, stopping at the first
free frame, otherwise keeping the strictly smaller value. -/
def scanVals : List Nat → Nat → Nat → Nat → Nat
  | [], _, _, best => best
  | v :: rest, pos, mt, best =>
      if v == 0 then pos
      else if v < mt then scanVals rest (pos + 1) v pos
      else scanVals rest (pos + 1) mt best

theorem getD_of_get? {l : List α} {n : Nat} {x : α} (d : α) (h : l.get? n = some x) :
    l.getD n d = x := by
  induction l generalizing n with
  | nil => cases h
  | cons y ys ih =>
      cases n with
      | zero => cases h; rfl
      | succ n => exact ih (by simpa using h)

theorem evict_scan_eq_scanVals (pt : PageTable) (l : List Nat) :
    ∀ (pos : Nat), pt.physical_page_bookkeeping.drop pos = l →
      ∀ mt best, pt.evict_scan (List.range' pos l.length) mt best = scanVals l pos mt best := by
  induction l with
  | nil =>
      intro pos _ mt best
      rfl
  | cons v rest ih =>
      intro pos hdrop mt best
      have hget : pt.physical_page_bookkeeping.get? pos = some v := by
        have h0 := congrArg (fun l2 => l2.get? 0) hdrop
        simpa [List.get?_drop] using h0
      have hdrop2 : pt.physical_page_bookkeeping.drop (pos + 1) = rest := by
        have h1 := congrArg (fun l2 => l2.drop 1) hdrop
        simpa [List.drop_drop] using h1
      have hfree : pt.is_page_number_free pos = (v == 0) := by
        unfold PageTable.is_page_number_free PageTable.get_last_access_time_page_number
        rw [getD_of_get? 0 hget]
      have hla : pt.get_last_access_time_page_number pos = v := by
        unfold PageTable.get_last_access_time_page_number
        exact getD_of_get? 0 hget
      rw [show (v :: rest).length = rest.length + 1 from rfl, List.range'_succ]
      show pt.evict_scan (pos :: List.range' (pos + 1) rest.length) mt best = _
      unfold PageTable.evict_scan
      rw [hla]
      show (if pt.is_page_number_free pos = true then pos
        else if v < mt then pt.evict_scan (List.range' (pos + 1) rest.length) v pos
        else pt.evict_scan (List.range' (pos + 1) rest.length) mt best) = _
      rw [hfree]
      show _ = (if v == 0 then pos
        else if v < mt then scanVals rest (pos + 1) v pos
        else scanVals rest (pos + 1) mt best)
      cases hz : (v == 0)
      · simp only [Bool.false_eq_true, if_false]
        by_cases hlt : v < mt
        · rw [if_pos hlt, if_pos hlt, ih (pos + 1) hdrop2 v pos]
        · rw [if_neg hlt, if_neg hlt, ih (pos + 1) hdrop2 mt best]
      · simp

/-- The scan loop, when some frame is free, stops at the first free
frame. -/
theorem scanVals_free {l : List Nat} {j : Nat}
    (h : l.findIdx? (fun v => v == 0) = some j) :
    ∀ pos mt best, scanVals l pos mt best = pos + j := by
  induction l generalizing j with
  | nil => cases h
  | cons v rest ih =>
      intro pos mt best
      rw [List.findIdx?_cons] at h
      cases hz : (v == 0)
      · rw [hz] at h
        simp only [Bool.false_eq_true, if_false] at h
        obtain ⟨j2, hj2, hje⟩ := Option.map_eq_some'.mp (by simpa using h)
        unfold scanVals
        rw [hz]
        simp only [Bool.false_eq_true, if_false]
        by_cases hlt : v < mt
        · rw [if_pos hlt, ih hj2]
          omega
        · rw [if_neg hlt, ih hj2]
          omega
      · rw [hz] at h
        simp only [if_true] at h
        have hj0 : j = 0 := by
          cases h
          rfl
        subst hj0
        unfold scanVals
        rw [hz]
        simp

/-- The scan loop with no free frame is the strictly-smaller fold over the
(position, value) pairs. -/
theorem scanVals_nofree {l : List Nat}
    (h : ∀ v ∈ l, ¬(v = 0)) :
    ∀ pos mt best, scanVals l pos mt best =
      (foldMin (fun pv : Nat × Nat => pv.2) ((List.range' pos l.length).zip l)
        (best, mt)).1 := by
  induction l with
  | nil => intro pos mt best; rfl
  | cons v rest ih =>
      intro pos mt best
      have hz : (v == 0) = false := by
        simpa using h v (by simp)
      unfold scanVals
      rw [hz]
      simp only [Bool.false_eq_true, if_false]
      rw [show (v :: rest).length = rest.length + 1 from rfl, List.range'_succ]
      show _ = (foldMin (fun pv : Nat × Nat => pv.2)
        ((pos, v) :: ((List.range' (pos + 1) rest.length).zip rest)) (best, mt)).1
      unfold foldMin
      by_cases hlt : v < mt
      · rw [if_pos hlt, if_pos hlt]
        exact ih (fun u hu => h u (List.mem_cons_of_mem _ hu)) (pos + 1) v pos
      · rw [if_neg hlt, if_neg hlt]
        exact ih (fun u hu => h u (List.mem_cons_of_mem _ hu)) (pos + 1) mt best

theorem findIdx_eq_of {p : α → Bool} {l : List α} {r : Nat} (hr : r < l.length)
    (hp : p (l.get ⟨r, hr⟩) = true)
    (hbefore : ∀ j (hj : j < r), p (l.get ⟨j, lt_trans hj hr⟩) = false) :
    l.findIdx p = r := by
  induction l generalizing r with
  | nil => simp at hr
  | cons x xs ih =>
      rw [List.findIdx_cons]
      cases r with
      | zero =>
          rw [show (x :: xs).get ⟨0, hr⟩ = x from rfl] at hp
          rw [hp]
          rfl
      | succ r =>
          have hx : p x = false := hbefore 0 (Nat.succ_pos r)
          rw [hx]
          simp only [cond_false]
          rw [ih (by simpa using hr) (by simpa using hp)
            (fun j hj => by simpa using hbefore (j + 1) (by omega))]

theorem zip_range'_get? {l : List Nat} {p i : Nat} (h : i < l.length) :
    ((List.range' p l.length).zip l).get? i = some (p + i, l.getD i 0) := by
  induction l generalizing p i with
  | nil => simp at h
  | cons v rest ih =>
      rw [show (v :: rest).length = rest.length + 1 from rfl, List.range'_succ]
      cases i with
      | zero => rfl
      | succ i =>
          show ((List.range' (p + 1) rest.length).zip rest).get? i = _
          rw [ih (by simpa using h)]
          have : p + 1 + i = p + (i + 1) := by omega
          rw [this]
          rfl

theorem get?_append_length (l1 : List α) (x : α) (l2 : List α) :
    (l1 ++ x :: l2).get? l1.length = some x := by
  induction l1 with
  | nil => rfl
  | cons y ys ih => exact ih

/-- The value scan started in the initial accumulator state computes the
declarative choice: the first free frame if any, otherwise the first frame
attaining the minimal bookkeeping value. -/
theorem scanVals_eq_claimChoice (l : List Nat)
    (hbk : ∀ v ∈ l, v ≤ u64MAX) :
    scanVals l 0 u64MAX 0 = claimEvictChoice l := by
  unfold claimEvictChoice
  cases hfi : l.findIdx? (fun v => v == 0) with
  | some j =>
      rw [scanVals_free hfi 0 u64MAX 0]
      show 0 + j = j
      omega
  | none =>
      have hz : ∀ v ∈ l, ¬(v = 0) := by
        intro v hv
        have := (List.findIdx?_eq_none_iff.mp hfi) v hv
        simpa using this
      cases hl : l with
      | nil => rfl
      | cons v0 rest =>
          subst hl
          have hz0 : (v0 == 0) = false := by simpa using hz v0 (by simp)
          have hstep : scanVals (v0 :: rest) 0 u64MAX 0 = scanVals rest 1 v0 0 := by
            by_cases hlt : v0 < u64MAX
            · simp [scanVals, hz0, hlt]
            · have hev : v0 = u64MAX :=
                le_antisymm (hbk v0 (by simp)) (Nat.le_of_not_lt hlt)
              have hmax0 : ¬(u64MAX = 0) := by norm_num [u64MAX]
              simp [scanVals, hz0, hlt, hev, hmax0]
          rw [hstep, scanVals_nofree (fun u hu => hz u (List.mem_cons_of_mem _ hu)) 1 v0 0]
          set l2 := v0 :: rest with hl2
          set FULL := (List.range' 0 l2.length).zip l2 with hFULL
          have hful : FULL = (0, v0) :: ((List.range' 1 rest.length).zip rest) := by
            rw [hFULL, hl2, show (v0 :: rest).length = rest.length + 1 from rfl,
              List.range'_succ]
            rfl
          set F := foldMin (fun pv : Nat × Nat => pv.2)
            ((List.range' 1 rest.length).zip rest) (0, v0) with hF
          have hlenF : FULL.length = l2.length := by
            rw [hFULL, List.length_zip]
            simp [List.length_range']
          have hgetF : ∀ i, i < l2.length → FULL.get? i = some (i, l2.getD i 0) := by
            intro i hi
            rw [hFULL]
            have := zip_range'_get? (l := l2) (p := 0) hi
            simpa using this
          have hmemFULL : F ∈ FULL := by
            rw [hful]
            exact foldMin_mem _ _ _
          have hle2 : ∀ x ∈ FULL, F.2 ≤ x.2 := by
            rw [hful]
            exact foldMin_le _ _ _
          obtain ⟨i, hi⟩ := List.mem_iff_get?.mp hmemFULL
          have hilen : i < l2.length := by
            by_contra hc
            rw [List.get?_eq_none.mpr (by rw [hlenF]; omega)] at hi
            cases hi
          have hFeq : F = (i, l2.getD i 0) := by
            rw [hgetF i hilen] at hi
            exact (Option.some.inj hi).symm
          obtain ⟨p1, p2, hdec, hfirst⟩ := foldMin_first
            (fun pv : Nat × Nat => pv.2) ((List.range' 1 rest.length).zip rest) (0, v0)
          have hdecF : FULL = p1 ++ F :: p2 := by rw [hful]; exact hdec
          have hr : FULL.get? p1.length = some F := by
            rw [hdecF]
            exact get?_append_length p1 F p2
          have hrlen : p1.length < l2.length := by
            by_contra hc
            rw [List.get?_eq_none.mpr (by rw [hlenF]; omega)] at hr
            cases hr
          have hFr : F = (p1.length, l2.getD p1.length 0) := by
            rw [hgetF p1.length hrlen] at hr
            exact (Option.some.inj hr).symm
          have hbefore : ∀ j, j < p1.length → F.2 < l2.getD j 0 := by
            intro j hj
            have hj2 : FULL.get? j = p1.get? j := by
              rw [hdecF]
              exact List.get?_append (by omega)
            have hjlen : j < l2.length := by omega
            rw [hgetF j hjlen] at hj2
            have hjmem : (j, l2.getD j 0) ∈ p1 := List.mem_iff_get?.mpr ⟨j, hj2.symm⟩
            exact hfirst _ hjmem
          have hallmem : ∀ w ∈ l2, F.2 ≤ w := by
            intro w hw
            obtain ⟨i2, hi2⟩ := List.mem_iff_get?.mp hw
            have hi2len : i2 < l2.length := by
              by_contra hc
              rw [List.get?_eq_none.mpr (by omega)] at hi2
              cases hi2
            have hg2 := hgetF i2 hi2len
            have hwv : l2.getD i2 0 = w := getD_of_get? 0 hi2
            rw [hwv] at hg2
            apply hle2 (i2, w)
            exact List.mem_iff_get?.mpr ⟨i2, hg2⟩
          show F.1 = l2.findIdx fun v => l2.all (fun w => v ≤ w)
          rw [show F.1 = p1.length from by rw [hFr]]
          refine (findIdx_eq_of hrlen ?_ ?_).symm
          · rw [List.all_eq_true]
            intro w hw
            have hgv : l2.get ⟨p1.length, hrlen⟩ = l2.getD p1.length 0 :=
              (getD_of_get? 0 (List.get?_eq_get hrlen)).symm
            rw [hgv]
            have : F.2 = l2.getD p1.length 0 := by rw [hFr]
            rw [← this]
            simpa using hallmem w hw
          · intro j hj
            have hgv : l2.get ⟨j, lt_trans hj hrlen⟩ = l2.getD j 0 :=
              (getD_of_get? 0 (List.get?_eq_get (lt_trans hj hrlen))).symm
            rw [hgv]
            rw [List.all_eq_false]
            refine ⟨F.2, ?_, ?_⟩
            · have : F.2 = l2.getD p1.length 0 := by rw [hFr]
              rw [this]
              have := List.get?_eq_get hrlen
              rw [show l2.get ⟨p1.length, hrlen⟩ = l2.getD p1.length 0 from
                (getD_of_get? 0 (List.get?_eq_get hrlen)).symm] at this
              exact List.mem_iff_get?.mpr ⟨p1.length, this⟩
            · have := hbefore j hj
              simp only [decide_eq_true_eq]
              omega

/-- The eviction scan of `PageTable::evict` computes the declarative
choice (bookkeeping values are `u64`, hence at most `u64::MAX`). -/
theorem evict_scan_eq_claimChoice (pt : PageTable)
    (hbk : ∀ v ∈ pt.physical_page_bookkeeping, v ≤ u64MAX) :
    pt.evict_scan (List.range pt.physical_page_bookkeeping.length) u64MAX 0 =
      claimEvictChoice pt.physical_page_bookkeeping := by
  rw [List.range_eq_range' pt.physical_page_bookkeeping.length]
  rw [show pt.physical_page_bookkeeping.length =
    (pt.physical_page_bookkeeping.drop 0).length from by rw [List.drop_zero]]
  rw [evict_scan_eq_scanVals pt (pt.physical_page_bookkeeping.drop 0) 0 rfl u64MAX 0]
  rw [List.drop_zero]
  exact scanVals_eq_claimChoice _ hbk

theorem mark_page_number_free_allocated (pt : PageTable) (p : Nat) :
    (pt.mark_page_number_free p).allocated_physical_pages =
      pt.allocated_physical_pages := by
  unfold PageTable.mark_page_number_free PageTable.invalidate_page_number
    PageTable.set_last_access_time_page_number
  split <;> rfl

theorem mark_page_number_free_bookkeeping (pt : PageTable) (p : Nat) :
    (pt.mark_page_number_free p).physical_page_bookkeeping =
      pt.physical_page_bookkeeping.set p 0 := by
  unfold PageTable.mark_page_number_free PageTable.invalidate_page_number
    PageTable.set_last_access_time_page_number
  split
  · rfl
  · show pt.physical_page_bookkeeping = pt.physical_page_bookkeeping.set p 0
    rw [List.set_eq_of_length_le (by omega)]

theorem mark_page_number_free_entries (pt : PageTable) (p : Nat) :
    (pt.mark_page_number_free p).entries = pt.entries.map (fun slot =>
      match slot with
      | some e => if e.get_physical_page_number = p then none else some e
      | none => none) := by
  unfold PageTable.mark_page_number_free PageTable.invalidate_page_number
    PageTable.set_last_access_time_page_number
  split <;> rfl

/-- Characterisation of `PageTable::evict`: it frees the declaratively
chosen frame (first free, else first minimal bookkeeping), invalidating
its entries, and always decrements the allocation counter. -/
theorem pageTable_evict_eq (pt : PageTable)
    (hbk : ∀ v ∈ pt.physical_page_bookkeeping, v ≤ u64MAX) :
    pt.evict =
      { pt.mark_page_number_free (claimEvictChoice pt.physical_page_bookkeeping) with
        allocated_physical_pages := pt.allocated_physical_pages - 1 } := by
  unfold PageTable.evict
  rw [evict_scan_eq_claimChoice pt hbk]
  simp only [mark_page_number_free_allocated]

theorem range_find?_eq_findIdx? (p : Nat → Bool) (l : List Nat) :
    (List.range l.length).find? (fun i => p (l.getD i 0)) = l.findIdx? p := by
  induction l with
  | nil => rfl
  | cons v rest ih =>
      rw [show (v :: rest).length = rest.length + 1 from rfl, List.range_succ_eq_map,
        List.findIdx?_cons, List.find?_cons]
      simp only [List.getD_cons_zero]
      cases hp : p v
      · simp only [hp, Bool.false_eq_true, if_false, cond_false]
        rw [List.find?_map]
        have hcomp : ((fun i => p ((v :: rest).getD i 0)) ∘ Nat.succ) =
            (fun i => p (rest.getD i 0)) := by
          funext i
          rfl
        rw [hcomp, ih]
        cases h2 : rest.findIdx? p <;> simp [h2]
      · simp [hp]

theorem mark_virtual_access_allocated (pt : PageTable) (va t : Nat) :
    (pt.mark_virtual_access va t).allocated_physical_pages =
      pt.allocated_physical_pages := by
  unfold PageTable.mark_virtual_access PageTable.mark_physical_access
  cases pt.get_entry va <;> rfl

theorem mark_virtual_access_entries (pt : PageTable) (va t : Nat) {e : PageTableEntry}
    (he : pt.get_entry va = some e) (hlast : e.last_access_time = t) :
    (pt.mark_virtual_access va t).entries = pt.entries := by
  unfold PageTable.mark_virtual_access PageTable.mark_physical_access
  rw [he]
  show (pt.entries.set (pt.get_index_from_virtual_address va)
    (some { e with last_access_time := t })) = pt.entries
  have he2 : ({ e with last_access_time := t } : PageTableEntry) = e := by
    cases e
    simp_all
  rw [he2]
  unfold PageTable.get_entry at he
  cases hg : pt.entries.get? (pt.get_index_from_virtual_address va) with
  | none => rw [hg] at he; cases he
  | some slot =>
      rw [hg] at he
      cases slot with
      | none => cases he
      | some e2 =>
          have : e2 = e := by cases he; rfl
          subst this
          exact set_get?_self hg

theorem mark_page_number_free_page_size (pt : PageTable) (p : Nat) :
    (pt.mark_page_number_free p).page_size = pt.page_size := by
  unfold PageTable.mark_page_number_free PageTable.invalidate_page_number
    PageTable.set_last_access_time_page_number
  split <;> rfl

theorem mark_page_number_free_virtual_pages (pt : PageTable) (p : Nat) :
    (pt.mark_page_number_free p).virtual_pages = pt.virtual_pages := by
  unfold PageTable.mark_page_number_free PageTable.invalidate_page_number
    PageTable.set_last_access_time_page_number
  split <;> rfl

theorem mark_page_number_free_physical_pages (pt : PageTable) (p : Nat) :
    (pt.mark_page_number_free p).physical_pages = pt.physical_pages := by
  unfold PageTable.mark_page_number_free PageTable.invalidate_page_number
    PageTable.set_last_access_time_page_number
  split <;> rfl

theorem get_entry_of_get? {pt : PageTable} {va : Nat} {e : PageTableEntry}
    (h : pt.entries.get? (pt.get_index_from_virtual_address va) = some (some e)) :
    pt.get_entry va = some e := by
  unfold PageTable.get_entry
  rw [h]

theorem mark_virtual_access_page_size (pt : PageTable) (va t : Nat) :
    (pt.mark_virtual_access va t).page_size = pt.page_size := by
  unfold PageTable.mark_virtual_access PageTable.mark_physical_access
  cases pt.get_entry va <;> rfl

theorem mark_virtual_access_bookkeeping_length (pt : PageTable) (va t : Nat) :
    (pt.mark_virtual_access va t).physical_page_bookkeeping.length =
      pt.physical_page_bookkeeping.length := by
  unfold PageTable.mark_virtual_access PageTable.mark_physical_access
  cases pt.get_entry va
  · rfl
  · exact List.length_set ..

/-- Installing a fresh entry (with access time `t`) at the slot of `va` and
then marking the virtual access leaves the installed entries intact and the
allocation counter unchanged; only the bookkeeping vector moves. -/
theorem install_and_mark (q : PageTable) (c va t : Nat)
    (hidx : q.get_index_from_virtual_address va < q.entries.length) :
    ∃ r,
      ({ q with
          entries := q.entries.set (q.get_index_from_virtual_address va)
            (some (PageTableEntry.new (c <<< u64_trailing_zeros q.page_size) va
              q.page_size t)) } : PageTable).mark_virtual_access va t = r ∧
      r.allocated_physical_pages = q.allocated_physical_pages ∧
      r.entries.get? (q.get_index_from_virtual_address va) =
        some (some (PageTableEntry.new (c <<< u64_trailing_zeros q.page_size) va
          q.page_size t)) ∧
      (∀ i, i ≠ q.get_index_from_virtual_address va →
        r.entries.get? i = q.entries.get? i) ∧
      r.page_size = q.page_size ∧
      r.physical_page_bookkeeping.length = q.physical_page_bookkeeping.length ∧
      r.entries.length = q.entries.length := by
  have hset : (q.entries.set (q.get_index_from_virtual_address va)
      (some (PageTableEntry.new (c <<< u64_trailing_zeros q.page_size) va
        q.page_size t))).get? (q.get_index_from_virtual_address va) =
      some (some (PageTableEntry.new (c <<< u64_trailing_zeros q.page_size) va
        q.page_size t)) := get?_set_self _ hidx
  have he : PageTable.get_entry { q with
      entries := q.entries.set (q.get_index_from_virtual_address va)
        (some (PageTableEntry.new (c <<< u64_trailing_zeros q.page_size) va
          q.page_size t)) } va =
      some (PageTableEntry.new (c <<< u64_trailing_zeros q.page_size) va
        q.page_size t) :=
    get_entry_of_get? hset
  refine ⟨_, rfl, ?_, ?_, ?_, ?_, ?_, ?_⟩
  · rw [mark_virtual_access_allocated]
  · rw [mark_virtual_access_entries _ va t he rfl]
    exact hset
  · intro i hi
    rw [mark_virtual_access_entries _ va t he rfl]
    exact get?_set_ne _ (Ne.symm hi)
  · rw [mark_virtual_access_page_size]
  · rw [mark_virtual_access_bookkeeping_length]
  · rw [mark_virtual_access_entries _ va t he rfl]
    exact List.length_set ..

theorem range_find?_free_eq (l : List Nat) :
    (List.range l.length).find? (fun i => l.getD i 0 == 0) = firstFreeFrame l :=
  range_find?_eq_findIdx? (fun v => v == 0) l

/-- The bookkeeping vector after the (amended) conditional eviction of
`allocate_physical_page`: when the incremented counter reaches the frame
count, the declaratively chosen frame is freed. -/
def postEvictBookkeeping (pt : PageTable) : List Nat :=
  if pt.allocated_physical_pages + 1 ≥ pt.physical_pages then
    pt.physical_page_bookkeeping.set (claimEvictChoice pt.physical_page_bookkeeping) 0
  else pt.physical_page_bookkeeping

/-- The frame the (amended) claim predicts for the new page-table entry:
the first free frame after the conditional eviction, defaulting to the
pre-call allocation counter when no frame is free. -/
def claimChosenFrame (pt : PageTable) : Nat :=
  (firstFreeFrame (postEvictBookkeeping pt)).getD pt.allocated_physical_pages

/-! ## Claim C2: allocate and evict -/

/-- Fixture: a page table with one of two frames allocated. -/
def exPT2 : PageTable :=
  { virtual_pages := 2, physical_pages := 2, page_size := 16
    entries := [some (PageTableEntry.new 0 0 16 5), none]
    allocated_physical_pages := 1
    physical_page_bookkeeping := [5, 0] }

/-- C2 counterexample: with 1 of 2 frames allocated the claim forbids an
eviction (1 < 2) and predicts the allocation counter 2 after the call; the
code pre-increments before comparing, evicts anyway, and its unconditional
decrement leaves the counter at 1. -/
theorem c2_allocate_counterexample :
    exPT2.allocated_physical_pages < exPT2.physical_pages ∧
    (exPT2.allocate_physical_page 0x10 6).map
        (fun r => r.2.allocated_physical_pages) = some 1 ∧
    ¬((exPT2.allocate_physical_page 0x10 6).map
        (fun r => r.2.allocated_physical_pages) =
      some (exPT2.allocated_physical_pages + 1)) := by
  refine ⟨by decide, by decide, by decide⟩

/-- Full characterisation of `PageTable::allocate_physical_page`: the
counter is incremented before the fullness test, `evict` frees the first
free frame (else the first minimal-bookkeeping frame) and decrements
unconditionally, and the new entry is installed at the first frame whose
bookkeeping value is 0 (defaulting to the pre-call counter); geometry
(page size, vector lengths) is preserved. -/
theorem allocate_physical_page_spec (pt : PageTable) (va t : Nat)
    (hidx : pt.get_index_from_virtual_address va < pt.entries.length)
    (hbk : ∀ v ∈ pt.physical_page_bookkeeping, v ≤ u64MAX) :
    ∃ pt',
      pt.allocate_physical_page va t = some (claimChosenFrame pt, pt') ∧
      pt'.allocated_physical_pages =
        (if pt.allocated_physical_pages + 1 ≥ pt.physical_pages then
          pt.allocated_physical_pages
        else pt.allocated_physical_pages + 1) ∧
      (∃ e, pt'.entries.get? (pt.get_index_from_virtual_address va) = some (some e) ∧
        e.physical_address = claimChosenFrame pt <<< pt.get_offset_bits ∧
        e.virtual_address = va ∧ e.page_size = pt.page_size ∧
        e.last_access_time = t) ∧
      (∀ i, i ≠ pt.get_index_from_virtual_address va →
        pt'.entries.get? i =
          (if pt.allocated_physical_pages + 1 ≥ pt.physical_pages then
            (pt.entries.get? i).map (fun slot =>
              match slot with
              | some e2 =>
                  if e2.get_physical_page_number =
                      claimEvictChoice pt.physical_page_bookkeeping then none
                  else some e2
              | none => none)
          else pt.entries.get? i)) ∧
      pt'.page_size = pt.page_size ∧
      pt'.physical_page_bookkeeping.length = pt.physical_page_bookkeeping.length ∧
      pt'.entries.length = pt.entries.length := by
  have hnge : ¬(pt.get_index_from_virtual_address va ≥ pt.entries.length) := by omega
  simp only [PageTable.allocate_physical_page, if_neg hnge]
  by_cases htr : pt.allocated_physical_pages + 1 ≥ pt.physical_pages
  · simp only [if_pos htr]
    rw [pageTable_evict_eq { pt with
      allocated_physical_pages := pt.allocated_physical_pages + 1 } hbk]
    simp only [mark_page_number_free_bookkeeping, mark_page_number_free_entries,
      mark_page_number_free_page_size, mark_page_number_free_virtual_pages,
      mark_page_number_free_physical_pages, PageTable.is_page_number_free,
      PageTable.get_last_access_time_page_number, range_find?_free_eq,
      PageTable.get_offset_bits]
    have hc : claimChosenFrame pt =
        (firstFreeFrame (pt.physical_page_bookkeeping.set
          (claimEvictChoice pt.physical_page_bookkeeping) 0)).getD
          pt.allocated_physical_pages := by
      unfold claimChosenFrame postEvictBookkeeping
      rw [if_pos htr]
    rw [← hc]
    obtain ⟨r, hr, hra, hre, hri, hrps, hrbl, hrel⟩ := install_and_mark
      { virtual_pages := pt.virtual_pages
        physical_pages := pt.physical_pages
        page_size := pt.page_size
        entries := pt.entries.map (fun slot =>
          match slot with
          | some e2 =>
              if e2.get_physical_page_number =
                  claimEvictChoice pt.physical_page_bookkeeping then none
              else some e2
          | none => none)
        allocated_physical_pages := pt.allocated_physical_pages
        physical_page_bookkeeping := pt.physical_page_bookkeeping.set
          (claimEvictChoice pt.physical_page_bookkeeping) 0 }
      (claimChosenFrame pt) va t (by simpa using hidx)
    refine ⟨r, ?_, ?_, ?_, ?_, ?_, ?_, ?_⟩
    · exact congrArg (fun x => some (claimChosenFrame pt, x)) hr
    · rw [hra]
    · exact ⟨_, hre, rfl, rfl, rfl, rfl⟩
    · intro i hi
      rw [hri i hi]
      exact List.get?_map _ _ _
    · rw [hrps]
    · rw [hrbl]
      exact List.length_set ..
    · rw [hrel]
      exact List.length_map ..
  · simp only [if_neg htr, PageTable.is_page_number_free,
      PageTable.get_last_access_time_page_number, range_find?_free_eq,
      PageTable.get_offset_bits]
    have hc : claimChosenFrame pt =
        (firstFreeFrame pt.physical_page_bookkeeping).getD
          pt.allocated_physical_pages := by
      unfold claimChosenFrame postEvictBookkeeping
      rw [if_neg htr]
    rw [← hc]
    obtain ⟨r, hr, hra, hre, hri, hrps, hrbl, hrel⟩ := install_and_mark
      { virtual_pages := pt.virtual_pages
        physical_pages := pt.physical_pages
        page_size := pt.page_size
        entries := pt.entries
        allocated_physical_pages := pt.allocated_physical_pages + 1
        physical_page_bookkeeping := pt.physical_page_bookkeeping }
      (claimChosenFrame pt) va t hidx
    refine ⟨r, ?_, ?_, ?_, ?_, ?_, ?_, ?_⟩
    · exact congrArg (fun x => some (claimChosenFrame pt, x)) hr
    · rw [hra]
    · exact ⟨_, hre, rfl, rfl, rfl, rfl⟩
    · intro i hi
      exact hri i hi
    · rw [hrps]
    · rw [hrbl]
    · rw [hrel]

/-- C2 amended: `allocate_physical_page` increments the counter first and
calls `evict` exactly when the incremented counter reaches
`physical_pages` (so already when the pre-call count is
`physical_pages - 1`); `evict` frees the first free frame if one exists
and otherwise the first frame attaining the minimal bookkeeping value,
clears the page-table entries mapping that frame, and always decrements
the counter, also when the chosen frame was already free; the new entry is
then installed at the first frame whose bookkeeping value is 0 (defaulting
to the pre-call counter when none is free). -/
theorem c2_allocate_physical_page_amended (pt : PageTable) (va t : Nat)
    (hidx : pt.get_index_from_virtual_address va < pt.entries.length)
    (hbk : ∀ v ∈ pt.physical_page_bookkeeping, v ≤ u64MAX) :
    ∃ pt',
      pt.allocate_physical_page va t = some (claimChosenFrame pt, pt') ∧
      pt'.allocated_physical_pages =
        (if pt.allocated_physical_pages + 1 ≥ pt.physical_pages then
          pt.allocated_physical_pages
        else pt.allocated_physical_pages + 1) ∧
      (∃ e, pt'.entries.get? (pt.get_index_from_virtual_address va) = some (some e) ∧
        e.physical_address = claimChosenFrame pt <<< pt.get_offset_bits ∧
        e.virtual_address = va ∧ e.page_size = pt.page_size ∧
        e.last_access_time = t) ∧
      (∀ i, i ≠ pt.get_index_from_virtual_address va →
        pt'.entries.get? i =
          (if pt.allocated_physical_pages + 1 ≥ pt.physical_pages then
            (pt.entries.get? i).map (fun slot =>
              match slot with
              | some e2 =>
                  if e2.get_physical_page_number =
                      claimEvictChoice pt.physical_page_bookkeeping then none
                  else some e2
              | none => none)
          else pt.entries.get? i)) := by
  obtain ⟨pt', h1, h2, h3, h4, _, _, _⟩ := allocate_physical_page_spec pt va t hidx hbk
  exact ⟨pt', h1, h2, h3, h4⟩

theorem c2_allocate_physical_page_amended_witness :
    (exPT2.get_index_from_virtual_address 0x10 < exPT2.entries.length) ∧
    (∀ v ∈ exPT2.physical_page_bookkeeping, v ≤ u64MAX) ∧
    (∃ pt',
      exPT2.allocate_physical_page 0x10 6 = some (claimChosenFrame exPT2, pt') ∧
      pt'.allocated_physical_pages =
        (if exPT2.allocated_physical_pages + 1 ≥ exPT2.physical_pages then
          exPT2.allocated_physical_pages
        else exPT2.allocated_physical_pages + 1) ∧
      (∃ e, pt'.entries.get? (exPT2.get_index_from_virtual_address 0x10) =
          some (some e) ∧
        e.physical_address = claimChosenFrame exPT2 <<< exPT2.get_offset_bits ∧
        e.virtual_address = 0x10 ∧ e.page_size = exPT2.page_size ∧
        e.last_access_time = 6) ∧
      (∀ i, i ≠ exPT2.get_index_from_virtual_address 0x10 →
        pt'.entries.get? i =
          (if exPT2.allocated_physical_pages + 1 ≥ exPT2.physical_pages then
            (exPT2.entries.get? i).map (fun slot =>
              match slot with
              | some e2 =>
                  if e2.get_physical_page_number =
                      claimEvictChoice exPT2.physical_page_bookkeeping then none
                  else some e2
              | none => none)
          else exPT2.entries.get? i))) :=
  ⟨by decide, by decide,
    c2_allocate_physical_page_amended exPT2 0x10 6 (by decide) (by decide)⟩

/-! ## Claim C3: translate -/

theorem u64_trailing_zeros_le (n : Nat) : u64_trailing_zeros n ≤ 64 := by
  unfold u64_trailing_zeros
  cases hf : (List.range 64).find? (fun i => n.testBit i) with
  | none => simp
  | some i =>
      have hmem := List.mem_of_find?_eq_some hf
      have hi : i < 64 := List.mem_range.mp hmem
      simp only [Option.getD_some]
      omega

/-- An aligned value (`k` low zero bits) below `2 ^ 64` is fixed by the
64-bit complement of the low mask. -/
theorem and_u64_not_mask {c k : Nat} (hk : k ≤ 64) (hc : c < 2 ^ (64 - k)) :
    (c <<< k) &&& u64_not (2 ^ k - 1) = c <<< k := by
  apply Nat.eq_of_testBit_eq
  intro i
  rw [Nat.testBit_and]
  cases hbit : (c <<< k).testBit i with
  | false => rw [Bool.false_and]
  | true =>
      rw [Bool.true_and]
      rw [Nat.testBit_shiftLeft] at hbit
      have hki : k ≤ i := by
        by_contra hcon
        rw [decide_eq_false hcon, Bool.false_and] at hbit
        cases hbit
      rw [decide_eq_true hki, Bool.true_and] at hbit
      have hilt : i - k < 64 - k := by
        by_contra hcon
        have hclt : c < 2 ^ (i - k) :=
          lt_of_lt_of_le hc (Nat.pow_le_pow_right (by norm_num) (by omega))
        rw [Nat.testBit_lt_two_pow hclt] at hbit
        cases hbit
      unfold u64_not u64MAX
      rw [Nat.testBit_xor, Nat.testBit_two_pow_sub_one, Nat.testBit_two_pow_sub_one]
      rw [decide_eq_true (show i < 64 by omega), decide_eq_false (show ¬(i < k) by omega)]
      rfl

theorem get_entry_lt {pt : PageTable} {va : Nat} {e : PageTableEntry}
    (h : pt.get_entry va = some e) :
    pt.get_index_from_virtual_address va < pt.entries.length ∧
    pt.entries.get? (pt.get_index_from_virtual_address va) = some (some e) := by
  unfold PageTable.get_entry at h
  cases hg : pt.entries.get? (pt.get_index_from_virtual_address va) with
  | none => rw [hg] at h; cases h
  | some s =>
      rw [hg] at h
      cases s with
      | none => cases h
      | some e2 =>
          cases h
          refine ⟨?_, rfl⟩
          by_contra hcon
          rw [List.get?_eq_none.mpr (by omega)] at hg
          cases hg

/-- Fixture: a fully allocated single-page table with one resident entry. -/
def exPT3 : PageTable :=
  { virtual_pages := 1, physical_pages := 1, page_size := 16
    entries := [some (PageTableEntry.new 0 0 16 5)]
    allocated_physical_pages := 1
    physical_page_bookkeeping := [5] }

/-- C3 counterexample: translating a resident page at time `t = 0` sets the
frame bookkeeping to `max t 1 = 1`, not to the claimed `t = 0`. -/
theorem c3_translate_counterexample :
    (exPT3.translate 0 0).map
        (fun r => (r.1, r.2.physical_page_bookkeeping)) = some ((0, true), [1]) ∧
    ¬((exPT3.translate 0 0).map
        (fun r => (r.1, r.2.physical_page_bookkeeping)) = some ((0, true), [0])) := by
  refine ⟨by decide, by decide⟩

theorem get_ppn_congr {a pt : PageTable} (h : a.page_size = pt.page_size)
    (x : Nat) : a.get_physical_page_number x = pt.get_physical_page_number x := by
  unfold PageTable.get_physical_page_number PageTable.get_offset_bits
  rw [h]

/-- C3 amended: `translate` succeeds exactly on in-range virtual page
numbers and the hit flag is the pre-call residency of the entry; the
physical address is the entry's (aligned) physical address or-ed with the
page offset and the entry is refreshed to time `t`; but the frame
bookkeeping is set to `max t 1`, not to `t`: an access at time 0 is
recorded as time 1. -/
theorem c3_translate_amended (pt : PageTable) (va t : Nat)
    (hlen : pt.entries.length = pt.virtual_pages)
    (hps : pt.page_size = 2 ^ pt.get_offset_bits)
    (hwf : ∀ s ∈ pt.entries, ∀ e, s = some e →
      e.page_size = pt.page_size ∧
      e.physical_address &&& u64_not (pt.page_size - 1) = e.physical_address)
    (hbk : ∀ v ∈ pt.physical_page_bookkeeping, v ≤ u64MAX)
    (hcf : claimChosenFrame pt < 2 ^ (64 - pt.get_offset_bits)) :
    ((pt.translate va t).isSome = true ↔
      pt.get_index_from_virtual_address va < pt.virtual_pages) ∧
    (∀ paddr hit pt', pt.translate va t = some ((paddr, hit), pt') →
      hit = (pt.get_entry va).isSome ∧
      (∃ e, pt'.entries.get? (pt.get_index_from_virtual_address va) =
          some (some e) ∧
        e.last_access_time = t ∧
        paddr = e.physical_address ||| (va &&& (pt.page_size - 1))) ∧
      (pt.get_physical_page_number paddr < pt.physical_page_bookkeeping.length →
        pt'.physical_page_bookkeeping.getD (pt.get_physical_page_number paddr) 0 =
          max t 1)) := by
  cases hpre : pt.get_entry va with
  | some e0 =>
      obtain ⟨hlt0, hg0⟩ := get_entry_lt hpre
      obtain ⟨hwf1, hwf2⟩ := hwf _ (List.get?_mem hg0) e0 rfl
      have hgp : ({ e0 with last_access_time := t } : PageTableEntry).get_physical_address =
          e0.physical_address := by
        show e0.physical_address &&& u64_not (e0.page_size - 1) = e0.physical_address
        rw [hwf1]
        exact hwf2
      constructor
      · simp only [PageTable.translate, hpre, Option.isSome_some, eq_self_iff_true,
          if_true, PageTable.get_offset]
        exact iff_of_true trivial (by omega)
      · intro paddr hit pt' heq
        simp only [PageTable.translate, hpre, Option.isSome_some, eq_self_iff_true,
          if_true, PageTable.get_offset, Option.some.injEq, Prod.mk.injEq] at heq
        obtain ⟨⟨hp, hh⟩, hfin⟩ := heq
        subst hp
        subst hh
        subst hfin
        refine ⟨rfl, ⟨{ e0 with last_access_time := t }, ?_, rfl, ?_⟩, ?_⟩
        · exact get?_set_self _ hlt0
        · rw [hgp]
        · intro hplt
          exact getD_of_get? 0 (get?_set_self _ hplt)
  | none =>
      by_cases hv : pt.get_index_from_virtual_address va < pt.entries.length
      · obtain ⟨A, ha, hal, ⟨eN, heN, heNp, heNv, heNs, heNt⟩, hrest, hAps, hAbl, hAel⟩ :=
          allocate_physical_page_spec pt va t hv hbk
        have hidxA : A.get_index_from_virtual_address va =
            pt.get_index_from_virtual_address va := by
          unfold PageTable.get_index_from_virtual_address PageTable.get_offset_bits
          rw [hAps]
        have heNA : A.entries.get? (A.get_index_from_virtual_address va) =
            some (some eN) := by rw [hidxA]; exact heN
        have hgA : A.get_entry va = some eN := get_entry_of_get? heNA
        have heta : ({ eN with last_access_time := t } : PageTableEntry) = eN := by
          rw [← heNt]
        have hsetA : A.entries.set (A.get_index_from_virtual_address va) (some eN) =
            A.entries := set_get?_self heNA
        have hgpN : eN.get_physical_address = eN.physical_address := by
          show eN.physical_address &&& u64_not (eN.page_size - 1) = eN.physical_address
          rw [heNs, heNp, hps]
          exact and_u64_not_mask (u64_trailing_zeros_le _) hcf
        constructor
        · simp only [PageTable.translate, hpre, Option.isSome_none, Bool.false_eq_true,
            if_false, ha, hgA, Option.isSome_some, eq_self_iff_true, if_true]
          exact iff_of_true trivial (by omega)
        · intro paddr hit pt' heq
          simp only [PageTable.translate, hpre, Option.isSome_none, Bool.false_eq_true,
            if_false, ha, hgA, PageTable.get_offset, Option.some.injEq,
            Prod.mk.injEq] at heq
          rw [heta, hsetA] at heq
          obtain ⟨⟨hp, hh⟩, hfin⟩ := heq
          refine ⟨by rw [← hh]; rfl, ⟨eN, ?_, heNt, ?_⟩, ?_⟩
          · rw [← hfin]
            exact heN
          · rw [← hp, hAps, hgpN]
          · intro hplt
            rw [← hp] at hplt
            rw [← hfin, ← hp]
            have hfin2 : ((({ A with entries := A.entries } : PageTable).mark_physical_access
                (eN.get_physical_address ||| (va &&& (A.page_size - 1))) t)).physical_page_bookkeeping =
                A.physical_page_bookkeeping.set
                  (pt.get_physical_page_number
                    (eN.get_physical_address ||| (va &&& (A.page_size - 1)))) (max t 1) := by
              simp only [PageTable.mark_physical_access]
              rw [get_ppn_congr (show ({ A with entries := A.entries } : PageTable).page_size =
                pt.page_size from hAps)]
            rw [hfin2]
            exact getD_of_get? 0 (get?_set_self _ (by rw [hAbl]; exact hplt))
      · have hnone : pt.allocate_physical_page va t = none := by
          unfold PageTable.allocate_physical_page
          rw [if_pos (by omega)]
        constructor
        · simp only [PageTable.translate, hpre, Option.isSome_none, Bool.false_eq_true,
            if_false, hnone]
          exact iff_of_false (fun h => by cases h) (by omega)
        · intro paddr hit pt' heq
          simp only [PageTable.translate, hpre, Option.isSome_none, Bool.false_eq_true,
            if_false, hnone] at heq
          cases heq

/-! ## Simulator stage bookkeeping lemmas -/

theorem add_tlb_access_parts (o : SimulatorOutput) (h : Bool) :
    (o.add_tlb_access h).pt_hits = o.pt_hits ∧
    (o.add_tlb_access h).pt_faults = o.pt_faults ∧
    (o.add_tlb_access h).l2_hits = o.l2_hits ∧
    (o.add_tlb_access h).l2_misses = o.l2_misses ∧
    (o.add_tlb_access h).config = o.config := by
  unfold SimulatorOutput.add_tlb_access
  split
  · exact ⟨rfl, rfl, rfl, rfl, rfl⟩
  · split <;> exact ⟨rfl, rfl, rfl, rfl, rfl⟩

theorem add_page_table_access_parts (o : SimulatorOutput) (h : Bool) :
    (o.add_page_table_access h).tlb_hits = o.tlb_hits ∧
    (o.add_page_table_access h).tlb_misses = o.tlb_misses ∧
    (o.add_page_table_access h).l2_hits = o.l2_hits ∧
    (o.add_page_table_access h).l2_misses = o.l2_misses ∧
    (o.add_page_table_access h).config = o.config := by
  unfold SimulatorOutput.add_page_table_access
  split
  · exact ⟨rfl, rfl, rfl, rfl, rfl⟩
  · split <;> exact ⟨rfl, rfl, rfl, rfl, rfl⟩

theorem add_dc_access_parts (o : SimulatorOutput) (h : Bool) :
    (o.add_dc_access h).tlb_hits = o.tlb_hits ∧
    (o.add_dc_access h).tlb_misses = o.tlb_misses ∧
    (o.add_dc_access h).l2_hits = o.l2_hits ∧
    (o.add_dc_access h).l2_misses = o.l2_misses ∧
    (o.add_dc_access h).config = o.config := by
  unfold SimulatorOutput.add_dc_access
  split <;> exact ⟨rfl, rfl, rfl, rfl, rfl⟩

theorem add_l2_access_parts (o : SimulatorOutput) (h : Bool) :
    (o.add_l2_access h).tlb_hits = o.tlb_hits ∧
    (o.add_l2_access h).tlb_misses = o.tlb_misses ∧
    (o.add_l2_access h).pt_hits = o.pt_hits ∧
    (o.add_l2_access h).pt_faults = o.pt_faults ∧
    (o.add_l2_access h).config = o.config := by
  unfold SimulatorOutput.add_l2_access
  split
  · exact ⟨rfl, rfl, rfl, rfl, rfl⟩
  · split <;> exact ⟨rfl, rfl, rfl, rfl, rfl⟩

theorem add_access_parts (o : SimulatorOutput) (a : AccessOutput) :
    (o.add_access a).tlb_hits = o.tlb_hits ∧
    (o.add_access a).tlb_misses = o.tlb_misses ∧
    (o.add_access a).pt_hits = o.pt_hits ∧
    (o.add_access a).pt_faults = o.pt_faults ∧
    (o.add_access a).l2_hits = o.l2_hits ∧
    (o.add_access a).l2_misses = o.l2_misses ∧
    (o.add_access a).config = o.config := by
  unfold SimulatorOutput.add_access
  split <;> exact ⟨rfl, rfl, rfl, rfl, rfl, rfl, rfl⟩

/-- The page-fault stage never touches the statistics output, the
configuration, the clock, or the page table, and keeps the presence of the
L2 cache. -/
theorem fault_stage_parts {sim : Simulator} {p : Nat} {s4 : Simulator}
    (h : sim.fault_stage p = some s4) :
    s4.output = sim.output ∧ s4.config = sim.config ∧ s4.time = sim.time ∧
    s4.page_table = sim.page_table ∧ s4.l2.isSome = sim.l2.isSome := by
  unfold Simulator.fault_stage at h
  cases htlb : sim.tlb with
  | some tlb =>
      cases hpt : sim.page_table with
      | some pt =>
          simp only [htlb, hpt] at h
          cases hinv : tlb.invalidate_page p pt sim.config with
          | none => simp only [hinv] at h; cases h
          | some r =>
              simp only [hinv] at h
              cases hdc : ({ sim with tlb := some r.2 } : Simulator).dc.invalidate_page p
                  ({ sim with tlb := some r.2 } : Simulator).config with
              | none => simp only [hdc] at h; cases h
              | some rdc =>
                  simp only [hdc] at h
                  split at h
                  · cases h; exact ⟨rfl, rfl, rfl, rfl, rfl⟩
                  · cases hl2 : sim.l2 with
                    | none => simp only [hl2] at h; cases h; exact ⟨rfl, rfl, rfl, rfl, rfl⟩
                    | some l2 =>
                        simp only [hl2] at h
                        cases hil2 : l2.invalidate_page p sim.config with
                        | none => simp only [hil2] at h; cases h
                        | some rl2 =>
                            simp only [hil2] at h
                            cases h
                            exact ⟨rfl, rfl, rfl, rfl, rfl⟩
      | none =>
          simp only [htlb, hpt] at h
          cases hdc : sim.dc.invalidate_page p sim.config with
          | none => simp only [hdc] at h; cases h
          | some rdc =>
              simp only [hdc] at h
              split at h
              · cases h; exact ⟨rfl, rfl, rfl, rfl, rfl⟩
              · cases hl2 : sim.l2 with
                | none => simp only [hl2] at h; cases h; exact ⟨rfl, rfl, rfl, rfl, rfl⟩
                | some l2 =>
                    simp only [hl2] at h
                    cases hil2 : l2.invalidate_page p sim.config with
                    | none => simp only [hil2] at h; cases h
                    | some rl2 =>
                        simp only [hil2] at h
                        cases h
                        exact ⟨rfl, rfl, rfl, rfl, rfl⟩
  | none =>
      simp only [htlb] at h
      cases hdc : sim.dc.invalidate_page p sim.config with
          | none => simp only [hdc] at h; cases h
          | some rdc =>
              simp only [hdc] at h
              split at h
              · cases h; exact ⟨rfl, rfl, rfl, rfl, rfl⟩
              · cases hl2 : sim.l2 with
                | none => simp only [hl2] at h; cases h; exact ⟨rfl, rfl, rfl, rfl, rfl⟩
                | some l2 =>
                    simp only [hl2] at h
                    cases hil2 : l2.invalidate_page p sim.config with
                    | none => simp only [hil2] at h; cases h
                    | some rl2 =>
                        simp only [hil2] at h
                        cases h
                        exact ⟨rfl, rfl, rfl, rfl, rfl⟩

/-- The L2 stage never touches the configuration, the clock, the TLB, the
page table, or the TLB/page-table statistics. -/
theorem l2_stage_parts {sim : Simulator} {op : Operation} {da : BlockAddress}
    {dh : Bool} {p tm : Nat} {la : Option BlockAddress} {lh : Option Bool}
    {s6 : Simulator}
    (h : sim.l2_stage op da dh p tm = some ((la, lh), s6)) :
    s6.config = sim.config ∧ s6.time = sim.time ∧ s6.tlb = sim.tlb ∧
    s6.page_table = sim.page_table ∧
    s6.output.tlb_hits = sim.output.tlb_hits ∧
    s6.output.tlb_misses = sim.output.tlb_misses ∧
    s6.output.pt_hits = sim.output.pt_hits ∧
    s6.output.pt_faults = sim.output.pt_faults ∧
    s6.output.config = sim.output.config := by
  unfold Simulator.l2_stage at h
  cases hl2 : sim.l2 with
  | none =>
      simp only [hl2] at h
      cases h
      exact ⟨rfl, rfl, rfl, rfl, rfl, rfl, rfl, rfl, rfl⟩
  | some l2 =>
      simp only [hl2] at h
      split at h
      · split at h
        · cases hacc : l2.access op.is_read
              (BlockAddress.new_l2_cache_address p sim.config) tm 0 with
          | none => simp only [hacc] at h; cases h
          | some racc =>
              obtain ⟨result, l21⟩ := racc
              simp only [hacc] at h
              cases h
              obtain ⟨p1, p2, p3, p4, p5⟩ := add_l2_access_parts sim.output result
              exact ⟨rfl, rfl, rfl, rfl, p1, p2, p3, p4, p5⟩
        · cases h
          exact ⟨rfl, rfl, rfl, rfl, rfl, rfl, rfl, rfl, rfl⟩
      · split at h
        · split at h
          · cases hacc : l2.access op.is_read
                (BlockAddress.new_l2_cache_address p sim.config) tm 0 with
            | none => simp only [hacc] at h; cases h
            | some racc =>
                obtain ⟨result, l21⟩ := racc
                simp only [hacc] at h
                cases h
                obtain ⟨p1, p2, p3, p4, p5⟩ := add_l2_access_parts sim.output result
                exact ⟨rfl, rfl, rfl, rfl, p1, p2, p3, p4, p5⟩
          · cases h
            exact ⟨rfl, rfl, rfl, rfl, rfl, rfl, rfl, rfl, rfl⟩
        · split at h
          · split at h
            · cases hacc : l2.access op.is_read
                  (BlockAddress.new_l2_cache_address p sim.config) tm 0 with
              | none => simp only [hacc] at h; cases h
              | some racc =>
                  obtain ⟨result, l21⟩ := racc
                  simp only [hacc] at h
                  cases h
                  obtain ⟨p1, p2, p3, p4, p5⟩ := add_l2_access_parts sim.output result
                  exact ⟨rfl, rfl, rfl, rfl, p1, p2, p3, p4, p5⟩
            · split at h
              · cases hacc : l2.access op.is_read
                    (BlockAddress.new_l2_cache_address p sim.config) tm 0 with
                | none => simp only [hacc] at h; cases h
                | some racc =>
                    obtain ⟨result, l21⟩ := racc
                    simp only [hacc] at h
                    cases h
                    obtain ⟨p1, p2, p3, p4, p5⟩ := add_l2_access_parts sim.output result
                    exact ⟨rfl, rfl, rfl, rfl, p1, p2, p3, p4, p5⟩
              · cases h
                exact ⟨rfl, rfl, rfl, rfl, rfl, rfl, rfl, rfl, rfl⟩
          · split at h
            · split at h
              · cases hacc : l2.access op.is_read
                    (BlockAddress.new_l2_cache_address p sim.config) tm 0 with
                | none => simp only [hacc] at h; cases h
                | some racc =>
                    obtain ⟨result, l21⟩ := racc
                    simp only [hacc] at h
                    cases hacc2 : sim.dc.access op.is_read da tm 0 with
                    | none => simp only [hacc2] at h; cases h
                    | some racc2 =>
                        obtain ⟨hit2, dc1⟩ := racc2
                        simp only [hacc2] at h
                        split at h
                        · cases h
                        · cases h
                          obtain ⟨p1, p2, p3, p4, p5⟩ :=
                            add_l2_access_parts sim.output result
                          exact ⟨rfl, rfl, rfl, rfl, p1, p2, p3, p4, p5⟩
              · cases h
                exact ⟨rfl, rfl, rfl, rfl, rfl, rfl, rfl, rfl, rfl⟩
            · cases h

/-- The TLB/page-table statistics block of `simulate_access` (the `sim2`
and `sim3` states), factored for the run decomposition. -/
def Simulator.stage23 (sim1 : Simulator) (eff pth : Bool) : Simulator :=
  let sim2 :=
    if sim1.config.is_tlb_enabled then
      { sim1 with output := sim1.output.add_tlb_access eff }
    else sim1
  if ¬eff && sim2.config.is_virtual_addresses_enabled then
    { sim2 with output := sim2.output.add_page_table_access pth }
  else sim2

theorem stage23_parts (sim1 : Simulator) (eff pth : Bool) :
    (Simulator.stage23 sim1 eff pth).config = sim1.config ∧
    (Simulator.stage23 sim1 eff pth).time = sim1.time ∧
    (Simulator.stage23 sim1 eff pth).tlb = sim1.tlb ∧
    (Simulator.stage23 sim1 eff pth).page_table = sim1.page_table ∧
    (Simulator.stage23 sim1 eff pth).dc = sim1.dc ∧
    (Simulator.stage23 sim1 eff pth).l2 = sim1.l2 := by
  unfold Simulator.stage23
  dsimp only
  split <;> split <;> exact ⟨rfl, rfl, rfl, rfl, rfl, rfl⟩

theorem stage23_tlb_stats (sim1 : Simulator) (eff pth : Bool) :
    (Simulator.stage23 sim1 eff pth).output.tlb_hits =
      (if sim1.config.is_tlb_enabled then
        (sim1.output.add_tlb_access eff).tlb_hits
      else sim1.output.tlb_hits) ∧
    (Simulator.stage23 sim1 eff pth).output.tlb_misses =
      (if sim1.config.is_tlb_enabled then
        (sim1.output.add_tlb_access eff).tlb_misses
      else sim1.output.tlb_misses) := by
  unfold Simulator.stage23
  dsimp only
  split <;> split <;>
    first
      | exact ⟨(add_page_table_access_parts _ _).1,
          (add_page_table_access_parts _ _).2.1⟩
      | exact ⟨rfl, rfl⟩

theorem stage23_l2_stats (sim1 : Simulator) (eff pth : Bool) :
    (Simulator.stage23 sim1 eff pth).output.l2_hits = sim1.output.l2_hits ∧
    (Simulator.stage23 sim1 eff pth).output.l2_misses = sim1.output.l2_misses ∧
    (Simulator.stage23 sim1 eff pth).output.config = sim1.output.config := by
  unfold Simulator.stage23
  dsimp only
  split <;> split
  · refine ⟨?_, ?_, ?_⟩
    · rw [(add_page_table_access_parts _ _).2.2.1]
      exact (add_tlb_access_parts _ _).2.2.1
    · rw [(add_page_table_access_parts _ _).2.2.2.1]
      exact (add_tlb_access_parts _ _).2.2.2.1
    · rw [(add_page_table_access_parts _ _).2.2.2.2]
      exact (add_tlb_access_parts _ _).2.2.2.2
  · exact ⟨(add_tlb_access_parts _ _).2.2.1, (add_tlb_access_parts _ _).2.2.2.1,
      (add_tlb_access_parts _ _).2.2.2.2⟩
  · exact ⟨(add_page_table_access_parts _ _).2.2.1,
      (add_page_table_access_parts _ _).2.2.2.1,
      (add_page_table_access_parts _ _).2.2.2.2⟩
  · exact ⟨rfl, rfl, rfl⟩

/-- Decomposition of a successful `simulate_access` run into its stages. -/
theorem simulate_access_decomp {sim : Simulator} {op : Operation}
    {out : AccessOutput} {sim' : Simulator}
    (hrun : sim.simulate_access op = some (out, sim')) :
    sim.health_check = true ∧
    ∃ pa eff pth sim1 sim4 dh dc1 lh sim6 ta la,
      sim.translate_stage op.address sim.time = some ((pa, eff, ta, pth), sim1) ∧
      (if (Simulator.stage23 sim1 eff pth).config.is_virtual_addresses_enabled &&
            ¬eff && ¬pth then
          (Simulator.stage23 sim1 eff pth).fault_stage pa
        else some (Simulator.stage23 sim1 eff pth)) = some sim4 ∧
      sim4.dc.access op.is_read (BlockAddress.new_data_cache_address pa sim4.config)
        sim.time 0 = some (dh, dc1) ∧
      ({ sim4 with
          dc := dc1
          output := sim4.output.add_dc_access dh } : Simulator).l2_stage op
        (BlockAddress.new_data_cache_address pa sim4.config) dh pa sim.time =
        some ((la, lh), sim6) ∧
      out = { access := op
              virtual_address :=
                if sim6.config.is_virtual_addresses_enabled then some op.address
                else none
              physical_address := pa
              virtual_page_number :=
                (if sim6.config.is_virtual_addresses_enabled then some op.address
                 else none).map (fun addr =>
                  (addr &&& u64_not (sim6.config.get_page_size - 1)) >>>
                    u64_trailing_zeros sim6.config.get_page_size)
              physical_page_number :=
                (pa &&& u64_not (sim6.config.get_page_size - 1)) >>>
                  u64_trailing_zeros sim6.config.get_page_size
              page_offset := pa &&& (sim6.config.get_page_size - 1)
              tlb_address := ta
              tlb_hit := if sim6.config.is_tlb_enabled then some eff else none
              page_table_hit :=
                if sim6.config.is_virtual_addresses_enabled then some pth else none
              dc_address := BlockAddress.new_data_cache_address pa sim4.config
              dc_hit := dh
              l2_address := la
              l2_hit := lh } ∧
      sim' = { sim6 with
               time := sim6.time + 1
               output := sim6.output.add_access out } := by
  unfold Simulator.simulate_access at hrun
  split at hrun
  · cases hrun
  · next hhc2 =>
      refine ⟨not_not.mp hhc2, ?_⟩
      dsimp only at hrun
      split at hrun
      · cases hrun
      · next pa eff ta pth sim1 hts =>
          split at hrun
          · cases hrun
          · next sim4 hfault =>
              split at hrun
              · cases hrun
              · next dh dc1 hdcacc =>
                  split at hrun
                  · cases hrun
                  · next la lh sim6 hl2s =>
                      simp only [Option.some.injEq, Prod.mk.injEq] at hrun
                      obtain ⟨hout, hsim⟩ := hrun
                      rw [hout] at hsim
                      exact ⟨pa, eff, pth, sim1, sim4, dh, dc1, lh, sim6, ta, la,
                        hts, hfault, hdcacc, hl2s, hout.symm, hsim.symm⟩

theorem translate_stage_tlb {sim : Simulator} {va tm : Nat} {tlb : TLBCache}
    {pt : PageTable} (htlb : sim.tlb = some tlb) (hpt : sim.page_table = some pt)
    {res : Nat × Bool × Option BlockAddress × Bool} {sim1 : Simulator}
    (h : sim.translate_stage va tm = some (res, sim1)) :
    ∃ raw tlb1 pa pth pt1,
      tlb.translate (BlockAddress.new_tlb_address va sim.config) tm 0 =
        some (raw, tlb1) ∧
      pt.translate va tm = some ((pa, pth), pt1) ∧
      res = (pa, raw && pth, some (BlockAddress.new_tlb_address va sim.config), pth) ∧
      sim1 = { sim with tlb := some tlb1, page_table := some pt1 } := by
  unfold Simulator.translate_stage at h
  simp only [htlb, hpt] at h
  split at h
  · cases h
  · next raw tlb1 htt =>
      split at h
      · cases h
      · next pa pth pt1 hptt =>
          simp only [Option.some.injEq, Prod.mk.injEq] at h
          obtain ⟨hres, hsim1⟩ := h
          exact ⟨raw, tlb1, pa, pth, pt1, htt, hptt, hres.symm, hsim1.symm⟩

theorem translate_stage_notlb {sim : Simulator} {va tm : Nat} {pt : PageTable}
    (htlb : sim.tlb = none) (hpt : sim.page_table = some pt)
    {res : Nat × Bool × Option BlockAddress × Bool} {sim1 : Simulator}
    (h : sim.translate_stage va tm = some (res, sim1)) :
    ∃ pa pth pt1,
      pt.translate va tm = some ((pa, pth), pt1) ∧
      res = (pa, false, none, pth) ∧
      sim1 = { sim with page_table := some pt1 } := by
  unfold Simulator.translate_stage at h
  simp only [htlb, hpt] at h
  split at h
  · cases h
  · next pa pth pt1 hptt =>
      simp only [Option.some.injEq, Prod.mk.injEq] at h
      obtain ⟨hres, hsim1⟩ := h
      exact ⟨pa, pth, pt1, hptt, hres.symm,
        by rw [← htlb] at hsim1; exact hsim1.symm⟩

theorem translate_stage_phys {sim : Simulator} {va tm : Nat}
    (hpt : sim.page_table = none)
    {res : Nat × Bool × Option BlockAddress × Bool} {sim1 : Simulator}
    (h : sim.translate_stage va tm = some (res, sim1)) :
    res = (va, false, none, false) ∧ sim1 = sim := by
  unfold Simulator.translate_stage at h
  cases htlb : sim.tlb with
  | none =>
      simp only [htlb, hpt, Option.some.injEq, Prod.mk.injEq] at h
      obtain ⟨hres, hsim1⟩ := h
      exact ⟨hres.symm, hsim1.symm⟩
  | some tlb =>
      simp only [htlb, hpt, Option.some.injEq, Prod.mk.injEq] at h
      obtain ⟨hres, hsim1⟩ := h
      exact ⟨hres.symm, hsim1.symm⟩

/-- C4: with virtual addressing and the TLB both enabled, the TLB hit
recorded in the statistics and surfaced in the per-access output is the
conjunction of the raw TLB lookup result and the page-table hit (a raw TLB
hit whose walk faults is reported as a TLB miss); with virtual addressing
but no TLB the per-access TLB field is absent and the TLB counters are
untouched; with physical addressing the physical address is the input
address and neither the TLB nor the page-table state is touched. -/
theorem c4_tlb_reporting (sim : Simulator) (op : Operation)
    (out : AccessOutput) (sim' : Simulator)
    (hoc : sim.output.config = sim.config)
    (hrun : sim.simulate_access op = some (out, sim')) :
    (sim.config.is_virtual_addresses_enabled = true →
      sim.config.is_tlb_enabled = true →
      ∃ tlb pt raw tlb1 pa pth pt1,
        sim.tlb = some tlb ∧ sim.page_table = some pt ∧
        tlb.translate (BlockAddress.new_tlb_address op.address sim.config)
          sim.time 0 = some (raw, tlb1) ∧
        pt.translate op.address sim.time = some ((pa, pth), pt1) ∧
        out.tlb_hit = some (raw && pth) ∧
        sim'.output.tlb_hits =
          (if raw && pth then sim.output.tlb_hits + 1 else sim.output.tlb_hits) ∧
        sim'.output.tlb_misses =
          (if raw && pth then sim.output.tlb_misses
           else sim.output.tlb_misses + 1)) ∧
    (sim.config.is_virtual_addresses_enabled = true →
      sim.config.is_tlb_enabled = false →
      out.tlb_hit = none ∧
      sim'.output.tlb_hits = sim.output.tlb_hits ∧
      sim'.output.tlb_misses = sim.output.tlb_misses) ∧
    (sim.config.is_virtual_addresses_enabled = false →
      out.physical_address = op.address ∧
      sim'.tlb = sim.tlb ∧ sim'.page_table = sim.page_table) := by
  obtain ⟨hhc, pa, eff, pth, sim1, sim4, dh, dc1, lh, sim6, ta, la,
    hts, hfault, hdcacc, hl2s, hout, hsim'⟩ := simulate_access_decomp hrun
  have hc := hhc
  unfold Simulator.health_check at hc
  rw [Bool.and_eq_true] at hc
  obtain ⟨hc1, hcl2⟩ := hc
  rw [Bool.and_eq_true] at hc1
  obtain ⟨hcvm, hctlb⟩ := hc1
  rw [beq_iff_eq] at hcvm hctlb
  have h4 : sim4.output = (Simulator.stage23 sim1 eff pth).output ∧
      sim4.config = (Simulator.stage23 sim1 eff pth).config ∧
      sim4.page_table = (Simulator.stage23 sim1 eff pth).page_table := by
    split at hfault
    · exact ⟨(fault_stage_parts hfault).1, (fault_stage_parts hfault).2.1,
        (fault_stage_parts hfault).2.2.2.1⟩
    · cases hfault
      exact ⟨rfl, rfl, rfl⟩
  have h6h : sim6.output.tlb_hits = sim4.output.tlb_hits := by
    rw [(l2_stage_parts hl2s).2.2.2.2.1]
    exact (add_dc_access_parts _ _).1
  have h6m : sim6.output.tlb_misses = sim4.output.tlb_misses := by
    rw [(l2_stage_parts hl2s).2.2.2.2.2.1]
    exact (add_dc_access_parts _ _).2.1
  have hcfg6 : sim6.config = sim4.config := by
    rw [(l2_stage_parts hl2s).1]
  have hfh : sim'.output.tlb_hits = sim6.output.tlb_hits := by
    rw [hsim']
    exact (add_access_parts _ _).1
  have hfm : sim'.output.tlb_misses = sim6.output.tlb_misses := by
    rw [hsim']
    exact (add_access_parts _ _).2.1
  refine ⟨?_, ?_, ?_⟩
  · intro hvm htlbe
    have htsome : sim.tlb.isSome = true := by rw [← hctlb]; exact htlbe
    have hpsome : sim.page_table.isSome = true := by rw [← hcvm]; exact hvm
    obtain ⟨tlb, htlb⟩ := Option.isSome_iff_exists.mp htsome
    obtain ⟨pt, hpt⟩ := Option.isSome_iff_exists.mp hpsome
    obtain ⟨raw, tlb1, pa2, pth2, pt1, htt, hptt, hres, hsim1⟩ :=
      translate_stage_tlb htlb hpt hts
    have hpa : pa = pa2 := congrArg Prod.fst hres
    have hpth : pth = pth2 := congrArg (fun r => r.2.2.2) hres
    subst hpa
    subst hpth
    have heff : eff = (raw && pth) := congrArg (fun r => r.2.1) hres
    subst heff
    have hc1 : sim1.config = sim.config := by rw [hsim1]
    have ho1 : sim1.output = sim.output := by rw [hsim1]
    have hcfg : sim6.config = sim.config := by rw [hcfg6, h4.2.1,
      (stage23_parts sim1 _ _).1, hc1]
    refine ⟨tlb, pt, raw, tlb1, pa, pth, pt1, htlb, hpt, htt, hptt, ?_, ?_, ?_⟩
    · rw [hout]
      show (if sim6.config.is_tlb_enabled = true then some (raw && pth)
        else none) = some (raw && pth)
      rw [hcfg, htlbe]
      rfl
    · rw [hfh, h6h, h4.1, (stage23_tlb_stats sim1 _ _).1, hc1, ho1, htlbe,
        if_pos rfl]
      unfold SimulatorOutput.add_tlb_access
      rw [hoc, htlbe]
      simp only [eq_self_iff_true, not_true, if_false]
      cases hb : raw && pth
      · rfl
      · rfl
    · rw [hfm, h6m, h4.1, (stage23_tlb_stats sim1 _ _).2, hc1, ho1, htlbe,
        if_pos rfl]
      unfold SimulatorOutput.add_tlb_access
      rw [hoc, htlbe]
      simp only [eq_self_iff_true, not_true, if_false]
      cases hb : raw && pth
      · rfl
      · rfl
  · intro hvm htlbe
    have htsome : sim.tlb.isSome = false := by rw [← hctlb]; exact htlbe
    have htlbn : sim.tlb = none := by
      cases h2 : sim.tlb with
      | none => rfl
      | some x => rw [h2] at htsome; cases htsome
    have hpsome : sim.page_table.isSome = true := by rw [← hcvm]; exact hvm
    obtain ⟨pt, hpt⟩ := Option.isSome_iff_exists.mp hpsome
    obtain ⟨pa2, pth2, pt1, hptt, hres, hsim1⟩ :=
      translate_stage_notlb htlbn hpt hts
    have heff : eff = false := congrArg (fun r => r.2.1) hres
    subst heff
    have hc1 : sim1.config = sim.config := by rw [hsim1]
    have ho1 : sim1.output = sim.output := by rw [hsim1]
    have hcfg : sim6.config = sim.config := by rw [hcfg6, h4.2.1,
      (stage23_parts sim1 _ _).1, hc1]
    refine ⟨?_, ?_, ?_⟩
    · rw [hout]
      show (if sim6.config.is_tlb_enabled = true then some false else none) = none
      rw [hcfg, htlbe]
      rfl
    · rw [hfh, h6h, h4.1, (stage23_tlb_stats sim1 _ _).1, hc1, ho1, htlbe]
      rfl
    · rw [hfm, h6m, h4.1, (stage23_tlb_stats sim1 _ _).2, hc1, ho1, htlbe]
      rfl
  · intro hvm
    have hpsome : sim.page_table.isSome = false := by rw [← hcvm]; exact hvm
    have hpn : sim.page_table = none := by
      cases h2 : sim.page_table with
      | none => rfl
      | some x => rw [h2] at hpsome; cases hpsome
    obtain ⟨hres, hsim1⟩ := translate_stage_phys hpn hts
    have hpa : pa = op.address := congrArg Prod.fst hres
    have heff : eff = false := congrArg (fun r => r.2.1) hres
    have hpth : pth = false := congrArg (fun r => r.2.2.2) hres
    have hs4 : sim4 = Simulator.stage23 sim1 eff pth := by
      split at hfault
      · next hcond =>
          exfalso
          rw [Bool.and_eq_true, Bool.and_eq_true] at hcond
          obtain ⟨⟨hcv, h2⟩, h3⟩ := hcond
          rw [(stage23_parts sim1 eff pth).1, hsim1, hvm] at hcv
          cases hcv
      · cases hfault
        rfl
    refine ⟨?_, ?_, ?_⟩
    · rw [hout]
      exact hpa
    · rw [hsim']
      show sim6.tlb = sim.tlb
      rw [(l2_stage_parts hl2s).2.2.1]
      show sim4.tlb = sim.tlb
      rw [hs4, (stage23_parts sim1 eff pth).2.2.1, hsim1]
    · rw [hsim']
      show sim6.page_table = sim.page_table
      rw [(l2_stage_parts hl2s).2.2.2.1]
      show sim4.page_table = sim.page_table
      rw [hs4, (stage23_parts sim1 eff pth).2.2.2.1, hsim1]

/-- Fixture: a configuration with virtual addressing and a TLB, no L2. -/
def exCfg4 : SimulatorConfig :=
  { virtual_addresses_enabled := true, tlb_enabled := true, l2_cache_enabled := false
    tlb := ⟨1, 1⟩, page_table := ⟨2, 1, 16⟩
    data_cache := ⟨1, 1, 4, true⟩, l2_cache := ⟨1, 1, 4, true⟩ }

/-- Fixture: the simulator freshly built from `exCfg4`. -/
def exSim4 : Simulator := Simulator.from_config exCfg4

theorem c4_tlb_reporting_witness :
    (exSim4.output.config = exSim4.config) ∧
    (exSim4.config.is_virtual_addresses_enabled = true) ∧
    (exSim4.config.is_tlb_enabled = true) ∧
    ((exSim4.simulate_access (.Read 0)).isSome = true) ∧
    (∀ out sim', exSim4.simulate_access (.Read 0) = some (out, sim') →
      ∃ tlb pt raw tlb1 pa pth pt1,
        exSim4.tlb = some tlb ∧ exSim4.page_table = some pt ∧
        tlb.translate (BlockAddress.new_tlb_address 0 exSim4.config) 1 0 =
          some (raw, tlb1) ∧
        pt.translate 0 1 = some ((pa, pth), pt1) ∧
        out.tlb_hit = some (raw && pth) ∧
        sim'.output.tlb_hits =
          (if raw && pth then exSim4.output.tlb_hits + 1
           else exSim4.output.tlb_hits) ∧
        sim'.output.tlb_misses =
          (if raw && pth then exSim4.output.tlb_misses
           else exSim4.output.tlb_misses + 1)) :=
  ⟨by decide, by decide, by decide, by decide,
    fun out sim' hrun =>
      (c4_tlb_reporting exSim4 (.Read 0) out sim' (by decide) hrun).1
        (by decide) (by decide)⟩

/-- The translation stage never touches the output, the configuration, the
data cache, or the L2 cache. -/
theorem translate_stage_frame {sim : Simulator} {va tm : Nat}
    {res : Nat × Bool × Option BlockAddress × Bool} {sim1 : Simulator}
    (h : sim.translate_stage va tm = some (res, sim1)) :
    sim1.output = sim.output ∧ sim1.config = sim.config ∧ sim1.dc = sim.dc ∧
    sim1.l2 = sim.l2 := by
  unfold Simulator.translate_stage at h
  cases htlb : sim.tlb with
  | some tlb =>
      cases hpt : sim.page_table with
      | some pt =>
          simp only [htlb, hpt] at h
          split at h
          · cases h
          · split at h
            · cases h
            · simp only [Option.some.injEq, Prod.mk.injEq] at h
              obtain ⟨h1, hs⟩ := h
              rw [← hs]
              exact ⟨rfl, rfl, rfl, rfl⟩
      | none =>
          simp only [htlb, hpt] at h
          simp only [Option.some.injEq, Prod.mk.injEq] at h
          obtain ⟨h1, hs⟩ := h
          rw [← hs]
          exact ⟨rfl, rfl, rfl, rfl⟩
  | none =>
      cases hpt : sim.page_table with
      | some pt =>
          simp only [htlb, hpt] at h
          split at h
          · cases h
          · simp only [Option.some.injEq, Prod.mk.injEq] at h
            obtain ⟨h1, hs⟩ := h
            rw [← hs]
            exact ⟨rfl, rfl, rfl, rfl⟩
      | none =>
          simp only [htlb, hpt] at h
          simp only [Option.some.injEq, Prod.mk.injEq] at h
          obtain ⟨h1, hs⟩ := h
          rw [← hs]
          exact ⟨rfl, rfl, rfl, rfl⟩

theorem add_l2_access_total (o : SimulatorOutput) (r : Bool)
    (he : o.config.is_l2_cache_enabled = true) :
    (o.add_l2_access r).l2_hits + (o.add_l2_access r).l2_misses =
      o.l2_hits + o.l2_misses + 1 := by
  unfold SimulatorOutput.add_l2_access
  rw [he, if_neg (show ¬¬(true = true) from fun hc => hc rfl)]
  cases r <;> simp <;> omega

/-- Characterisation of the L2 stage when an L2 cache is present: it is
consulted exactly when the access missed L1 or is a write, every
consultation is recorded in the L2 statistics, the result is surfaced in
the per-access field exactly when the access missed L1 or went through a
write-through L1, and a read that hit L1 leaves the stage untouched. -/
theorem l2_stage_spec {sim : Simulator} {op : Operation} {da : BlockAddress}
    {dh : Bool} {p tm : Nat} {la : Option BlockAddress} {lh : Option Bool}
    {s6 : Simulator} {l2 : L2Cache}
    (hl2 : sim.l2 = some l2)
    (hoc2 : sim.output.config.is_l2_cache_enabled = true)
    (h : sim.l2_stage op da dh p tm = some ((la, lh), s6)) :
    (lh.isSome = (¬dh || (op.is_write && sim.config.data_cache.is_write_through))) ∧
    (s6.output.l2_hits + s6.output.l2_misses =
      sim.output.l2_hits + sim.output.l2_misses +
        (if ¬dh || op.is_write then 1 else 0)) ∧
    (op.is_read = true → dh = true →
      s6.l2 = sim.l2 ∧ lh = none ∧
      s6.output.l2_hits = sim.output.l2_hits ∧
      s6.output.l2_misses = sim.output.l2_misses) := by
  unfold Simulator.l2_stage at h
  simp only [hl2] at h
  rcases op with a | a <;> cases dh
  · simp only [Operation.is_read, Operation.is_write] at h ⊢
    simp at h ⊢
    split at h
    · next hcond =>
        cases hacc : l2.access true (BlockAddress.new_l2_cache_address p sim.config) tm 0 with
        | none => simp only [hacc] at h; cases h
        | some racc =>
            obtain ⟨result, l21⟩ := racc
            simp only [hacc] at h
            simp only [Option.some.injEq, Prod.mk.injEq] at h
            obtain ⟨⟨hla, hlh⟩, hs⟩ := h
            exact ⟨by rw [← hlh]; rfl, by rw [← hs]; exact add_l2_access_total sim.output result hoc2⟩
    · next hn1 =>
      split at h
      · next hcond =>
          cases hacc : l2.access true (BlockAddress.new_l2_cache_address p sim.config) tm 0 with
          | none => simp only [hacc] at h; cases h
          | some racc =>
              obtain ⟨result, l21⟩ := racc
              simp only [hacc] at h
              simp only [Option.some.injEq, Prod.mk.injEq] at h
              obtain ⟨⟨hla, hlh⟩, hs⟩ := h
              exact ⟨by rw [← hlh]; rfl, by rw [← hs]; exact add_l2_access_total sim.output result hoc2⟩
      · next hn2 =>
        split at h
        · next hcond =>
            cases hacc : l2.access true (BlockAddress.new_l2_cache_address p sim.config) tm 0 with
            | none => simp only [hacc] at h; cases h
            | some racc =>
                obtain ⟨result, l21⟩ := racc
                simp only [hacc] at h
                simp only [Option.some.injEq, Prod.mk.injEq] at h
                obtain ⟨⟨hla, hlh⟩, hs⟩ := h
                exact ⟨by rw [← hlh]; rfl, by rw [← hs]; exact add_l2_access_total sim.output result hoc2⟩
        · next hn3 =>
          split at h
          · next hcond =>
              cases hacc : l2.access true (BlockAddress.new_l2_cache_address p sim.config) tm 0 with
              | none => simp only [hacc] at h; cases h
              | some racc =>
                  obtain ⟨result, l21⟩ := racc
                  simp only [hacc] at h
                  cases hacc2 : sim.dc.access true da tm 0 with
                  | none => simp only [hacc2] at h; cases h
                  | some racc2 =>
                      obtain ⟨hit2, dc1⟩ := racc2
                      simp only [hacc2] at h
                      split at h
                      · cases h
                      · simp only [Option.some.injEq, Prod.mk.injEq] at h
                        obtain ⟨⟨hla, hlh⟩, hs⟩ := h
                        exact ⟨by rw [← hlh]; rfl, by rw [← hs]; exact add_l2_access_total sim.output result hoc2⟩
          · cases h
  · simp only [Operation.is_read, Operation.is_write] at h ⊢
    simp at h ⊢
    split at h
    · simp only [Option.some.injEq, Prod.mk.injEq] at h
      obtain ⟨⟨hla, hlh⟩, hs⟩ := h
      exact ⟨hlh.symm, by rw [← hs], by rw [← hs], hlh.symm, by rw [← hs],
        by rw [← hs]⟩
    · split at h
      · simp only [Option.some.injEq, Prod.mk.injEq] at h
        obtain ⟨⟨hla, hlh⟩, hs⟩ := h
        exact ⟨hlh.symm, by rw [← hs], by rw [← hs], hlh.symm, by rw [← hs],
          by rw [← hs]⟩
      · split at h
        · simp only [Option.some.injEq, Prod.mk.injEq] at h
          obtain ⟨⟨hla, hlh⟩, hs⟩ := h
          exact ⟨hlh.symm, by rw [← hs], by rw [← hs], hlh.symm, by rw [← hs],
            by rw [← hs]⟩
        · split at h
          · simp only [Option.some.injEq, Prod.mk.injEq] at h
            obtain ⟨⟨hla, hlh⟩, hs⟩ := h
            exact ⟨hlh.symm, by rw [← hs], by rw [← hs], hlh.symm, by rw [← hs],
              by rw [← hs]⟩
          · cases h
  · simp only [Operation.is_read, Operation.is_write] at h ⊢
    simp at h ⊢
    split at h
    · next hcond =>
        cases hacc : l2.access false (BlockAddress.new_l2_cache_address p sim.config) tm 0 with
        | none => simp only [hacc] at h; cases h
        | some racc =>
            obtain ⟨result, l21⟩ := racc
            simp only [hacc] at h
            simp only [Option.some.injEq, Prod.mk.injEq] at h
            obtain ⟨⟨hla, hlh⟩, hs⟩ := h
            exact ⟨by rw [← hlh]; rfl, by rw [← hs]; exact add_l2_access_total sim.output result hoc2⟩
    · next hn1 =>
      split at h
      · next hcond =>
          cases hacc : l2.access false (BlockAddress.new_l2_cache_address p sim.config) tm 0 with
          | none => simp only [hacc] at h; cases h
          | some racc =>
              obtain ⟨result, l21⟩ := racc
              simp only [hacc] at h
              simp only [Option.some.injEq, Prod.mk.injEq] at h
              obtain ⟨⟨hla, hlh⟩, hs⟩ := h
              exact ⟨by rw [← hlh]; rfl, by rw [← hs]; exact add_l2_access_total sim.output result hoc2⟩
      · next hn2 =>
        split at h
        · next hcond =>
            cases hacc : l2.access false (BlockAddress.new_l2_cache_address p sim.config) tm 0 with
            | none => simp only [hacc] at h; cases h
            | some racc =>
                obtain ⟨result, l21⟩ := racc
                simp only [hacc] at h
                simp only [Option.some.injEq, Prod.mk.injEq] at h
                obtain ⟨⟨hla, hlh⟩, hs⟩ := h
                exact ⟨by rw [← hlh]; rfl, by rw [← hs]; exact add_l2_access_total sim.output result hoc2⟩
        · next hn3 =>
          split at h
          · next hcond =>
              cases hacc : l2.access false (BlockAddress.new_l2_cache_address p sim.config) tm 0 with
              | none => simp only [hacc] at h; cases h
              | some racc =>
                  obtain ⟨result, l21⟩ := racc
                  simp only [hacc] at h
                  cases hacc2 : sim.dc.access false da tm 0 with
                  | none => simp only [hacc2] at h; cases h
                  | some racc2 =>
                      obtain ⟨hit2, dc1⟩ := racc2
                      simp only [hacc2] at h
                      split at h
                      · cases h
                      · simp only [Option.some.injEq, Prod.mk.injEq] at h
                        obtain ⟨⟨hla, hlh⟩, hs⟩ := h
                        exact ⟨by rw [← hlh]; rfl, by rw [← hs]; exact add_l2_access_total sim.output result hoc2⟩
          · cases h
  · simp only [Operation.is_read, Operation.is_write] at h ⊢
    simp at h ⊢
    split at h
    · next hcond =>
        cases hacc : l2.access false (BlockAddress.new_l2_cache_address p sim.config) tm 0 with
        | none => simp only [hacc] at h; cases h
        | some racc =>
            obtain ⟨result, l21⟩ := racc
            simp only [hacc] at h
            simp only [Option.some.injEq, Prod.mk.injEq] at h
            obtain ⟨⟨hla, hlh⟩, hs⟩ := h
            exact ⟨by rw [← hlh, hcond.1]; rfl, by rw [← hs]; exact add_l2_access_total sim.output result hoc2⟩
    · next hn1 =>
      split at h
      · next hcond =>
          cases hacc : l2.access false (BlockAddress.new_l2_cache_address p sim.config) tm 0 with
          | none => simp only [hacc] at h; cases h
          | some racc =>
              obtain ⟨result, l21⟩ := racc
              simp only [hacc] at h
              simp only [Option.some.injEq, Prod.mk.injEq] at h
              obtain ⟨⟨hla, hlh⟩, hs⟩ := h
              exact ⟨by rw [← hlh, hcond.1]; rfl, by rw [← hs]; exact add_l2_access_total sim.output result hoc2⟩
      · next hn2 =>
        split at h
        · next hcond =>
            cases hacc : l2.access false (BlockAddress.new_l2_cache_address p sim.config) tm 0 with
            | none => simp only [hacc] at h; cases h
            | some racc =>
                obtain ⟨result, l21⟩ := racc
                simp only [hacc] at h
                simp only [Option.some.injEq, Prod.mk.injEq] at h
                obtain ⟨⟨hla, hlh⟩, hs⟩ := h
                have hwt : sim.config.data_cache.is_write_through = false := by
                  have hx := hcond.1
                  simp [DataCacheConfig.is_write_back] at hx
                  simp [DataCacheConfig.is_write_through, hx]
                exact ⟨by rw [← hlh, hwt]; rfl,
                  by rw [← hs]; exact add_l2_access_total sim.output result hoc2⟩
        · next hn3 =>
          split at h
          · next hcond =>
              cases hacc : l2.access false (BlockAddress.new_l2_cache_address p sim.config) tm 0 with
              | none => simp only [hacc] at h; cases h
              | some racc =>
                  obtain ⟨result, l21⟩ := racc
                  simp only [hacc] at h
                  cases hacc2 : sim.dc.access false da tm 0 with
                  | none => simp only [hacc2] at h; cases h
                  | some racc2 =>
                      obtain ⟨hit2, dc1⟩ := racc2
                      simp only [hacc2] at h
                      split at h
                      · cases h
                      · simp only [Option.some.injEq, Prod.mk.injEq] at h
                        obtain ⟨⟨hla, hlh⟩, hs⟩ := h
                        have hwt : sim.config.data_cache.is_write_through = false := by
                          have hx := hcond.1
                          simp [DataCacheConfig.is_write_back] at hx
                          simp [DataCacheConfig.is_write_through, hx]
                        exact ⟨by rw [← hlh, hwt]; rfl,
                          by rw [← hs]; exact add_l2_access_total sim.output result hoc2⟩
          · cases h

/-! ## Claim C1: page-fault invalidation -/

theorem hasTag_iff_mem {l : List (Option Block)} {t : Nat} :
    hasTag l t = true ↔ t ∈ (l.filterMap id).map (fun b => b.tag) := by
  unfold hasTag
  rw [List.any_eq_true]
  constructor
  · rintro ⟨b, hb, ht⟩
    rw [beq_iff_eq] at ht
    exact ht ▸ List.mem_map_of_mem _ hb
  · intro hm
    obtain ⟨b, hb, ht⟩ := List.mem_map.mp hm
    exact ⟨b, hb, by rw [beq_iff_eq]; exact ht⟩

/-- Under distinct present tags, clearing a tag leaves no block with it. -/
theorem hasTag_evictTagAux_self {tag : Nat} {l : List (Option Block)}
    (hnodup : ((l.filterMap id).map (fun b => b.tag)).Nodup) :
    hasTag (evictTagAux tag l).2 tag = false := by
  induction l with
  | nil => rfl
  | cons x xs ih =>
      cases x with
      | none =>
          show hasTag (none :: (evictTagAux tag xs).2) tag = false
          rw [hasTag_cons_none]
          exact ih hnodup
      | some b =>
          rw [show ((some b :: xs).filterMap id) = b :: xs.filterMap id from rfl,
            List.map_cons, List.nodup_cons] at hnodup
          by_cases hbt : b.tag = tag
          · have hxs : hasTag xs tag = false := by
              cases hx : hasTag xs tag
              · rfl
              · exact absurd (hbt ▸ hasTag_iff_mem.mp hx) hnodup.1
            simp [evictTagAux, hbt, hasTag_cons_none, hxs]
          · have hb1 : (b.tag == tag) = false := by
              cases hx : (b.tag == tag)
              · rfl
              · exact absurd (by simpa using hx) hbt
            simp [evictTagAux, hbt, hasTag_cons_some, hb1, ih hnodup.2]

/-- Clearing one tag does not disturb the others. -/
theorem hasTag_evictTagAux_ne {tag t' : Nat} (hne : t' ≠ tag)
    (l : List (Option Block)) :
    hasTag (evictTagAux tag l).2 t' = hasTag l t' := by
  induction l with
  | nil => rfl
  | cons x xs ih =>
      cases x with
      | none =>
          show hasTag (none :: (evictTagAux tag xs).2) t' = _
          rw [hasTag_cons_none, hasTag_cons_none]
          exact ih
      | some b =>
          by_cases hbt : b.tag = tag
          · have hb1 : (b.tag == t') = false := by
              rw [hbt]
              exact beq_eq_false_iff_ne.mpr (Ne.symm hne)
            simp [evictTagAux, hbt, hasTag_cons_none, hasTag_cons_some, hb1]
            intro hq
            exact absurd hq.symm hne
          · simp [evictTagAux, hbt, hasTag_cons_some, ih]

/-- Clearing a tag preserves the distinctness of the present tags. -/
theorem evictTagAux_nodup_pres {tag : Nat} {l : List (Option Block)}
    (hnodup : ((l.filterMap id).map (fun b => b.tag)).Nodup) :
    ((((evictTagAux tag l).2).filterMap id).map (fun b => b.tag)).Nodup := by
  induction l with
  | nil => exact hnodup
  | cons x xs ih =>
      cases x with
      | none =>
          show (((none :: (evictTagAux tag xs).2).filterMap id).map _).Nodup
          exact ih hnodup
      | some b =>
          rw [show ((some b :: xs).filterMap id) = b :: xs.filterMap id from rfl,
            List.map_cons, List.nodup_cons] at hnodup
          by_cases hbt : b.tag = tag
          · simpa [evictTagAux, hbt] using hnodup.2
          · have hnotin : b.tag ∉ (((evictTagAux tag xs).2.filterMap id).map
                (fun b => b.tag)) := by
              intro hmem
              exact hnodup.1 (hasTag_iff_mem.mp
                (hasTag_evictTagAux_le (hasTag_iff_mem.mpr hmem)))
            have := ih hnodup.2
            simp only [evictTagAux, hbt, if_false]
            rw [show ((some b :: (evictTagAux tag xs).2).filterMap id) =
              b :: (evictTagAux tag xs).2.filterMap id from rfl, List.map_cons,
              List.nodup_cons]
            exact ⟨hnotin, this⟩

/-- Cache well-formedness for the invalidation claims: the present tags of
every set are distinct. -/
def cacheWF (c : Cache) : Prop :=
  ∀ s ∈ c.sets, ((s.blocks.filterMap id).map (fun b => b.tag)).Nodup

instance (c : Cache) : Decidable (cacheWF c) := by
  unfold cacheWF
  infer_instance

/-- One `Cache::invalidate` call clears its target, keeps every block of a
different (set, tag) pair, never resurrects an absent block, and preserves
well-formedness. -/
theorem invalidate_clears {c : Cache} {a : BlockAddress} {r : Option Block}
    {c1 : Cache} (hwf : cacheWF c) (h : c.invalidate a = some (r, c1)) :
    c1.is_hit a = false ∧
    (∀ a' : BlockAddress, ¬(a'.index = a.index ∧ a'.tag = a.tag) →
      c1.is_hit a' = c.is_hit a') ∧
    (∀ a' : BlockAddress, c.is_hit a' = false → c1.is_hit a' = false) ∧
    cacheWF c1 := by
  unfold Cache.invalidate at h
  cases hg : c.sets.get? a.index with
  | none =>
      unfold Cache.onSet at h
      rw [hg] at h
      cases h
  | some s =>
      rw [onSet_eq hg] at h
      simp only [Option.some.injEq, Prod.mk.injEq] at h
      obtain ⟨hr, hc1⟩ := h
      have hlt : a.index < c.sets.length := by
        by_contra hcon
        rw [List.get?_eq_none.mpr (by omega)] at hg
        cases hg
      have hset1 : c1.sets.get? a.index = some (s.evict_tag a.tag).2 := by
        rw [← hc1]
        exact get?_set_self _ hlt
      have hnods : ((s.blocks.filterMap id).map (fun b => b.tag)).Nodup :=
        hwf s (List.get?_mem hg)
      refine ⟨?_, ?_, ?_, ?_⟩
      · rw [cache_is_hit_eq hset1]
        exact hasTag_evictTagAux_self hnods
      · intro a' hne
        by_cases hidx : a'.index = a.index
        · have hta : a'.tag ≠ a.tag := fun ht => hne ⟨hidx, ht⟩
          rw [cache_is_hit_eq (by rw [hidx]; exact hset1),
            cache_is_hit_eq (by rw [hidx]; exact hg)]
          exact hasTag_evictTagAux_ne hta s.blocks
        · have hset2 : c1.sets.get? a'.index = c.sets.get? a'.index := by
            rw [← hc1]
            exact get?_set_ne _ (fun hq => hidx hq.symm)
          unfold Cache.is_hit Cache.get
          rw [hset2]
      · intro a' hmiss
        by_cases hidx : a'.index = a.index
        · rw [cache_is_hit_eq (by rw [hidx]; exact hset1)]
          rw [cache_is_hit_eq (by rw [hidx]; exact hg)] at hmiss
          cases hx : hasTag (evictTagAux a.tag s.blocks).2 a'.tag
          · exact hx
          · rw [hasTag_evictTagAux_le hx] at hmiss
            cases hmiss
        · have hset2 : c1.sets.get? a'.index = c.sets.get? a'.index := by
            rw [← hc1]
            exact get?_set_ne _ (fun hq => hidx hq.symm)
          unfold Cache.is_hit Cache.get at hmiss ⊢
          rw [hset2]
          exact hmiss
      · intro s' hs'
        rw [← hc1] at hs'
        rcases List.mem_or_eq_of_mem_set hs' with hold | hnew
        · exact hwf s' hold
        · rw [hnew]
          exact evictTagAux_nodup_pres hnods

/-- The invalidation loop clears every scanned block address, keeps every
block at an unscanned (set, tag) pair, never resurrects an absent block,
and preserves well-formedness. -/
theorem invalidatePageLoop_spec (decode : Nat → BlockAddress) (pa bs : Nat) :
    ∀ (ks : List Nat) (c : Cache) (cnt : Nat) {cnt' : Nat} {c' : Cache},
      invalidatePageLoop decode pa bs ks c cnt = some (cnt', c') →
      cacheWF c →
      (∀ k ∈ ks, c'.is_hit (decode (pa + k * bs)) = false) ∧
      (∀ a : BlockAddress,
        (∀ k ∈ ks, ¬(a.index = (decode (pa + k * bs)).index ∧
          a.tag = (decode (pa + k * bs)).tag)) →
        c'.is_hit a = c.is_hit a) ∧
      (∀ a : BlockAddress, c.is_hit a = false → c'.is_hit a = false) ∧
      cacheWF c' := by
  intro ks
  induction ks with
  | nil =>
      intro c cnt cnt' c' h hwf
      simp only [invalidatePageLoop, Option.some.injEq, Prod.mk.injEq] at h
      obtain ⟨h1, h2⟩ := h
      rw [← h2]
      exact ⟨fun k hk => absurd hk (List.not_mem_nil k), fun a h3 => rfl,
        fun a h3 => h3, hwf⟩
  | cons k rest ih =>
      intro c cnt cnt' c' h hwf
      simp only [invalidatePageLoop] at h
      cases hinv : c.invalidate (decode (pa + k * bs)) with
      | none => rw [hinv] at h; cases h
      | some rr =>
          obtain ⟨b, c1⟩ := rr
          rw [hinv] at h
          obtain ⟨hclr, hframe1, hmono1, hwf1⟩ := invalidate_clears hwf hinv
          obtain ⟨hrest, hframe2, hmono2, hwf2⟩ := ih c1 _ h hwf1
          refine ⟨?_, ?_, ?_, hwf2⟩
          · intro k2 hk2
            rcases List.mem_cons.mp hk2 with rfl | hk3
            · exact hmono2 _ hclr
            · exact hrest k2 hk3
          · intro a ha
            rw [hframe2 a (fun k2 hk2 => ha k2 (List.mem_cons_of_mem k hk2))]
            exact hframe1 a (ha k (List.mem_cons_self k rest))
          · intro a ha
            exact hmono2 a (hmono1 a ha)

theorem tlbInvalidatePageLoop_no_match (pa : Nat) (config : SimulatorConfig) :
    ∀ (es : List PageTableEntry) (c : Cache) (acc : List Block),
      (∀ e ∈ es, e.get_physical_address ≠ pa) →
      tlbInvalidatePageLoop pa config es c acc = some (acc, c) := by
  intro es
  induction es with
  | nil => intro c acc h; rfl
  | cons e rest ih =>
      intro c acc h
      simp only [tlbInvalidatePageLoop]
      rw [if_neg (h e (List.mem_cons_self e rest))]
      exact ih c acc (fun e2 he2 => h e2 (List.mem_cons_of_mem e he2))

/-- C1 amended: the invalidators run from the raw translated address, not
from the base of the reused page.  The data-cache (and L2) page invalidator
clears exactly the blocks at addresses `pa + k·block_size` for
`k < page_size/block_size` — a span that covers the page only when `pa` is
page-aligned — and leaves every block of a different (set, tag) pair
untouched; the TLB page invalidator compares the page-aligned entry
addresses against the raw `pa`, so whenever no entry's aligned address
equals `pa` (in particular whenever `pa` has a nonzero page offset and the
table is aligned) it removes nothing at all. -/
theorem c1_invalidation_amended (d : DataCache) (l2 : L2Cache) (tlb : TLBCache)
    (pt : PageTable) (pa : Nat) (config : SimulatorConfig)
    (hwfd : cacheWF d.cache) (hwfl : cacheWF l2.cache) :
    (∀ count d1, d.invalidate_page pa config = some (count, d1) →
      (∀ k, k < config.get_page_size / config.data_cache.get_block_size →
        d1.cache.is_hit (BlockAddress.new_data_cache_address
          (pa + k * config.data_cache.get_block_size) config) = false) ∧
      (∀ a : BlockAddress,
        (∀ k, k < config.get_page_size / config.data_cache.get_block_size →
          ¬(a.index = (BlockAddress.new_data_cache_address
              (pa + k * config.data_cache.get_block_size) config).index ∧
            a.tag = (BlockAddress.new_data_cache_address
              (pa + k * config.data_cache.get_block_size) config).tag)) →
        d1.cache.is_hit a = d.cache.is_hit a)) ∧
    (∀ count l21, l2.invalidate_page pa config = some (count, l21) →
      (∀ k, k < config.get_page_size / config.l2_cache.get_block_size →
        l21.cache.is_hit (BlockAddress.new_l2_cache_address
          (pa + k * config.l2_cache.get_block_size) config) = false) ∧
      (∀ a : BlockAddress,
        (∀ k, k < config.get_page_size / config.l2_cache.get_block_size →
          ¬(a.index = (BlockAddress.new_l2_cache_address
              (pa + k * config.l2_cache.get_block_size) config).index ∧
            a.tag = (BlockAddress.new_l2_cache_address
              (pa + k * config.l2_cache.get_block_size) config).tag)) →
        l21.cache.is_hit a = l2.cache.is_hit a)) ∧
    ((∀ e ∈ pt.get_entries, e.get_physical_address ≠ pa) →
      tlb.invalidate_page pa pt config = some ([], tlb)) := by
  refine ⟨?_, ?_, ?_⟩
  · intro count d1 h
    unfold DataCache.invalidate_page at h
    dsimp only at h
    split at h
    · cases h
    · cases hloop : invalidatePageLoop
          (fun addr => BlockAddress.new_data_cache_address addr config) pa
          config.data_cache.get_block_size
          (List.range (config.get_page_size / config.data_cache.get_block_size))
          d.cache 0 with
      | none => rw [hloop] at h; cases h
      | some rr =>
          obtain ⟨cnt2, c1⟩ := rr
          rw [hloop] at h
          simp only [Option.some.injEq, Prod.mk.injEq] at h
          obtain ⟨hcnt, hd1⟩ := h
          obtain ⟨hclr, hframe, hmono, hwf2⟩ :=
            invalidatePageLoop_spec _ pa config.data_cache.get_block_size _
              d.cache 0 hloop hwfd
          constructor
          · intro k hk
            rw [← hd1]
            exact hclr k (List.mem_range.mpr hk)
          · intro a ha
            rw [← hd1]
            exact hframe a (fun k hk => ha k (List.mem_range.mp hk))
  · intro count l21 h
    unfold L2Cache.invalidate_page at h
    dsimp only at h
    split at h
    · cases h
    · cases hloop : invalidatePageLoop
          (fun addr => BlockAddress.new_l2_cache_address addr config) pa
          config.l2_cache.get_block_size
          (List.range (config.get_page_size / config.l2_cache.get_block_size))
          l2.cache 0 with
      | none => rw [hloop] at h; cases h
      | some rr =>
          obtain ⟨cnt2, c1⟩ := rr
          rw [hloop] at h
          simp only [Option.some.injEq, Prod.mk.injEq] at h
          obtain ⟨hcnt, hl1⟩ := h
          obtain ⟨hclr, hframe, hmono, hwf2⟩ :=
            invalidatePageLoop_spec _ pa config.l2_cache.get_block_size _
              l2.cache 0 hloop hwfl
          constructor
          · intro k hk
            rw [← hl1]
            exact hclr k (List.mem_range.mpr hk)
          · intro a ha
            rw [← hl1]
            exact hframe a (fun k hk => ha k (List.mem_range.mp hk))
  · intro h
    unfold TLBCache.invalidate_page
    rw [tlbInvalidatePageLoop_no_match pa config pt.get_entries tlb.cache [] h]

/-- Fixture: virtual addressing, no TLB, no L2; two virtual pages share one
physical frame; a 4-set direct-mapped 4-byte-block L1. -/
def exCfg1 : SimulatorConfig :=
  { virtual_addresses_enabled := true, tlb_enabled := false, l2_cache_enabled := false
    tlb := ⟨1, 1⟩, page_table := ⟨2, 1, 16⟩
    data_cache := ⟨4, 1, 4, true⟩, l2_cache := ⟨1, 1, 4, true⟩ }

/-- Fixture: the simulator freshly built from `exCfg1`. -/
def exSim1 : Simulator := Simulator.from_config exCfg1

/-- C1 counterexample: read address 0 (loaded into L1 through physical
address 0 of frame 0), then translate the faulting address 0x18; the walk
reuses frame 0 and yields physical address 8 (page offset included), the
access is a genuine fault (effective TLB hit and page-table hit both
false), yet immediately after `fault_stage` propagates the fault the L1
block of physical address 0 — inside the reused page [0, 16) — is still
resident: the invalidator started at the unaligned address 8 and never
touched the blocks below the page offset. -/
theorem c1_invalidation_counterexample :
    ((exSim1.simulate_access (.Read 0)).bind (fun r1 =>
      (r1.2.translate_stage 0x18 r1.2.time).bind (fun r2 =>
        (r2.2.fault_stage r2.1.1).map (fun sim3 =>
          (r2.1.1, r2.1.2.1, r2.1.2.2.2,
            sim3.dc.cache.is_hit
              (BlockAddress.new_data_cache_address 0 sim3.config)))))) =
      some (8, false, false, true) := by
  decide

theorem c1_invalidation_amended_witness :
    cacheWF (DataCache.new_from_config exCfg1).cache ∧
    cacheWF (L2Cache.new_from_config exCfg1).cache ∧
    ((∀ count d1,
      (DataCache.new_from_config exCfg1).invalidate_page 8 exCfg1 =
        some (count, d1) →
      (∀ k, k < exCfg1.get_page_size / exCfg1.data_cache.get_block_size →
        d1.cache.is_hit (BlockAddress.new_data_cache_address
          (8 + k * exCfg1.data_cache.get_block_size) exCfg1) = false) ∧
      (∀ a : BlockAddress,
        (∀ k, k < exCfg1.get_page_size / exCfg1.data_cache.get_block_size →
          ¬(a.index = (BlockAddress.new_data_cache_address
              (8 + k * exCfg1.data_cache.get_block_size) exCfg1).index ∧
            a.tag = (BlockAddress.new_data_cache_address
              (8 + k * exCfg1.data_cache.get_block_size) exCfg1).tag)) →
        d1.cache.is_hit a = (DataCache.new_from_config exCfg1).cache.is_hit a)) ∧
    (∀ count l21,
      (L2Cache.new_from_config exCfg1).invalidate_page 8 exCfg1 =
        some (count, l21) →
      (∀ k, k < exCfg1.get_page_size / exCfg1.l2_cache.get_block_size →
        l21.cache.is_hit (BlockAddress.new_l2_cache_address
          (8 + k * exCfg1.l2_cache.get_block_size) exCfg1) = false) ∧
      (∀ a : BlockAddress,
        (∀ k, k < exCfg1.get_page_size / exCfg1.l2_cache.get_block_size →
          ¬(a.index = (BlockAddress.new_l2_cache_address
              (8 + k * exCfg1.l2_cache.get_block_size) exCfg1).index ∧
            a.tag = (BlockAddress.new_l2_cache_address
              (8 + k * exCfg1.l2_cache.get_block_size) exCfg1).tag)) →
        l21.cache.is_hit a = (L2Cache.new_from_config exCfg1).cache.is_hit a)) ∧
    ((∀ e ∈ (PageTable.new_from_config exCfg1).get_entries,
        e.get_physical_address ≠ 8) →
      (TLBCache.new_from_config exCfg1).invalidate_page 8
        (PageTable.new_from_config exCfg1) exCfg1 =
        some ([], TLBCache.new_from_config exCfg1))) :=
  ⟨by decide, by decide,
    c1_invalidation_amended (DataCache.new_from_config exCfg1)
      (L2Cache.new_from_config exCfg1) (TLBCache.new_from_config exCfg1)
      (PageTable.new_from_config exCfg1) 8 exCfg1 (by decide) (by decide)⟩

/-- The boolean returned by `DataCache::read` is the pre-access residency
of the requested block. -/
theorem dataCache_read_pre {d : DataCache} {a : BlockAddress} {t rnd : Nat}
    {h1 : Bool} {d1 : DataCache} (h : d.read a t rnd = some (h1, d1)) :
    h1 = d.cache.is_hit a := by
  cases hsget : d.cache.sets.get? a.index with
  | none =>
      simp only [DataCache.read, Cache.is_read_and_allocate_hit, Cache.onSet,
        hsget] at h
      cases h
  | some s =>
      rw [dataCache_read_eq d a t rnd hsget] at h
      simp only [Option.some.injEq, Prod.mk.injEq] at h
      obtain ⟨hh, h2⟩ := h
      rw [← hh, cache_is_hit_eq hsget]
      exact is_hit_eq_hasTag s a

/-- The data cache page invalidator always clears the block of the address
it was given (the first block of its scan), provided the page spans at
least one block. -/
theorem invalidate_page_clears_self {d : DataCache} {pa : Nat}
    {config : SimulatorConfig} {count : Nat} {d1 : DataCache}
    (hwf : cacheWF d.cache)
    (hpos : 0 < config.get_page_size / config.data_cache.get_block_size)
    (h : d.invalidate_page pa config = some (count, d1)) :
    d1.cache.is_hit (BlockAddress.new_data_cache_address pa config) = false := by
  unfold DataCache.invalidate_page at h
  dsimp only at h
  split at h
  · cases h
  · cases hloop : invalidatePageLoop
        (fun addr => BlockAddress.new_data_cache_address addr config) pa
        config.data_cache.get_block_size
        (List.range (config.get_page_size / config.data_cache.get_block_size))
        d.cache 0 with
    | none => rw [hloop] at h; cases h
    | some rr =>
        obtain ⟨cnt2, c1⟩ := rr
        rw [hloop] at h
        simp only [Option.some.injEq, Prod.mk.injEq] at h
        obtain ⟨hcnt, hd1⟩ := h
        obtain ⟨hclr, hframe, hmono, hwf2⟩ :=
          invalidatePageLoop_spec _ pa config.data_cache.get_block_size _
            d.cache 0 hloop hwf
        have h0 := hclr 0 (List.mem_range.mpr hpos)
        have haddr : pa + 0 * config.data_cache.get_block_size = pa := by omega
        rw [haddr] at h0
        rw [← hd1]
        exact h0

/-- The page-fault stage always invalidates the L1 block of the faulting
physical address (the invalidation scan starts there). -/
theorem fault_stage_dc_clears {sim : Simulator} {pa : Nat} {s4 : Simulator}
    (hwf : cacheWF sim.dc.cache)
    (hpos : 0 < sim.config.get_page_size / sim.config.data_cache.get_block_size)
    (h : sim.fault_stage pa = some s4) :
    s4.dc.cache.is_hit (BlockAddress.new_data_cache_address pa sim.config) =
      false := by
  unfold Simulator.fault_stage at h
  cases htlb : sim.tlb with
  | some tlb =>
      cases hpt : sim.page_table with
      | some pt =>
          simp only [htlb, hpt] at h
          cases hinv : tlb.invalidate_page pa pt sim.config with
          | none => simp only [hinv] at h; cases h
          | some r =>
              simp only [hinv] at h
              cases hdc : ({ sim with tlb := some r.2 } : Simulator).dc.invalidate_page pa
                  ({ sim with tlb := some r.2 } : Simulator).config with
              | none => simp only [hdc] at h; cases h
              | some rdc =>
                  simp only [hdc] at h
                  split at h
                  · cases h
                    exact invalidate_page_clears_self hwf hpos hdc
                  · cases hl2 : sim.l2 with
                    | none =>
                        simp only [hl2] at h
                        cases h
                        exact invalidate_page_clears_self hwf hpos hdc
                    | some l2 =>
                        simp only [hl2] at h
                        cases hil2 : l2.invalidate_page pa sim.config with
                        | none => simp only [hil2] at h; cases h
                        | some rl2 =>
                            simp only [hil2] at h
                            cases h
                            exact invalidate_page_clears_self hwf hpos hdc
      | none =>
          simp only [htlb, hpt] at h
          cases hdc : sim.dc.invalidate_page pa sim.config with
          | none => simp only [hdc] at h; cases h
          | some rdc =>
              simp only [hdc] at h
              split at h
              · cases h
                exact invalidate_page_clears_self hwf hpos hdc
              · cases hl2 : sim.l2 with
                | none =>
                    simp only [hl2] at h
                    cases h
                    exact invalidate_page_clears_self hwf hpos hdc
                | some l2 =>
                    simp only [hl2] at h
                    cases hil2 : l2.invalidate_page pa sim.config with
                    | none => simp only [hil2] at h; cases h
                    | some rl2 =>
                        simp only [hil2] at h
                        cases h
                        exact invalidate_page_clears_self hwf hpos hdc
  | none =>
      simp only [htlb] at h
      cases hdc : sim.dc.invalidate_page pa sim.config with
      | none => simp only [hdc] at h; cases h
      | some rdc =>
          simp only [hdc] at h
          split at h
          · cases h
            exact invalidate_page_clears_self hwf hpos hdc
          · cases hl2 : sim.l2 with
            | none =>
                simp only [hl2] at h
                cases h
                exact invalidate_page_clears_self hwf hpos hdc
            | some l2 =>
                simp only [hl2] at h
                cases hil2 : l2.invalidate_page pa sim.config with
                | none => simp only [hil2] at h; cases h
                | some rl2 =>
                    simp only [hil2] at h
                    cases h
                    exact invalidate_page_clears_self hwf hpos hdc

/-- C6 amended: with an L2 cache present, a read that hits L1 leaves the
L2 statistics untouched, surfaces no L2 result, and leaves the L2 state
unchanged (a page fault would have invalidated the L1 block of the
translated address, so a faulting access cannot read-hit L1); the L2 is
consulted (and its result counted in the statistics) exactly when the
access missed L1 or is a write; but the consulted result is surfaced in
the per-access output only when the access missed L1 or went through a
write-through L1 — a write that hits a write-back L1 still consults the
L2 and bumps its statistics while reporting no L2 result. -/
theorem c6_l2_reporting_amended (sim : Simulator) (op : Operation)
    (out : AccessOutput) (sim' : Simulator)
    (hoc : sim.output.config = sim.config)
    (hl2e : sim.config.is_l2_cache_enabled = true)
    (hwfd : cacheWF sim.dc.cache)
    (hpos : 0 < sim.config.get_page_size / sim.config.data_cache.get_block_size)
    (hrun : sim.simulate_access op = some (out, sim')) :
    (op.is_read = true → out.dc_hit = true →
      out.l2_hit = none ∧
      sim'.output.l2_hits = sim.output.l2_hits ∧
      sim'.output.l2_misses = sim.output.l2_misses ∧
      sim'.l2 = sim.l2) ∧
    (out.l2_hit.isSome =
      (¬out.dc_hit || (op.is_write && sim.config.data_cache.is_write_through))) ∧
    (sim'.output.l2_hits + sim'.output.l2_misses =
      sim.output.l2_hits + sim.output.l2_misses +
        (if ¬out.dc_hit || op.is_write then 1 else 0)) := by
  obtain ⟨hhc, pa, eff, pth, sim1, sim4, dh, dc1, lh, sim6, ta, la,
    hts, hfault, hdcacc, hl2s, hout, hsim'⟩ := simulate_access_decomp hrun
  have hc := hhc
  unfold Simulator.health_check at hc
  rw [Bool.and_eq_true] at hc
  obtain ⟨hcx, hcl2⟩ := hc
  rw [beq_iff_eq] at hcl2
  have hl2some : sim.l2.isSome = true := by rw [← hcl2]; exact hl2e
  obtain ⟨ho1, hc1', hd1, hl1⟩ := translate_stage_frame hts
  have h4 : sim4.output = (Simulator.stage23 sim1 eff pth).output ∧
      sim4.config = (Simulator.stage23 sim1 eff pth).config ∧
      sim4.l2.isSome = (Simulator.stage23 sim1 eff pth).l2.isSome ∧
      (¬((Simulator.stage23 sim1 eff pth).config.is_virtual_addresses_enabled &&
          ¬eff && ¬pth) = true → sim4 = Simulator.stage23 sim1 eff pth) := by
    split at hfault
    · next hcnd =>
        exact ⟨(fault_stage_parts hfault).1, (fault_stage_parts hfault).2.1,
          (fault_stage_parts hfault).2.2.2.2, fun hnot => absurd hcnd hnot⟩
    · next hcnd =>
        cases hfault
        exact ⟨rfl, rfl, rfl, fun h2 => rfl⟩
  have hl2sim4 : sim4.l2.isSome = true := by
    rw [h4.2.2.1, (stage23_parts sim1 eff pth).2.2.2.2.2, hl1]
    exact hl2some
  obtain ⟨l2x, hl2x⟩ := Option.isSome_iff_exists.mp hl2sim4
  have hoc5 : ({ sim4 with
      dc := dc1
      output := sim4.output.add_dc_access dh } :
        Simulator).output.config.is_l2_cache_enabled = true := by
    show (sim4.output.add_dc_access dh).config.is_l2_cache_enabled = true
    rw [(add_dc_access_parts _ _).2.2.2.2, h4.1,
      (stage23_l2_stats sim1 eff pth).2.2, ho1, hoc]
    exact hl2e
  have hl2x5 : ({ sim4 with
      dc := dc1
      output := sim4.output.add_dc_access dh } : Simulator).l2 = some l2x := hl2x
  obtain ⟨hsurf, htot, hreadhit⟩ := l2_stage_spec hl2x5 hoc5 hl2s
  have hcfg5 : ({ sim4 with
      dc := dc1
      output := sim4.output.add_dc_access dh } : Simulator).config = sim.config := by
    show sim4.config = sim.config
    rw [h4.2.1, (stage23_parts sim1 eff pth).1, hc1']
  have hl2stats5h : ({ sim4 with
      dc := dc1
      output := sim4.output.add_dc_access dh } :
        Simulator).output.l2_hits = sim.output.l2_hits := by
    show (sim4.output.add_dc_access dh).l2_hits = sim.output.l2_hits
    rw [(add_dc_access_parts _ _).2.2.1, h4.1,
      (stage23_l2_stats sim1 eff pth).1, ho1]
  have hl2stats5m : ({ sim4 with
      dc := dc1
      output := sim4.output.add_dc_access dh } :
        Simulator).output.l2_misses = sim.output.l2_misses := by
    show (sim4.output.add_dc_access dh).l2_misses = sim.output.l2_misses
    rw [(add_dc_access_parts _ _).2.2.2.1, h4.1,
      (stage23_l2_stats sim1 eff pth).2.1, ho1]
  have hfh : sim'.output.l2_hits = sim6.output.l2_hits := by
    rw [hsim']
    exact (add_access_parts _ _).2.2.2.2.1
  have hfm : sim'.output.l2_misses = sim6.output.l2_misses := by
    rw [hsim']
    exact (add_access_parts _ _).2.2.2.2.2.1
  have hodc : out.dc_hit = dh := by rw [hout]
  have holh : out.l2_hit = lh := by rw [hout]
  refine ⟨?_, ?_, ?_⟩
  · intro hr hdh
    have hdh2 : dh = true := by rw [← hodc]; exact hdh
    obtain ⟨hl2eq, hlhn, hhits, hmiss⟩ := hreadhit hr hdh2
    refine ⟨?_, ?_, ?_, ?_⟩
    · rw [holh]
      exact hlhn
    · rw [hfh, hhits, hl2stats5h]
    · rw [hfm, hmiss, hl2stats5m]
    · have hpre : dh = sim4.dc.cache.is_hit
          (BlockAddress.new_data_cache_address pa sim4.config) := by
        simp only [DataCache.access] at hdcacc
        rw [if_pos hr] at hdcacc
        exact dataCache_read_pre hdcacc
      have hs4 : sim4.l2 = sim.l2 := by
        split at hfault
        · next hcnd =>
            exfalso
            have hwf3 : cacheWF (Simulator.stage23 sim1 eff pth).dc.cache := by
              rw [(stage23_parts sim1 eff pth).2.2.2.2.1, hd1]
              exact hwfd
            have hpos3 : 0 <
                (Simulator.stage23 sim1 eff pth).config.get_page_size /
                  (Simulator.stage23 sim1 eff
                    pth).config.data_cache.get_block_size := by
              rw [(stage23_parts sim1 eff pth).1, hc1']
              exact hpos
            have hclr := fault_stage_dc_clears hwf3 hpos3 hfault
            rw [(fault_stage_parts hfault).2.1] at hpre
            rw [hclr] at hpre
            rw [hpre] at hdh2
            cases hdh2
        · next hcnd =>
            cases hfault
            rw [(stage23_parts sim1 eff pth).2.2.2.2.2, hl1]
      rw [hsim']
      show sim6.l2 = sim.l2
      rw [hl2eq]
      show sim4.l2 = sim.l2
      exact hs4
  · rw [holh, hodc, hsurf, hcfg5]
  · rw [hfh, hfm, htot, hl2stats5h, hl2stats5m, hodc]

/-- Fixture: physical addressing with a write-back L1 and a write-back L2. -/
def exCfg6 : SimulatorConfig :=
  { virtual_addresses_enabled := false, tlb_enabled := false, l2_cache_enabled := true
    tlb := ⟨1, 1⟩, page_table := ⟨1, 1, 16⟩
    data_cache := ⟨1, 1, 4, false⟩, l2_cache := ⟨1, 1, 4, false⟩ }

/-- Fixture: the simulator freshly built from `exCfg6`. -/
def exSim6 : Simulator := Simulator.from_config exCfg6

/-- C6 counterexample: writing the same address twice under a write-back L1
with an L2, the second write hits L1 yet the L2 is consulted (the combined
L2 hit/miss count rises from 1 to 2) while the per-access `l2_hit` field is
absent — the claim demands every consulted result be surfaced as `Some`. -/
theorem c6_l2_counterexample :
    ((exSim6.simulate_access (.Write 0)).map
      (fun r => r.2.output.l2_hits + r.2.output.l2_misses)) = some 1 ∧
    ((exSim6.simulate_access (.Write 0)).bind
      (fun r => r.2.simulate_access (.Write 0))).map
      (fun r => (r.1.dc_hit, r.1.l2_hit,
        r.2.output.l2_hits + r.2.output.l2_misses)) = some (true, none, 2) := by
  refine ⟨by decide, by decide⟩

theorem c6_l2_reporting_amended_witness :
    (exSim6.output.config = exSim6.config) ∧
    (exSim6.config.is_l2_cache_enabled = true) ∧
    (cacheWF exSim6.dc.cache) ∧
    (0 < exSim6.config.get_page_size /
      exSim6.config.data_cache.get_block_size) ∧
    ((exSim6.simulate_access (.Write 0)).isSome = true) ∧
    (∀ out sim', exSim6.simulate_access (.Write 0) = some (out, sim') →
      ((Operation.Write 0).is_read = true → out.dc_hit = true →
        out.l2_hit = none ∧
        sim'.output.l2_hits = exSim6.output.l2_hits ∧
        sim'.output.l2_misses = exSim6.output.l2_misses ∧
        sim'.l2 = exSim6.l2) ∧
      (out.l2_hit.isSome =
        (¬out.dc_hit || ((Operation.Write 0).is_write &&
          exSim6.config.data_cache.is_write_through))) ∧
      (sim'.output.l2_hits + sim'.output.l2_misses =
        exSim6.output.l2_hits + exSim6.output.l2_misses +
          (if ¬out.dc_hit || (Operation.Write 0).is_write then 1 else 0))) :=
  ⟨by decide, by decide, by decide, by decide, by decide,
    fun out sim' hrun =>
      c6_l2_reporting_amended exSim6 (.Write 0) out sim' (by decide) (by decide)
        (by decide) (by decide) hrun⟩

theorem c3_translate_amended_witness :
    (exPT3.entries.length = exPT3.virtual_pages) ∧
    (exPT3.page_size = 2 ^ exPT3.get_offset_bits) ∧
    (∀ s ∈ exPT3.entries, ∀ e, s = some e →
      e.page_size = exPT3.page_size ∧
      e.physical_address &&& u64_not (exPT3.page_size - 1) = e.physical_address) ∧
    (∀ v ∈ exPT3.physical_page_bookkeeping, v ≤ u64MAX) ∧
    (claimChosenFrame exPT3 < 2 ^ (64 - exPT3.get_offset_bits)) ∧
    (((exPT3.translate 0 7).isSome = true ↔
      exPT3.get_index_from_virtual_address 0 < exPT3.virtual_pages) ∧
    (∀ paddr hit pt', exPT3.translate 0 7 = some ((paddr, hit), pt') →
      hit = (exPT3.get_entry 0).isSome ∧
      (∃ e, pt'.entries.get? (exPT3.get_index_from_virtual_address 0) =
          some (some e) ∧
        e.last_access_time = 7 ∧
        paddr = e.physical_address ||| (0 &&& (exPT3.page_size - 1))) ∧
      (exPT3.get_physical_page_number paddr <
          exPT3.physical_page_bookkeeping.length →
        pt'.physical_page_bookkeeping.getD
          (exPT3.get_physical_page_number paddr) 0 = max 7 1))) :=
  ⟨by decide, by decide, by decide, by decide, by decide,
    c3_translate_amended exPT3 0 7 (by decide) (by decide) (by decide) (by decide)
      (by decide)⟩

/-- Fixture: a direct-mapped no-write-allocate data cache with one empty
set. -/
def exDC9 : DataCache :=
  DataCache.new 2 16 1 .LRU false

/-- C9 witness: the theorem applied to the concrete empty write-through
cache at a concrete address. -/
theorem c9_write_through_no_allocate_witness :
    exDC9.write (BlockAddress.new 0x20 1 4) 1 0 =
      some (false, { exDC9 with total_writes := exDC9.total_writes + 1,
                                total_write_misses := exDC9.total_write_misses + 1 }) ∧
    (∃ d2, exDC9.read (BlockAddress.new 0x20 1 4) 1 0 = some (false, d2) ∧
      d2.cache.is_hit (BlockAddress.new 0x20 1 4) = true) :=
  c9_write_through_no_allocate exDC9 (BlockAddress.new 0x20 1 4) 1 0 rfl
    ⟨CSet.new 16 1 .LRU, by decide, by decide⟩ (by decide)

/-! ## Claim C10: the TLB lookup inserts the entry -/

/-- C10: `TLBCache::translate` reports the residency status observed
before the lookup, and after it returns the entry for the looked-up
address is always resident — on a miss it is inserted as part of the
lookup itself, independently of any later page-table walk, evicting the
least-recently-used entry of a full LRU set. -/
theorem c10_tlb_translate_inserts (tlb : TLBCache) (a : BlockAddress) (t rnd : Nat)
    (hs : ∃ s, tlb.cache.sets.get? a.index = some s ∧ s.blocks ≠ []) :
    ∃ tlb1, tlb.translate a t rnd = some (tlb.cache.is_hit a, tlb1) ∧
      tlb1.cache.is_hit a = true ∧
      (∀ s, tlb.cache.sets.get? a.index = some s → s.is_full = true →
        tlb.cache.is_hit a = false →
        ((s.blocks.filterMap id).map (·.tag)).Nodup →
        s.evict_policy = .LRU →
        ∃ b, b ∈ s.blocks.filterMap id ∧
          (∀ x ∈ s.blocks.filterMap id, b.last_access ≤ x.last_access) ∧
          tlb1.cache.is_hit { a with tag := b.tag } = false) := by
  obtain ⟨s, hsget, hsne⟩ := hs
  have hlen : a.index < tlb.cache.sets.length := by
    by_contra hc
    rw [List.get?_eq_none.mpr (Nat.le_of_not_lt hc)] at hsget
    cases hsget
  have hpost : (tlb.cache.sets.set a.index
      (s.is_read_and_allocate_hit a t rnd).2).get? a.index =
      some (s.is_read_and_allocate_hit a t rnd).2 := get?_set_self _ (by simpa using hlen)
  have hhit1 : (s.is_read_and_allocate_hit a t rnd).1 = tlb.cache.is_hit a := by
    unfold CSet.is_read_and_allocate_hit
    rw [is_hit_eq_hasTag, cache_is_hit_eq hsget]
  refine ⟨_, by rw [tlbCache_translate_eq tlb a t rnd hsget, hhit1], ?_, ?_⟩
  · rw [cache_is_hit_eq hpost]
    unfold CSet.is_read_and_allocate_hit
    exact read_and_allocate_resident s a t rnd hsne
  · intro s2 hs2 hfull hmiss hnodup hpolicy
    have hs2e : s = s2 := by
      rw [hsget] at hs2
      exact Option.some.inj hs2
    subst hs2e
    have hnt : hasTag s.blocks a.tag = false := by
      rw [cache_is_hit_eq hsget] at hmiss
      exact hmiss
    obtain ⟨b, k, l1, l2, hdec, _, hle, hk, hev⟩ :=
      evict_full_core s rnd (fun b => b.last_access) hfull hsne hnodup
        (Or.inl ⟨hpolicy, rfl⟩)
    have hbmem : b ∈ s.blocks.filterMap id := by rw [hdec]; simp
    refine ⟨b, hbmem, hle, ?_⟩
    rw [cache_is_hit_eq hpost]
    show hasTag (s.is_read_and_allocate_hit a t rnd).2.blocks b.tag = false
    have hbta : ¬(b.tag = a.tag) := by
      intro hc
      rw [← hc] at hnt
      rw [hasTag_of_mem hbmem] at hnt
      cases hnt
    have hnewtag : ¬((Block.new a.tag a.index s.block_size t).tag = b.tag) := by
      rw [block_new_tag]
      exact fun hc => hbta hc.symm
    unfold CSet.is_read_and_allocate_hit CSet.read_and_allocate
    have htr2 : s.try_read a t = (false, s) := by
      unfold CSet.try_read
      simp only [updateFirstWithTag_not_found _ hnt]
    rw [htr2]
    simp only [Bool.false_eq_true, if_false]
    unfold CSet.try_read
    rw [hasTag_updateFirstWithTag _ _ (fun x => block_read_tag x t)]
    unfold CSet.allocate_block
    simp only [hfull, if_true]
    rw [hev]
    simp only
    rw [hasTag_insertFirstEmpty_ne _ hnewtag]
    exact hasTag_set_none_of_nodup hnodup hk

/-- Fixture: a full two-way LRU set for the TLB witness. -/
def exSet10 : CSet :=
  { blocks := [some ⟨3, 0, false, 16, 4, 4⟩, some ⟨9, 0, false, 16, 6, 6⟩]
    block_size := 16
    evict_policy := .LRU }

/-- Fixture: a one-set two-way LRU TLB holding two entries. -/
def exTLB10 : TLBCache :=
  { cache := { sets := [exSet10], associativity := 2, evict_policy := .LRU } }

/-- C10 witness: the theorem applied to the concrete full TLB set on a
missing key. -/
theorem c10_tlb_translate_inserts_witness :
    ∃ tlb1, exTLB10.translate (BlockAddress.new 5 0 0) 7 0 =
        some (exTLB10.cache.is_hit (BlockAddress.new 5 0 0), tlb1) ∧
      tlb1.cache.is_hit (BlockAddress.new 5 0 0) = true ∧
      (∀ s, exTLB10.cache.sets.get? (BlockAddress.new 5 0 0).index = some s →
        s.is_full = true →
        exTLB10.cache.is_hit (BlockAddress.new 5 0 0) = false →
        ((s.blocks.filterMap id).map (·.tag)).Nodup →
        s.evict_policy = .LRU →
        ∃ b, b ∈ s.blocks.filterMap id ∧
          (∀ x ∈ s.blocks.filterMap id, b.last_access ≤ x.last_access) ∧
          tlb1.cache.is_hit { BlockAddress.new 5 0 0 with tag := b.tag } = false) :=
  c10_tlb_translate_inserts exTLB10 (BlockAddress.new 5 0 0) 7 0
    ⟨exSet10, by decide, by decide⟩

/-- C8: for every address `A < 2^32` and every geometry
`(index_bits, offset_bits)` (with `tag_bits = 32 - index_bits - offset_bits`
as computed by `BlockAddress.new`), decoding and reconstructing via
`(tag <<< (index_bits+offset_bits)) ||| (index <<< offset_bits) ||| offset`
yields the address again. -/
theorem c8_block_address_round_trip (address index_bits offset_bits : Nat)
    (h : address < 2 ^ 32) :
    (BlockAddress.new address index_bits offset_bits).get_address = address := by
  show ((address >>> (index_bits + offset_bits)) <<< (offset_bits + index_bits)) |||
      (((address >>> offset_bits) &&& (2 ^ index_bits - 1)) <<< offset_bits) |||
      (address &&& (2 ^ offset_bits - 1)) = address
  clear h
  rw [Nat.shiftRight_eq_div_pow, Nat.shiftRight_eq_div_pow,
      Nat.and_pow_two_sub_one_eq_mod, Nat.and_pow_two_sub_one_eq_mod,
      Nat.shiftLeft_eq, Nat.shiftLeft_eq, Nat.lor_assoc]
  have h1 : address / 2 ^ offset_bits % 2 ^ index_bits * 2 ^ offset_bits |||
      address % 2 ^ offset_bits
      = 2 ^ offset_bits * (address / 2 ^ offset_bits % 2 ^ index_bits) +
        address % 2 ^ offset_bits := by
    rw [Nat.mul_comm (address / 2 ^ offset_bits % 2 ^ index_bits) (2 ^ offset_bits)]
    exact (Nat.mul_add_lt_is_or
      (Nat.mod_lt _ (Nat.pos_pow_of_pos offset_bits (by norm_num))) _).symm
  rw [h1]
  have hlt : 2 ^ offset_bits * (address / 2 ^ offset_bits % 2 ^ index_bits) +
      address % 2 ^ offset_bits < 2 ^ (offset_bits + index_bits) := by
    have q1 : address / 2 ^ offset_bits % 2 ^ index_bits < 2 ^ index_bits :=
      Nat.mod_lt _ (Nat.pos_pow_of_pos index_bits (by norm_num))
    have q2 : address % 2 ^ offset_bits < 2 ^ offset_bits :=
      Nat.mod_lt _ (Nat.pos_pow_of_pos offset_bits (by norm_num))
    calc 2 ^ offset_bits * (address / 2 ^ offset_bits % 2 ^ index_bits) +
          address % 2 ^ offset_bits
        < 2 ^ offset_bits * (address / 2 ^ offset_bits % 2 ^ index_bits) +
          2 ^ offset_bits := by omega
      _ = 2 ^ offset_bits * (address / 2 ^ offset_bits % 2 ^ index_bits + 1) := by ring
      _ ≤ 2 ^ offset_bits * 2 ^ index_bits := Nat.mul_le_mul_left _ (by omega)
      _ = 2 ^ (offset_bits + index_bits) := (pow_add 2 offset_bits index_bits).symm
  rw [Nat.mul_comm (address / 2 ^ (index_bits + offset_bits))
        (2 ^ (offset_bits + index_bits)),
      ← Nat.mul_add_lt_is_or hlt]
  have e3 : address / 2 ^ (index_bits + offset_bits) =
      address / 2 ^ offset_bits / 2 ^ index_bits := by
    rw [Nat.div_div_eq_div_mul, ← pow_add, Nat.add_comm offset_bits index_bits]
  rw [e3, pow_add, Nat.mul_assoc, ← Nat.add_assoc, ← Nat.mul_add,
      Nat.div_add_mod, Nat.div_add_mod]

/-- C8 witness: the round trip at a concrete address and geometry. -/
theorem c8_block_address_round_trip_witness :
    (0x12345678 : Nat) < 2 ^ 32 ∧
      (BlockAddress.new 0x12345678 3 4).get_address = 0x12345678 :=
  ⟨by norm_num, c8_block_address_round_trip 0x12345678 3 4 (by norm_num)⟩

/-! ## Claim C5: per-access main-memory reference count -/

/-- Fixture: a configuration with a write-through L1 and a write-back L2. -/
def exCfgWTWB : SimulatorConfig :=
  { virtual_addresses_enabled := false, tlb_enabled := false, l2_cache_enabled := true
    tlb := ⟨1, 1⟩, page_table := ⟨1, 1, 16⟩
    data_cache := ⟨1, 1, 16, true⟩, l2_cache := ⟨1, 1, 16, false⟩ }

/-- Fixture: a write access that hit the L1 data cache and whose consulted
L2 access hit as well. -/
def exWriteHit : AccessOutput :=
  { access := .Write 0, virtual_address := none, physical_address := 0
    virtual_page_number := none, page_offset := 0, tlb_address := none
    tlb_hit := none, page_table_hit := none, physical_page_number := 0
    dc_address := BlockAddress.new 0 0 4, dc_hit := true
    l2_address := some (BlockAddress.new 0 0 4), l2_hit := some true }

/-- C5 counterexample: for a write that hits a write-through L1 with a
write-back L2, the code charges 0 main-memory references while the claim's
matrix (both affected levels write-back, else cost 1) charges 1 because the
write-through L1 is an affected level that is not write-back. -/
theorem c5_main_memory_counterexample :
    exWriteHit.get_main_memory_accesses exCfgWTWB = 0 ∧
      claimMainMemoryMatrix exWriteHit exCfgWTWB = 1 := by
  constructor <;> rfl

/-- C5 amended: the read half of the matrix is as claimed (0 when the read
hits L1 or the consulted L2 hit, else 1); a write costs 0 exactly when it
hit some level (L1, or the consulted L2) and the configured L2 policy is
write-back — the L1 policy is not consulted for the write cost. -/
theorem c5_main_memory_amended (a : AccessOutput) (config : SimulatorConfig) :
    a.get_main_memory_accesses config =
      (if a.access.is_read then
        if a.dc_hit || a.l2_hit == some true then 0 else 1
      else
        if (a.dc_hit || a.l2_hit == some true) && config.l2_cache.is_write_back then 0
        else 1) := by
  rcases a with ⟨acc, va, pa, vpn, po, ta, th, pth, ppn, da, dh, la, lh⟩
  rcases config with ⟨v, te, le, tc, pc, ⟨ds, dss, dls, dwt⟩, ⟨l2s, l2ss, l2ls, l2wt⟩⟩
  rcases acc with addr | addr <;> rcases dh <;> rcases dwt <;> rcases l2wt <;>
      rcases lh with _ | lb <;>
    first
      | rfl
      | (rcases lb <;> rfl)

end MemSim
